import Mathlib

/-!
Shallow embedding of the rchess chess engine core (bitboards, attack
generation, position state with incremental Zobrist hashing, the FEN codec,
the legal move generator and the game controller), translated from the Rust
sources, together with theorems settling the specification claims.

64-bit words are represented as natural numbers below `2 ^ 64`; every
operation that can overflow reduces modulo `2 ^ 64`.
-/

namespace RChess

/-- The modulus of 64-bit words. -/
def M64 : Nat := 2 ^ 64

/-- `Color` from `defs/color.rs`. -/
inductive Color where
  | white
  | black
deriving DecidableEq, Repr, Fintype

/-- `Color::not` from `defs/color.rs`: toggles white and black. -/
def Color.negate : Color → Color
  | .white => .black
  | .black => .white

/-- `PieceType` from `defs/piece.rs`. -/
inductive PieceType where
  | pawn
  | knight
  | bishop
  | rook
  | queen
  | king
deriving DecidableEq, Repr, Fintype

/-- `Piece` from `defs/piece.rs`: a piece type together with a color. -/
structure Piece where
  kind : PieceType
  color : Color
deriving DecidableEq, Repr

/-- `CastleSide` from `defs/mod.rs`. -/
inductive CastleSide where
  | kingside
  | queenside
deriving DecidableEq, Repr, Fintype

/-- `Direction` from `defs/direction.rs`. -/
inductive Direction where
  | up
  | down
  | left
  | right
  | upLeft
  | upRight
  | downLeft
  | downRight
deriving DecidableEq, Repr

/-! Squares are `0..=63` in little-endian rank-file order (`defs/square.rs`):
`index = rank * 8 + file`, A1 = 0, H8 = 63. -/

namespace Square

/-- `Square::rank` (as the 0-based rank index). -/
def rank (sq : Nat) : Nat := sq / 8

/-- `Square::file` (as the 0-based file index). -/
def file (sq : Nat) : Nat := sq % 8

/-- `Square::at(rank, file)` from `defs/square.rs`. -/
def atRF (r f : Nat) : Nat := r * 8 + f

/-- `Square::up`: `None` on the eighth rank, else one rank up. -/
def up (sq : Nat) : Option Nat :=
  if rank sq = 7 then none else some (sq + 8)

/-- `Square::down`: `None` on the first rank, else one rank down. -/
def down (sq : Nat) : Option Nat :=
  if rank sq = 0 then none else some (sq - 8)

/-- `Square::left`: `None` on the A file, else one file left. -/
def left (sq : Nat) : Option Nat :=
  if file sq = 0 then none else some (sq - 1)

/-- `Square::right`: `None` on the H file, else one file right. -/
def right (sq : Nat) : Option Nat :=
  if file sq = 7 then none else some (sq + 1)

end Square

namespace BitBoard

/-- `BitBoard::EMPTY`. -/
def empty : Nat := 0

/-- `BitBoard::FULL` (`u64::MAX`). -/
def full : Nat := M64 - 1

/-- `BitBoard::WHITE_SQUARES` from `defs/bitboard.rs`. -/
def whiteSquares : Nat := 0x55AA55AA55AA55AA

/-- `BitBoard::BLACK_SQUARES` from `defs/bitboard.rs`. -/
def blackSquares : Nat := 0xAA55AA55AA55AA55

/-- `BitBoard::from_square`: `1u64 << square`. -/
def fromSquare (sq : Nat) : Nat := (1 <<< sq) % M64

/-- `BitBoard::from_squares`: union of the given squares. -/
def fromSquares (sqs : List Nat) : Nat :=
  sqs.foldl (fun bb sq => bb ||| fromSquare sq) 0

/-- `BitBoard::from_rank`: rank&nbsp;1 mask shifted up by the rank index. -/
def fromRank (r : Nat) : Nat := (0xFF <<< (r * 8)) % M64

/-- `BitBoard::from_file`: file&nbsp;A mask shifted right by the file index. -/
def fromFile (f : Nat) : Nat := (0x0101010101010101 <<< f) % M64

/-- `BitBoard::overlaps`: the two boards share a square. -/
def overlaps (a b : Nat) : Bool := a &&& b != 0

/-- `BitBoard::contains`: membership of a square. -/
def contains (bb sq : Nat) : Bool := overlaps bb (fromSquare sq)

/-- `BitBoard::popcnt` (`u64::count_ones`). -/
def popcnt (bb : Nat) : Nat := (List.range 64).countP (fun i => bb.testBit i)

/-- `BitBoard::is_empty`. -/
def isEmpty (bb : Nat) : Bool := bb == 0

/-- `BitBoard::b_scan_forward`: lowest set square, `none` when empty. -/
def bScanForward (bb : Nat) : Option Nat :=
  (List.range 64).find? (fun i => bb.testBit i)

/-- `BitBoard::b_scan_reverse`: highest set square, `none` when empty. -/
def bScanReverse (bb : Nat) : Option Nat :=
  (List.range 64).reverse.find? (fun i => bb.testBit i)

/-- `BitBoard::up`: `val << 8` (with 64-bit wraparound). -/
def up (bb : Nat) : Nat := (bb <<< 8) % M64

/-- `BitBoard::down`: `val >> 8`. -/
def down (bb : Nat) : Nat := bb >>> 8

/-- `BitBoard::left`: `val >> 1` (no file mask in the source). -/
def left (bb : Nat) : Nat := bb >>> 1

/-- `BitBoard::right`: `val << 1` (no file mask in the source). -/
def right (bb : Nat) : Nat := (bb <<< 1) % M64

/-- `BitBoard::neg` (bitwise complement, `!val` on `u64`). -/
def compl (bb : Nat) : Nat := bb ^^^ (M64 - 1)

/-- `BitBoard::shift_dir` from `defs/bitboard.rs`. -/
def shiftDir (bb : Nat) : Direction → Nat
  | .up => up bb
  | .down => down bb
  | .left => left bb
  | .right => right bb
  | .upLeft => left (up bb)
  | .upRight => right (up bb)
  | .downLeft => left (down bb)
  | .downRight => right (down bb)

/-- The ascending list of squares stored in a bitboard; this is the order the
`Iterator` implementation of `BitBoard` produces them in (repeated lowest-bit
extraction). -/
def squares (bb : Nat) : List Nat :=
  (List.range 64).filter (fun i => bb.testBit i)

end BitBoard

/-- `Direction::edge` from `defs/direction.rs`: the edge a direction runs into. -/
def Direction.edge : Direction → Nat
  | .up => BitBoard.fromRank 7
  | .down => BitBoard.fromRank 0
  | .left => BitBoard.fromFile 0
  | .right => BitBoard.fromFile 7
  | .upLeft => BitBoard.fromRank 7 ||| BitBoard.fromFile 0
  | .upRight => BitBoard.fromRank 7 ||| BitBoard.fromFile 7
  | .downLeft => BitBoard.fromRank 0 ||| BitBoard.fromFile 0
  | .downRight => BitBoard.fromRank 0 ||| BitBoard.fromFile 7

/-! Attack tables. The runtime tables are emitted at build time by
`table_gen`; the definitions below are the per-square translations of the
generator loops in `table_gen/leapers.rs` and `table_gen/general.rs`, and of
the non-magic slider path of `mask_gen/sliders.rs` (the crate's default,
`cfg(not(feature = "magic-table"))`, used by `chessboard/tables.rs`). -/

/-- Loop body of `generate_rays` from `table_gen/general.rs`: keep shifting
until the current position overlaps the direction's edge. The source loop runs
at most 7 times; 8 units of fuel make the recursion structural. -/
def raysAux (dir : Direction) : Nat → Nat → Nat → Nat
  | _pos, acc, 0 => acc
  | pos, acc, fuel + 1 =>
    if BitBoard.overlaps dir.edge pos then acc
    else
      let pos2 := BitBoard.shiftDir pos dir
      raysAux dir pos2 (acc ||| pos2) fuel

/-- `RAYS[square][dir]` from `table_gen/general.rs`. -/
def rays (sq : Nat) (dir : Direction) : Nat :=
  raysAux dir (BitBoard.fromSquare sq) 0 8

/-- `ray_attacks` from `mask_gen/sliders.rs`. -/
def rayAttacks (sq : Nat) (dir : Direction) (occupancy : Nat) : Nat :=
  let attacks := rays sq dir
  let blockers := attacks &&& occupancy
  if BitBoard.isEmpty blockers then attacks
  else
    let blockerSquare :=
      match dir with
      | .up | .right | .upLeft | .upRight => (BitBoard.bScanForward blockers).getD 0
      | .down | .left | .downLeft | .downRight => (BitBoard.bScanReverse blockers).getD 0
    attacks ^^^ rays blockerSquare dir

/-- `get_bishop_attacks_slow` from `mask_gen/sliders.rs`. -/
def getBishopAttacks (sq occupancy : Nat) : Nat :=
  rayAttacks sq .upLeft occupancy ||| rayAttacks sq .upRight occupancy |||
    rayAttacks sq .downLeft occupancy ||| rayAttacks sq .downRight occupancy

/-- `get_rook_attacks_slow` from `mask_gen/sliders.rs`. -/
def getRookAttacks (sq occupancy : Nat) : Nat :=
  rayAttacks sq .up occupancy ||| rayAttacks sq .down occupancy |||
    rayAttacks sq .left occupancy ||| rayAttacks sq .right occupancy

/-- `PAWN_ATTACKS[color][sq]`, the per-square body of `generate_pawn_attacks`
in `table_gen/leapers.rs`. -/
def getPawnAttacks (sq : Nat) (c : Color) : Nat :=
  let bb := BitBoard.fromSquare sq
  match c with
  | .white =>
    (if Square.file sq ≠ 0 ∧ Square.rank sq ≠ 7 then BitBoard.left (BitBoard.up bb) else 0) |||
      (if Square.file sq ≠ 7 ∧ Square.rank sq ≠ 7 then BitBoard.right (BitBoard.up bb) else 0)
  | .black =>
    (if Square.file sq ≠ 0 ∧ Square.rank sq ≠ 0 then BitBoard.left (BitBoard.down bb) else 0) |||
      (if Square.file sq ≠ 7 ∧ Square.rank sq ≠ 0 then BitBoard.right (BitBoard.down bb) else 0)

/-- `KNIGHT_ATTACKS[sq]`, the per-square body of `generate_knight_attacks`
in `table_gen/leapers.rs`. -/
def getKnightAttacks (sq : Nat) : Nat :=
  let bb := BitBoard.fromSquare sq
  let r := Square.rank sq
  let f := Square.file sq
  (if r ≠ 7 ∧ 1 < f then BitBoard.left (BitBoard.left (BitBoard.up bb)) else 0) |||
    (if r ≠ 7 ∧ f < 6 then BitBoard.right (BitBoard.right (BitBoard.up bb)) else 0) |||
    (if r ≠ 0 ∧ 1 < f then BitBoard.left (BitBoard.left (BitBoard.down bb)) else 0) |||
    (if r ≠ 0 ∧ f < 6 then BitBoard.right (BitBoard.right (BitBoard.down bb)) else 0) |||
    (if f ≠ 0 ∧ r < 6 then BitBoard.up (BitBoard.up (BitBoard.left bb)) else 0) |||
    (if f ≠ 0 ∧ 1 < r then BitBoard.down (BitBoard.down (BitBoard.left bb)) else 0) |||
    (if f ≠ 7 ∧ r < 6 then BitBoard.up (BitBoard.up (BitBoard.right bb)) else 0) |||
    (if f ≠ 7 ∧ 1 < r then BitBoard.down (BitBoard.down (BitBoard.right bb)) else 0)

/-- `KING_ATTACKS[sq]`, the per-square body of `generate_king_attacks`
in `table_gen/leapers.rs`. -/
def getKingAttacks (sq : Nat) : Nat :=
  let bb := BitBoard.fromSquare sq
  let r := Square.rank sq
  let f := Square.file sq
  (if r ≠ 0 then BitBoard.down bb else 0) |||
    (if r ≠ 7 then BitBoard.up bb else 0) |||
    (if f ≠ 0 then BitBoard.left bb else 0) |||
    (if f ≠ 7 then BitBoard.right bb else 0) |||
    (if r ≠ 0 ∧ f ≠ 0 then BitBoard.left (BitBoard.down bb) else 0) |||
    (if r ≠ 0 ∧ f ≠ 7 then BitBoard.right (BitBoard.down bb) else 0) |||
    (if r ≠ 7 ∧ f ≠ 0 then BitBoard.left (BitBoard.up bb) else 0) |||
    (if r ≠ 7 ∧ f ≠ 7 then BitBoard.right (BitBoard.up bb) else 0)

/-- `DIRECT_CONNECTIONS[a][b]`, the per-pair body of
`generate_direct_connections` in `table_gen/general.rs`. -/
def getDirectConnection (startSq endSq : Nat) : Nat :=
  let startBB := BitBoard.fromSquare startSq
  let endBB := BitBoard.fromSquare endSq
  let occupancy := startBB ||| endBB
  let bishopAttacks := getBishopAttacks startSq occupancy
  let rookAttacks := getRookAttacks startSq occupancy
  if BitBoard.overlaps bishopAttacks endBB then
    bishopAttacks &&& getBishopAttacks endSq occupancy
  else if BitBoard.overlaps rookAttacks endBB then
    rookAttacks &&& getRookAttacks endSq occupancy
  else 0

/-- `AXIS_CONNECTIONS[a][b]`, the per-pair body of
`generate_axis_connections` in `table_gen/general.rs`. -/
def getConnectionAxis (startSq endSq : Nat) : Nat :=
  let startBB := BitBoard.fromSquare startSq
  let endBB := BitBoard.fromSquare endSq
  let bishopAttacks := getBishopAttacks startSq 0 ||| startBB
  let rookAttacks := getRookAttacks startSq 0 ||| startBB
  let conn1 :=
    if BitBoard.overlaps bishopAttacks endBB then
      bishopAttacks &&& (getBishopAttacks endSq 0 ||| endBB)
    else 0
  let conn2 :=
    if BitBoard.overlaps rookAttacks endBB then
      rookAttacks &&& (getRookAttacks endSq 0 ||| endBB)
    else 0
  conn1 ||| conn2

/-- `get_ghost_bishop` from `chessboard/tables.rs`. -/
def getGhostBishop (sq occupancy friendly : Nat) : Nat :=
  let bishopSeen := getBishopAttacks sq occupancy
  let seenFriends := friendly &&& bishopSeen
  bishopSeen ^^^ getBishopAttacks sq (occupancy ^^^ seenFriends)

/-- `get_ghost_rook` from `chessboard/tables.rs`. -/
def getGhostRook (sq occupancy friendly : Nat) : Nat :=
  let rookSeen := getRookAttacks sq occupancy
  let seenFriends := friendly &&& rookSeen
  rookSeen ^^^ getRookAttacks sq (occupancy ^^^ seenFriends)

/-! Zobrist hashing (`chessboard/zobrist.rs`). -/

/-- `Color::index`. -/
def Color.index : Color → Nat
  | .white => 0
  | .black => 1

/-- `PieceType::index`. -/
def PieceType.index : PieceType → Nat
  | .pawn => 0
  | .knight => 1
  | .bishop => 2
  | .rook => 3
  | .queen => 4
  | .king => 5

/-- Modelled from the spec: `PIECE_ZOBRIST` is a table of random 64-bit values
produced at build time by a seeded PRNG (`table_gen/zobrist.rs` writes it into
`OUT_DIR`, so the concrete numbers are not part of `src/`). The spec only
requires fixed reproducible values; the development uses an explicit fixed
assignment, and every hashing theorem below is independent of the values. -/
def pieceZobrist (c : Color) (k : PieceType) (sq : Nat) : Nat :=
  ((c.index * 6 + k.index) * 64 + sq % 64 + 2) * 0x9E3779B97F4A7C15 % M64

/-- Modelled from the spec: `CASTLE_RIGHTS_ZOBRIST` (build-generated random
values, see `pieceZobrist`). Indexed `[side][color]`. -/
def castleZobrist (side : CastleSide) (c : Color) : Nat :=
  let s := match side with | .kingside => 0 | .queenside => 1
  (800 + s * 2 + c.index) * 0xC2B2AE3D27D4EB4F % M64

/-- Modelled from the spec: `EN_PASSANT_ZOBRIST` keyed by file
(build-generated random values, see `pieceZobrist`). -/
def epZobrist (f : Nat) : Nat :=
  (900 + f % 8) * 0xA24BAED4963EE407 % M64

/-- Modelled from the spec: `TURN_ZOBRIST` (build-generated random value,
see `pieceZobrist`). -/
def turnZobrist : Nat := 0x9FB21C651E98DF25

namespace ZobristHash

/-- `ZobristHash::piece`: XOR the key of a piece on a square. -/
def piece (h : Nat) (sq : Nat) (p : Piece) : Nat :=
  h ^^^ pieceZobrist p.color p.kind sq

/-- `ZobristHash::castle_right`: XOR the key of a castling right. -/
def castleRight (h : Nat) (side : CastleSide) (c : Color) : Nat :=
  h ^^^ castleZobrist side c

/-- `ZobristHash::ep`: XOR the key of the en-passant file. -/
def ep (h : Nat) (sq : Nat) : Nat :=
  h ^^^ epZobrist (Square.file sq)

/-- `ZobristHash::toggle_turn`: XOR the turn key. -/
def toggleTurn (h : Nat) : Nat := h ^^^ turnZobrist

end ZobristHash

/-! Castling rights (`chessboard/castling_rights.rs`): a 4-bit vector. -/

namespace CastlingRights

/-- The bit of a right, `WHITE_KING = 0b1`, `WHITE_QUEEN = 0b10`,
`BLACK_KING = 0b100`, `BLACK_QUEEN = 0b1000`. -/
def bit : CastleSide → Color → Nat
  | .kingside, .white => 0b1
  | .queenside, .white => 0b10
  | .kingside, .black => 0b100
  | .queenside, .black => 0b1000

/-- `CastlingRights::is_set`. -/
def isSet (cr : Nat) (side : CastleSide) (c : Color) : Bool :=
  cr &&& bit side c != 0

/-- `CastlingRights::set`. -/
def setRight (cr : Nat) (side : CastleSide) (c : Color) : Nat :=
  cr ||| bit side c

/-- `CastlingRights::unset` (`self.0 &= !bit` on `u8`). -/
def unsetRight (cr : Nat) (side : CastleSide) (c : Color) : Nat :=
  cr &&& (0xFF ^^^ bit side c)

/-- `CastlingRights::is_none_set`. -/
def isNoneSet (cr : Nat) : Bool := cr == 0

end CastlingRights

/-! The position state (`chessboard/chessboard.rs`). -/

/-- `Move` from `chessboard/chessboard.rs`. -/
inductive Move where
  | quiet (start finish : Nat) (moving : PieceType)
  | capture (start finish : Nat) (moving : PieceType)
  | castle (start finish : Nat) (side : CastleSide)
  | doublePawnPush (start finish : Nat)
  | enPassant (start finish : Nat)
  | promote (start finish : Nat) (target : PieceType)
  | promoteCapture (start finish : Nat) (target : PieceType)
deriving DecidableEq, Repr

/-- `ChessBoard` from `chessboard/chessboard.rs`: piece bitboards indexed by
piece type, color bitboards indexed by color, castling rights, en-passant
square, turn, cached pinned and checker sets, Zobrist hash, halfmove clock. -/
structure ChessBoard where
  piece_bbs : PieceType → Nat
  color_bbs : Color → Nat
  castling_rights : Nat
  en_passant : Option Nat
  turn : Color
  pinned : Nat
  checkers : Nat
  hash : Nat
  half_move_clock : Nat

instance : DecidableEq ChessBoard := fun a b => by
  cases a; cases b
  exact decidable_of_iff _ (Iff.of_eq (ChessBoard.mk.injEq _ _ _ _ _ _ _ _ _ _ _ _ _ _ _ _ _ _)).symm

namespace ChessBoard

/-- `ChessBoard::query`: pieces of a given type and color. -/
def query (b : ChessBoard) (k : PieceType) (c : Color) : Nat :=
  b.piece_bbs k &&& b.color_bbs c

/-- `ChessBoard::color_occupancy`. -/
def colorOccupancy (b : ChessBoard) (c : Color) : Nat := b.color_bbs c

/-- `ChessBoard::occupancy`. -/
def occupancy (b : ChessBoard) : Nat :=
  b.colorOccupancy .white ||| b.colorOccupancy .black

/-- `ChessBoard::piece_at` from `chessboard/chessboard.rs`. -/
def pieceAt (b : ChessBoard) (sq : Nat) : Option Piece :=
  let sbb := BitBoard.fromSquare sq
  if BitBoard.overlaps (b.color_bbs .white) sbb then some (pieceAtAux b sq .white)
  else if BitBoard.overlaps (b.color_bbs .black) sbb then some (pieceAtAux b sq .black)
  else none
where
  /-- The kind-resolution part of `piece_at` (the `pnr` grouping trick). -/
  pieceAtAux (b : ChessBoard) (sq : Nat) (color : Color) : Piece :=
    let sbb := BitBoard.fromSquare sq
    let pnr := b.piece_bbs .pawn ||| b.piece_bbs .knight ||| b.piece_bbs .rook
    let kind :=
      if BitBoard.overlaps pnr sbb then
        if BitBoard.overlaps (b.piece_bbs .pawn) sbb then PieceType.pawn
        else if BitBoard.overlaps (b.piece_bbs .knight) sbb then PieceType.knight
        else PieceType.rook
      else
        if BitBoard.overlaps (b.piece_bbs .bishop) sbb then PieceType.bishop
        else if BitBoard.overlaps (b.piece_bbs .queen) sbb then PieceType.queen
        else PieceType.king
    ⟨kind, color⟩

/-- `ChessBoard::get_king_square` (`b_scan_forward().unwrap()`; boards without
a king of the color are outside the API contract, `0` stands for the
unreachable panic). -/
def getKingSquare (b : ChessBoard) (c : Color) : Nat :=
  (BitBoard.bScanForward (b.query .king c)).getD 0

/-- `ChessBoard::is_castle_right_set`. -/
def isCastleRightSet (b : ChessBoard) (side : CastleSide) (c : Color) : Bool :=
  CastlingRights.isSet b.castling_rights side c

/-- `ChessBoard::insert`: sets the square's bit in the piece-type and color
bitboards and XORs the piece key into the hash (assumes the square empty). -/
def insert (b : ChessBoard) (sq : Nat) (p : Piece) : ChessBoard :=
  { b with
    piece_bbs := Function.update b.piece_bbs p.kind (b.piece_bbs p.kind ||| BitBoard.fromSquare sq)
    color_bbs := Function.update b.color_bbs p.color (b.color_bbs p.color ||| BitBoard.fromSquare sq)
    hash := ZobristHash.piece b.hash sq p }

/-- `ChessBoard::remove`: looks the piece up, clears its bits and XORs its key
out of the hash (assumes a piece on the square; the `None` branch stands for
the unreachable `unwrap` panic and leaves the board unchanged). -/
def remove (b : ChessBoard) (sq : Nat) : ChessBoard :=
  match b.pieceAt sq with
  | none => b
  | some p =>
    { b with
      piece_bbs := Function.update b.piece_bbs p.kind (b.piece_bbs p.kind ^^^ BitBoard.fromSquare sq)
      color_bbs := Function.update b.color_bbs p.color (b.color_bbs p.color ^^^ BitBoard.fromSquare sq)
      hash := ZobristHash.piece b.hash sq p }

/-- `ChessBoard::move_piece`: XORs start and end bits in the piece's two
bitboards and both piece keys into the hash. -/
def movePiece (b : ChessBoard) (start finish : Nat) (p : Piece) : ChessBoard :=
  let both := BitBoard.fromSquare start ||| BitBoard.fromSquare finish
  { b with
    piece_bbs := Function.update b.piece_bbs p.kind (b.piece_bbs p.kind ^^^ both)
    color_bbs := Function.update b.color_bbs p.color (b.color_bbs p.color ^^^ both)
    hash := ZobristHash.piece (ZobristHash.piece b.hash start p) finish p }

/-- `ChessBoard::toggle_turn`. -/
def toggleTurn (b : ChessBoard) : ChessBoard :=
  { b with turn := b.turn.negate, hash := ZobristHash.toggleTurn b.hash }

/-- `ChessBoard::set_castle_right`. -/
def setCastleRight (b : ChessBoard) (side : CastleSide) (c : Color) : ChessBoard :=
  { b with
    castling_rights := CastlingRights.setRight b.castling_rights side c
    hash := ZobristHash.castleRight b.hash side c }

/-- `ChessBoard::unset_castle_right`: only toggles (and hashes) a set right. -/
def unsetCastleRight (b : ChessBoard) (side : CastleSide) (c : Color) : ChessBoard :=
  if CastlingRights.isSet b.castling_rights side c then
    { b with
      castling_rights := CastlingRights.unsetRight b.castling_rights side c
      hash := ZobristHash.castleRight b.hash side c }
  else b

/-- `ChessBoard::unset_color_rights`. -/
def unsetColorRights (b : ChessBoard) (c : Color) : ChessBoard :=
  (b.unsetCastleRight .kingside c).unsetCastleRight .queenside c

/-- `ChessBoard::set_ep`. -/
def setEp (b : ChessBoard) (sq : Nat) : ChessBoard :=
  { b with en_passant := some sq, hash := ZobristHash.ep b.hash sq }

/-- `ChessBoard::clear_ep`. -/
def clearEp (b : ChessBoard) : ChessBoard :=
  match b.en_passant with
  | some sq => { b with en_passant := none, hash := ZobristHash.ep b.hash sq }
  | none => b

/-- `ChessBoard::is_attacked` from `chessboard/chessboard.rs`. -/
def isAttacked (b : ChessBoard) (sq : Nat) (by_ : Color) : Bool :=
  let us := by_.negate
  BitBoard.overlaps (b.query .pawn by_) (getPawnAttacks sq us) ||
    BitBoard.overlaps (b.query .knight by_) (getKnightAttacks sq) ||
    BitBoard.overlaps (b.query .king by_) (getKingAttacks sq) ||
    BitBoard.overlaps (b.query .bishop by_ ||| b.query .queen by_)
      (getBishopAttacks sq b.occupancy) ||
    BitBoard.overlaps (b.query .rook by_ ||| b.query .queen by_)
      (getRookAttacks sq b.occupancy)

/-- `ChessBoard::calculate_pinned` from `chessboard/chessboard.rs`. -/
def calculatePinned (b : ChessBoard) : ChessBoard :=
  let us := b.turn
  let them := b.turn.negate
  let friendly := b.colorOccupancy us
  let kingSq := b.getKingSquare us
  let enemyRooks := b.query .rook them ||| b.query .queen them
  let enemyBishops := b.query .bishop them ||| b.query .queen them
  let rookPinners := enemyRooks &&& getGhostRook kingSq b.occupancy friendly
  let bishopPinners := enemyBishops &&& getGhostBishop kingSq b.occupancy friendly
  let pinners := rookPinners ||| bishopPinners
  let pinned := (BitBoard.squares pinners).foldl
    (fun acc pinnerSq => acc ||| (friendly &&& getDirectConnection pinnerSq kingSq)) 0
  { b with pinned := pinned }

/-- `ChessBoard::calculate_checkers` from `chessboard/chessboard.rs`. -/
def calculateCheckers (b : ChessBoard) : ChessBoard :=
  let us := b.turn
  let them := b.turn.negate
  let kingSq := b.getKingSquare us
  let checkers :=
    (b.query .pawn them &&& getPawnAttacks kingSq us) |||
      (b.query .knight them &&& getKnightAttacks kingSq) |||
      ((b.query .bishop them ||| b.query .queen them) &&&
        getBishopAttacks kingSq b.occupancy) |||
      ((b.query .rook them ||| b.query .queen them) &&&
        getRookAttacks kingSq b.occupancy)
  { b with checkers := checkers }

/-- `ChessBoard::calculate_extra_data`. -/
def calculateExtraData (b : ChessBoard) : ChessBoard :=
  b.calculatePinned.calculateCheckers

/-- The castling-rights update applied when a rook of `us` moves from `start`
(shared by the `Quiet` and `Capture` arms of `make_move`). -/
def unsetMovedRookRights (b : ChessBoard) (us : Color) (start : Nat) : ChessBoard :=
  match us, start with
  | .black, 56 => b.unsetCastleRight .queenside us
  | .black, 63 => b.unsetCastleRight .kingside us
  | .white, 0 => b.unsetCastleRight .queenside us
  | .white, 7 => b.unsetCastleRight .kingside us
  | _, _ => b

/-- The castling-rights update applied when a capture lands on an enemy rook
home square (shared by the `Capture` and `PromoteCapture` arms). -/
def unsetCapturedRookRights (b : ChessBoard) (us them : Color) (finish : Nat) : ChessBoard :=
  match us, finish with
  | .black, 0 => b.unsetCastleRight .queenside them
  | .black, 7 => b.unsetCastleRight .kingside them
  | .white, 56 => b.unsetCastleRight .queenside them
  | .white, 63 => b.unsetCastleRight .kingside them
  | _, _ => b

/-- The rook start and end squares of the `Castle` arm of `make_move`
(`match (self.turn, side)` in `chessboard/chessboard.rs`). -/
def castleRookSquares (us : Color) (side : CastleSide) : Nat × Nat :=
  match us, side with
  | .black, .queenside => (56, 59)
  | .black, .kingside => (63, 61)
  | .white, .queenside => (0, 3)
  | .white, .kingside => (7, 5)

/-- The captured pawn's square in the `EnPassant` arm of `make_move`
(one square behind the arrival square from the mover's point of view). -/
def epVictimSquare (us : Color) (finish : Nat) : Nat :=
  match us with
  | .white => (Square.down finish).getD 0
  | .black => (Square.up finish).getD 0

/-- `ChessBoard::make_move` from `chessboard/chessboard.rs`: clears the
en-passant square, toggles the turn, dispatches on the move kind, updates the
halfmove clock and recomputes the pinned and checker sets. -/
def makeMove (b : ChessBoard) (mv : Move) : ChessBoard :=
  let us := b.turn
  let them := b.turn.negate
  let b := b.clearEp.toggleTurn
  let step : ChessBoard × Bool :=
    match mv with
    | .quiet start finish moving =>
      let step1 : ChessBoard × Bool :=
        if moving = PieceType.king then (b.unsetColorRights us, false)
        else if moving = PieceType.rook then (b.unsetMovedRookRights us start, false)
        else if moving = PieceType.pawn then (b, true)
        else (b, false)
      (step1.1.movePiece start finish ⟨moving, us⟩, step1.2)
    | .capture start finish moving =>
      let b :=
        if moving = PieceType.king then b.unsetColorRights us
        else if moving = PieceType.rook then b.unsetMovedRookRights us start
        else b
      let b := b.unsetCapturedRookRights us them finish
      let b := b.remove finish
      (b.movePiece start finish ⟨moving, us⟩, true)
    | .castle start finish side =>
      let rookSquares : Nat × Nat := castleRookSquares us side
      let b := b.movePiece rookSquares.1 rookSquares.2 ⟨.rook, us⟩
      let b := b.movePiece start finish ⟨.king, us⟩
      (b.unsetColorRights us, false)
    | .doublePawnPush start finish =>
      let epSq := match us with
        | .white => (Square.up start).getD 0
        | .black => (Square.down start).getD 0
      let b := b.setEp epSq
      (b.movePiece start finish ⟨.pawn, us⟩, true)
    | .enPassant start finish =>
      let capturedSq := epVictimSquare us finish
      let b := b.remove capturedSq
      (b.movePiece start finish ⟨.pawn, us⟩, true)
    | .promote start finish target =>
      let b := b.remove start
      (b.insert finish ⟨target, us⟩, true)
    | .promoteCapture start finish target =>
      let b := b.unsetCapturedRookRights us them finish
      let b := b.remove finish
      let b := b.remove start
      (b.insert finish ⟨target, us⟩, true)
  let b := step.1
  let b :=
    if step.2 then { b with half_move_clock := 0 }
    else { b with half_move_clock := (b.half_move_clock + 1) % 256 }
  b.calculateExtraData

/-- `ChessBoard::halfmoves`. -/
def halfmoves (b : ChessBoard) : Nat := b.half_move_clock

/-- The `PartialEq` implementation of `ChessBoard`: compares piece bitboards,
color bitboards, turn, castling rights and en-passant square (the cached
`pinned`/`checkers`/`hash`/halfmove-clock fields are ignored). -/
def boardEq (a b : ChessBoard) : Bool :=
  decide (a.piece_bbs = b.piece_bbs) && decide (a.color_bbs = b.color_bbs) &&
    decide (a.turn = b.turn) && decide (a.castling_rights = b.castling_rights) &&
    decide (a.en_passant = b.en_passant)

end ChessBoard

/-! The board builder (`chessboard/builder.rs`). -/

/-- `BoardBuilderError` from `chessboard/builder.rs`. -/
inductive BoardBuilderError where
  | twoKings
  | pawnOnLast
  | twoPieces
  | turnAlreadySet
  | castleRightAlreadySet
  | enPassantAlreadySet
deriving DecidableEq, Repr

/-- `BuilderConversionError` from `chessboard/chessboard.rs`. -/
inductive BuilderConversionError where
  | turnNotSet
  | missingKing
  | invalidEnPassant
  | invalidCastleRight
  | inactiveKingAttacked
  | tooManyPieces
deriving DecidableEq, Repr

/-- `FenFormatError` from `chessboard/chessboard.rs`. -/
inductive FenFormatError where
  | invalidPieceSection
  | missingPieceSection
  | invalidTurnSection
  | missingTurnSection
  | invalidCastleRights
  | missingCastleRights
  | invalidEnPassant
  | missingEnPassant
  | invalidHalfMoveSection
deriving DecidableEq, Repr

/-- `FenLoadError` from `chessboard/chessboard.rs`. -/
inductive FenLoadError where
  | formatting (e : FenFormatError)
  | builder (e : BoardBuilderError)
  | conversion (e : BuilderConversionError)
deriving DecidableEq, Repr

/-- `BoardBuilder` from `chessboard/builder.rs`. -/
structure BoardBuilder where
  piece_map : Nat → Option Piece
  piece_bbs : PieceType → Nat
  color_bbs : Color → Nat
  turn : Option Color
  castling_rights : Nat
  en_passant_square : Option Nat
  hash : Nat

namespace BoardBuilder

/-- `BoardBuilder::new`. -/
def new : BoardBuilder :=
  { piece_map := fun _ => none
    piece_bbs := fun _ => 0
    color_bbs := fun _ => 0
    turn := none
    castling_rights := 0
    en_passant_square := none
    hash := 0 }

/-- `BoardBuilder::piece` from `chessboard/builder.rs`. -/
def piece (bd : BoardBuilder) (sq : Nat) (p : Piece) :
    Except BoardBuilderError BoardBuilder :=
  if p.kind = PieceType.king ∧
      ¬ BitBoard.isEmpty (bd.piece_bbs .king &&& bd.color_bbs p.color) then
    .error .twoKings
  else if p.kind = PieceType.pawn ∧
      ((p.color = Color.white ∧ Square.rank sq = 7) ∨
        (p.color = Color.black ∧ Square.rank sq = 0)) then
    .error .pawnOnLast
  else if (bd.piece_map sq).isSome then
    .error .twoPieces
  else
    .ok { bd with
      piece_map := fun x => if x = sq then some p else bd.piece_map x
      piece_bbs := Function.update bd.piece_bbs p.kind (bd.piece_bbs p.kind ||| BitBoard.fromSquare sq)
      color_bbs := Function.update bd.color_bbs p.color (bd.color_bbs p.color ||| BitBoard.fromSquare sq)
      hash := ZobristHash.piece bd.hash sq p }

/-- `BoardBuilder::turn` from `chessboard/builder.rs`. -/
def setTurn (bd : BoardBuilder) (c : Color) : Except BoardBuilderError BoardBuilder :=
  if bd.turn.isSome then .error .turnAlreadySet
  else
    .ok { bd with
      turn := some c
      hash := if c = Color.black then ZobristHash.toggleTurn bd.hash else bd.hash }

/-- `BoardBuilder::castle_right` from `chessboard/builder.rs`. -/
def castleRight (bd : BoardBuilder) (side : CastleSide) (c : Color) :
    Except BoardBuilderError BoardBuilder :=
  if CastlingRights.isSet bd.castling_rights side c then .error .castleRightAlreadySet
  else
    .ok { bd with
      castling_rights := CastlingRights.setRight bd.castling_rights side c
      hash := ZobristHash.castleRight bd.hash side c }

/-- `BoardBuilder::en_passant` from `chessboard/builder.rs`. -/
def enPassant (bd : BoardBuilder) (sq : Nat) : Except BoardBuilderError BoardBuilder :=
  if bd.en_passant_square.isSome then .error .enPassantAlreadySet
  else
    .ok { bd with
      en_passant_square := some sq
      hash := ZobristHash.ep bd.hash sq }

end BoardBuilder

namespace ChessBoard

/-- `ChessBoard::from_builder` from `chessboard/chessboard.rs`, translated
check by check.  Note two properties of the source preserved here: the fourth
castling-right check tests the Black KINGSIDE right a second time (instead of
the queenside right) while demanding a rook on A8, and the constructed board
sets `en_passant := none` even when the builder carried a validated
en-passant square. -/
def fromBuilder (bd : BoardBuilder) : Except BuilderConversionError ChessBoard :=
  if BitBoard.popcnt (bd.color_bbs .white) > 18 then .error .tooManyPieces
  else if BitBoard.popcnt (bd.color_bbs .black) > 18 then .error .tooManyPieces
  else
    match bd.turn with
    | none => .error .turnNotSet
    | some turn =>
      if BitBoard.popcnt (bd.piece_bbs .king) ≠ 2 then .error .missingKing
      else
        let epCheck : Except BuilderConversionError Unit :=
          match bd.en_passant_square with
          | none => .ok ()
          | some sq =>
            match turn with
            | .white =>
              if Square.rank sq ≠ 5 then .error .invalidEnPassant
              else if bd.piece_map ((Square.down sq).getD 0) ≠ some ⟨.pawn, .black⟩ then
                .error .invalidEnPassant
              else .ok ()
            | .black =>
              if Square.rank sq ≠ 2 then .error .invalidEnPassant
              else if bd.piece_map ((Square.up sq).getD 0) ≠ some ⟨.pawn, .white⟩ then
                .error .invalidEnPassant
              else .ok ()
        match epCheck with
        | .error e => .error e
        | .ok () =>
          if CastlingRights.isSet bd.castling_rights .kingside .white ∧
              (bd.piece_map 4 ≠ some ⟨.king, .white⟩ ∨ bd.piece_map 7 ≠ some ⟨.rook, .white⟩) then
            .error .invalidCastleRight
          else if CastlingRights.isSet bd.castling_rights .queenside .white ∧
              (bd.piece_map 4 ≠ some ⟨.king, .white⟩ ∨ bd.piece_map 0 ≠ some ⟨.rook, .white⟩) then
            .error .invalidCastleRight
          else if CastlingRights.isSet bd.castling_rights .kingside .black ∧
              (bd.piece_map 60 ≠ some ⟨.king, .black⟩ ∨ bd.piece_map 63 ≠ some ⟨.rook, .black⟩) then
            .error .invalidCastleRight
          else if CastlingRights.isSet bd.castling_rights .kingside .black ∧
              (bd.piece_map 60 ≠ some ⟨.king, .black⟩ ∨ bd.piece_map 56 ≠ some ⟨.rook, .black⟩) then
            .error .invalidCastleRight
          else
            let chessboard : ChessBoard :=
              { piece_bbs := bd.piece_bbs
                color_bbs := bd.color_bbs
                castling_rights := bd.castling_rights
                en_passant := none
                turn := turn
                pinned := 0
                checkers := 0
                hash := bd.hash
                half_move_clock := 0 }
            if chessboard.isAttacked (chessboard.getKingSquare chessboard.turn.negate)
                chessboard.turn then
              .error .inactiveKingAttacked
            else
              .ok chessboard.calculateExtraData

end ChessBoard

/-! The FEN codec (`from_fen` and `get_fen` in `chessboard/chessboard.rs`).
FEN strings are represented as lists of characters. -/

/-- `PieceType::to_char`. -/
def PieceType.toChar : PieceType → Char
  | .pawn => 'p'
  | .knight => 'n'
  | .bishop => 'b'
  | .rook => 'r'
  | .queen => 'q'
  | .king => 'k'

/-- `PieceType::from_char`. -/
def PieceType.fromChar (c : Char) : Option PieceType :=
  if c = 'p' ∨ c = 'P' then some .pawn
  else if c = 'n' ∨ c = 'N' then some .knight
  else if c = 'b' ∨ c = 'B' then some .bishop
  else if c = 'r' ∨ c = 'R' then some .rook
  else if c = 'q' ∨ c = 'Q' then some .queen
  else if c = 'k' ∨ c = 'K' then some .king
  else none

/-- `Piece::to_char`: uppercase for White. -/
def Piece.toChar (p : Piece) : Char :=
  match p.color with
  | .white => p.kind.toChar.toUpper
  | .black => p.kind.toChar

/-- `Piece::from_char`: uppercase is White. -/
def Piece.fromChar (c : Char) : Option Piece :=
  match PieceType.fromChar c with
  | none => none
  | some kind =>
    some ⟨kind, if c.isUpper then Color.white else Color.black⟩

/-- `Square::from_u8`: indexes above 63 are invalid. -/
def Square.fromU8 (v : Nat) : Option Nat :=
  if v > 63 then none else some v

/-- `Square::from_string` from `defs/square.rs`: a lowercase file letter
followed by a rank digit. -/
def Square.fromString (s : List Char) : Except Unit Nat :=
  match s with
  | [fc, rc] =>
    if 'a' ≤ fc ∧ fc ≤ 'h' ∧ '1' ≤ rc ∧ rc ≤ '8' then
      .ok (Square.atRF (rc.toNat - '1'.toNat) (fc.toNat - 'a'.toNat))
    else .error ()
  | _ => .error ()

/-- The `Display` form of a square: file letter then rank digit. -/
def Square.toChars (sq : Nat) : List Char :=
  [Char.ofNat ('a'.toNat + Square.file sq), Char.ofNat ('1'.toNat + Square.rank sq)]

/-- `str::split_whitespace`, specialised to the space character used in FEN
strings. -/
def splitWhitespace (s : List Char) : List (List Char) :=
  go s []
where
  go : List Char → List Char → List (List Char)
    | [], acc => if acc.isEmpty then [] else [acc.reverse]
    | c :: rest, acc =>
      if c = ' ' then
        if acc.isEmpty then go rest [] else acc.reverse :: go rest []
      else go rest (c :: acc)

/-- `u8::parse` over a character list: digits only, value must fit in `u8`. -/
def parseU8 (s : List Char) : Option Nat :=
  match s with
  | [] => none
  | _ =>
    if s.all (fun c => '0' ≤ c ∧ c ≤ '9') then
      let v := s.foldl (fun acc c => acc * 10 + (c.toNat - '0'.toNat)) 0
      if v ≤ 255 then some v else none
    else none

namespace ChessBoard

/-- The piece-placement loop of `from_fen`: walks the piece section
character by character, tracking the running square index (which starts at
A8 = 56 and drops by 16 at each `/`). -/
def loadFenPieces : List Char → Nat → BoardBuilder →
    Except FenLoadError BoardBuilder
  | [], _, builder => .ok builder
  | c :: rest, squareIdx, builder =>
    match Piece.fromChar c with
    | some p =>
      match Square.fromU8 squareIdx with
      | none => .error (.formatting .invalidPieceSection)
      | some square =>
        match builder.piece square p with
        | .error e => .error (.builder e)
        | .ok builder => loadFenPieces rest (squareIdx + 1) builder
    | none =>
      if '1' ≤ c ∧ c ≤ '8' then
        loadFenPieces rest (squareIdx + (c.toNat - '0'.toNat)) builder
      else if c = '/' then
        loadFenPieces rest (squareIdx - 16) builder
      else .error (.formatting .invalidPieceSection)

/-- Propagation of a builder error into a `FenLoadError` (the `?` operator
with the `From` conversion). -/
def liftBuilderErr (r : Except BoardBuilderError BoardBuilder) :
    Except FenLoadError BoardBuilder :=
  match r with
  | .error e => .error (.builder e)
  | .ok b => .ok b

/-- The castling-rights loop of `from_fen`. -/
def loadFenCastleRights : List Char → BoardBuilder →
    Except FenLoadError BoardBuilder
  | [], builder => .ok builder
  | c :: rest, builder =>
    let step : Except FenLoadError BoardBuilder :=
      if c = 'K' then liftBuilderErr (builder.castleRight .kingside .white)
      else if c = 'Q' then liftBuilderErr (builder.castleRight .queenside .white)
      else if c = 'k' then liftBuilderErr (builder.castleRight .kingside .black)
      else if c = 'q' then liftBuilderErr (builder.castleRight .queenside .black)
      else .error (.formatting .invalidCastleRights)
    match step with
    | .error e => .error e
    | .ok builder => loadFenCastleRights rest builder

/-- `ChessBoard::from_fen` from `chessboard/chessboard.rs`. -/
def fromFen (fen : List Char) : Except FenLoadError ChessBoard := do
  let builder := BoardBuilder.new
  let chunks := splitWhitespace fen
  -- Piece section.
  let fenPieces ← match chunks[0]? with
    | none => .error (.formatting .missingPieceSection)
    | some s => .ok s
  let builder ← loadFenPieces fenPieces 56 builder
  -- Turn section.
  let fenTurn ← match chunks[1]? with
    | none => .error (.formatting .missingTurnSection)
    | some s => .ok s
  let builder ←
    if fenTurn = ['w'] then liftBuilderErr (builder.setTurn .white)
    else if fenTurn = ['b'] then liftBuilderErr (builder.setTurn .black)
    else .error (.formatting .invalidTurnSection)
  -- Castling rights section.
  let fenCastleRights ← match chunks[2]? with
    | none => .error (.formatting .missingCastleRights)
    | some s => .ok s
  let builder ←
    if fenCastleRights = ['-'] then .ok builder
    else loadFenCastleRights fenCastleRights builder
  -- En-passant section.
  let fenEnPassant ← match chunks[3]? with
    | none => .error (.formatting .missingEnPassant)
    | some s => .ok s
  let builder ←
    match Square.fromString fenEnPassant with
    | .ok square => liftBuilderErr (builder.enPassant square)
    | .error () =>
      if fenEnPassant ≠ ['-'] then .error (.formatting .invalidEnPassant)
      else .ok builder
  let board ← match fromBuilder builder with
    | .error e => .error (.conversion e)
    | .ok b => .ok b
  -- Halfmove clock (if provided).
  match chunks[4]? with
  | none => .ok board
  | some halfmoves =>
    match parseU8 halfmoves with
    | some h =>
      if h ≤ 100 then .ok { board with half_move_clock := h }
      else .error (.formatting .invalidHalfMoveSection)
    | none => .error (.formatting .invalidHalfMoveSection)

/-- One rank of the FEN piece section emitted by `get_fen` (files A to H,
runs of empty squares as digits). -/
def fenRankChars (b : ChessBoard) (r : Nat) : List Char :=
  let step : List Char × Nat → Nat → List Char × Nat := fun (acc, gap) f =>
    match b.pieceAt (Square.atRF r f) with
    | none => (acc, gap + 1)
    | some p =>
      ((if gap ≠ 0 then acc ++ [Char.ofNat ('0'.toNat + gap)] else acc) ++ [p.toChar], 0)
  let res := (List.range 8).foldl step ([], 0)
  if res.2 ≠ 0 then res.1 ++ [Char.ofNat ('0'.toNat + res.2)] else res.1

/-- `ChessBoard::get_fen` from `chessboard/chessboard.rs`: the four mandatory
fields (pieces from rank 8 down, turn, castling rights, en-passant square). -/
def getFen (b : ChessBoard) : List Char :=
  let fenPieces :=
    (List.intersperse ['/'] ([7, 6, 5, 4, 3, 2, 1, 0].map (b.fenRankChars))).flatten
  let fenColor : Char := match b.turn with | .white => 'w' | .black => 'b'
  let fenCastleRights : List Char :=
    if CastlingRights.isNoneSet b.castling_rights then ['-']
    else
      (if b.isCastleRightSet .kingside .white then ['K'] else []) ++
        (if b.isCastleRightSet .queenside .white then ['Q'] else []) ++
        (if b.isCastleRightSet .kingside .black then ['k'] else []) ++
        (if b.isCastleRightSet .queenside .black then ['q'] else [])
  let fenEpSquare : List Char :=
    match b.en_passant with
    | none => ['-']
    | some sq => Square.toChars sq
  fenPieces ++ [' '] ++ [fenColor] ++ [' '] ++ fenCastleRights ++ [' '] ++ fenEpSquare

end ChessBoard

/-- `START_FEN` from `defs/mod.rs`. -/
def startFen : List Char :=
  String.toList "rnbqkbnr/pppppppp/8/8/8/8/PPPPPPPP/RNBQKBNR w KQkq -"

/-- A placeholder board standing for the unreachable `unwrap` panic in
`ChessBoard::new` (the start FEN always loads). -/
def junkBoard : ChessBoard :=
  { piece_bbs := fun _ => 0, color_bbs := fun _ => 0, castling_rights := 0,
    en_passant := none, turn := .white, pinned := 0, checkers := 0, hash := 0,
    half_move_clock := 0 }

/-- `ChessBoard::new`: the starting position. -/
def ChessBoard.new : ChessBoard :=
  match ChessBoard.fromFen startFen with
  | .ok b => b
  | .error _ => junkBoard

/-! The legal move generator (`chessboard/movegen/generator.rs` and
`chessboard/movegen/movegen.rs`).  The Rust const generics `CAPTURES_ONLY`,
`IN_CHECK` and `CHECKED_PIN` become ordinary boolean parameters. -/

/-- `PieceMoves` from `movegen/movelist.rs`: a piece location together with
its target squares. -/
structure PieceMoves where
  location : Nat
  targets : Nat
deriving DecidableEq, Repr

/-- `MoveList` from `movegen/movelist.rs`, as a list; `push` appends at the
end (and drops entries with no targets), the iterator consumes the back. -/
def MoveList := List PieceMoves

/-- `MoveList::push`: only inserts piece moves with a nonempty target set. -/
def MoveList.push (ml : MoveList) (pm : PieceMoves) : MoveList :=
  if BitBoard.isEmpty pm.targets then ml else List.concat ml pm

namespace MoveGen

/-- `is_square_attacked_with_occupancy` from `movegen/generator.rs`. -/
def isSquareAttackedWithOccupancy (square occupancy : Nat) (by_ : Color)
    (b : ChessBoard) : Bool :=
  BitBoard.overlaps (b.query .pawn by_) (getPawnAttacks square by_.negate) ||
    BitBoard.overlaps (b.query .knight by_) (getKnightAttacks square) ||
    BitBoard.overlaps (b.query .king by_) (getKingAttacks square) ||
    BitBoard.overlaps (b.query .bishop by_ ||| b.query .queen by_)
      (getBishopAttacks square occupancy) ||
    BitBoard.overlaps (b.query .rook by_ ||| b.query .queen by_)
      (getRookAttacks square occupancy)

/-- `is_square_attacked` from `movegen/generator.rs`. -/
def isSquareAttacked (square : Nat) (by_ : Color) (b : ChessBoard) : Bool :=
  isSquareAttackedWithOccupancy square b.occupancy by_ b

/-- The defending mask used under a single check: the squares between king
and checker, plus the checkers themselves. -/
def defendingMask (b : ChessBoard) : Nat :=
  let kingSq := b.getKingSquare b.turn
  let checkerSq := (BitBoard.bScanForward b.checkers).getD 0
  getDirectConnection kingSq checkerSq ||| b.checkers

/-- `generate_pawn_attacks` from `movegen/generator.rs`. -/
def generatePawnAttacks (capturesOnly inCheck : Bool) (b : ChessBoard)
    (square : Nat) : Nat :=
  let us := b.turn
  let them := b.turn.negate
  let kingSq := b.getKingSquare us
  let enPassantBB := match b.en_passant with
    | none => 0
    | some sq => BitBoard.fromSquare sq
  let startRank : Nat := match us with | .white => 1 | .black => 6
  let pin : Bool × Bool :=
    if BitBoard.overlaps (BitBoard.fromSquare square) b.pinned then
      (true, decide (Square.file kingSq = Square.file square))
    else (false, false)
  let isPinned := pin.1
  let isPinnedForward := pin.2
  -- Pawn non-captures.
  let targets : Nat :=
    if (!capturesOnly || inCheck) && (!isPinned || isPinnedForward) then
      let forward := match us with
        | .white => BitBoard.up (BitBoard.fromSquare square)
        | .black => BitBoard.down (BitBoard.fromSquare square)
      if !BitBoard.overlaps forward b.occupancy then
        if Square.rank square = startRank then
          let doubleFwd := match us with
            | .white => BitBoard.up forward
            | .black => BitBoard.down forward
          if !BitBoard.overlaps doubleFwd b.occupancy then forward ||| doubleFwd
          else forward
        else forward
      else 0
    else 0
  -- Captures and en passant.
  let capPair : Nat × Nat :=
    if !isPinnedForward then
      let attacks :=
        if isPinned then getPawnAttacks square us &&& getConnectionAxis kingSq square
        else getPawnAttacks square us
      let targets := targets ||| (attacks &&& b.colorOccupancy them)
      let epMove : Nat :=
        if BitBoard.overlaps attacks enPassantBB then
          let enPassanted := match us with
            | .white => BitBoard.down enPassantBB
            | .black => BitBoard.up enPassantBB
          let newOccupancy :=
            b.occupancy ^^^ (BitBoard.fromSquare square ||| enPassantBB ||| enPassanted)
          let bishopCheckSpots := getBishopAttacks kingSq newOccupancy
          let enemyBishops := b.query .bishop them ||| b.query .queen them
          let rookCheckSpots := getRookAttacks kingSq newOccupancy
          let enemyRooks := b.query .rook them ||| b.query .queen them
          if !BitBoard.overlaps enemyRooks rookCheckSpots &&
              !BitBoard.overlaps enemyBishops bishopCheckSpots then
            enPassantBB
          else 0
        else 0
      (targets, epMove)
    else (targets, 0)
  let targets :=
    if inCheck then capPair.1 &&& defendingMask b else capPair.1
  targets ||| capPair.2

/-- `generate_knight_attacks` from `movegen/generator.rs`. -/
def generateKnightAttacks (capturesOnly inCheck checkedPin : Bool)
    (b : ChessBoard) (square : Nat) : Nat :=
  let us := b.turn
  let them := b.turn.negate
  if !checkedPin && BitBoard.contains b.pinned square then 0
  else
    let attacks := getKnightAttacks square
    if inCheck then attacks &&& defendingMask b
    else if capturesOnly then attacks &&& b.colorOccupancy them
    else attacks &&& BitBoard.compl (b.colorOccupancy us)

/-- `generate_castle_moves` from `movegen/generator.rs`. -/
def generateCastleMoves (inCheck : Bool) (b : ChessBoard) : Nat :=
  if inCheck then 0
  else
    let us := b.turn
    let them := b.turn.negate
    let kingside : Nat :=
      if b.isCastleRightSet .kingside us then
        let emptySquares := match us with
          | .white => BitBoard.fromSquares [5, 6]
          | .black => BitBoard.fromSquares [61, 62]
        if !BitBoard.overlaps emptySquares b.occupancy then
          let checked := (BitBoard.squares emptySquares).any
            (fun sq => isSquareAttacked sq them b)
          if !checked then
            match us with
            | .white => BitBoard.fromSquare 6
            | .black => BitBoard.fromSquare 62
          else 0
        else 0
      else 0
    let queenside : Nat :=
      if b.isCastleRightSet .queenside us then
        let unChecked := match us with
          | .white => BitBoard.fromSquares [2, 3]
          | .black => BitBoard.fromSquares [58, 59]
        let emptySquares := match us with
          | .white => BitBoard.fromSquares [1, 2, 3]
          | .black => BitBoard.fromSquares [57, 58, 59]
        if !BitBoard.overlaps emptySquares b.occupancy then
          let checked := (BitBoard.squares unChecked).any
            (fun sq => isSquareAttacked sq them b)
          if !checked then
            match us with
            | .white => BitBoard.fromSquare 2
            | .black => BitBoard.fromSquare 58
          else 0
        else 0
      else 0
    kingside ||| queenside

/-- `generate_king_attacks` from `movegen/generator.rs`.  The square-safety
loop iterates over the pre-filter attack set (the Rust `for target in attacks`
iterates a copy). -/
def generateKingAttacks (capturesOnly inCheck : Bool) (b : ChessBoard)
    (square : Nat) : Nat :=
  let us := b.turn
  let them := b.turn.negate
  let attacks := getKingAttacks square
  let attacks :=
    if capturesOnly && !inCheck then attacks &&& b.colorOccupancy them
    else attacks &&& BitBoard.compl (b.colorOccupancy us)
  let noKingOccupancy := b.occupancy ^^^ BitBoard.fromSquare square
  let attacks := (BitBoard.squares attacks).foldl
    (fun acc target =>
      if isSquareAttackedWithOccupancy target noKingOccupancy them b then
        acc ^^^ BitBoard.fromSquare target
      else acc)
    attacks
  if !capturesOnly then attacks ||| generateCastleMoves inCheck b else attacks

/-- `generate_bishop_attacks` from `movegen/generator.rs`. -/
def generateBishopAttacks (capturesOnly inCheck : Bool) (b : ChessBoard)
    (square : Nat) : Nat :=
  let us := b.turn
  let them := b.turn.negate
  let attacks := getBishopAttacks square b.occupancy
  if inCheck then
    let defending := defendingMask b
    if BitBoard.overlaps (BitBoard.fromSquare square) b.pinned then
      let pinnedAxis := getConnectionAxis (b.getKingSquare us) square
      attacks &&& defending &&& pinnedAxis
    else attacks &&& defending
  else if capturesOnly then
    if BitBoard.overlaps (BitBoard.fromSquare square) b.pinned then
      let pinnedAxis := getConnectionAxis (b.getKingSquare us) square
      attacks &&& b.colorOccupancy them &&& pinnedAxis
    else attacks &&& b.colorOccupancy them
  else
    let ourPieces := b.colorOccupancy us
    if BitBoard.overlaps (BitBoard.fromSquare square) b.pinned then
      let pinnedAxis := getConnectionAxis (b.getKingSquare us) square
      attacks &&& BitBoard.compl ourPieces &&& pinnedAxis
    else attacks &&& BitBoard.compl ourPieces

/-- `generate_rook_attacks` from `movegen/generator.rs`. -/
def generateRookAttacks (capturesOnly inCheck : Bool) (b : ChessBoard)
    (square : Nat) : Nat :=
  let us := b.turn
  let them := b.turn.negate
  let attacks := getRookAttacks square b.occupancy
  if inCheck then
    let defending := defendingMask b
    if BitBoard.overlaps (BitBoard.fromSquare square) b.pinned then
      let pinnedAxis := getConnectionAxis (b.getKingSquare us) square
      attacks &&& defending &&& pinnedAxis
    else attacks &&& defending
  else if capturesOnly then
    if BitBoard.overlaps (BitBoard.fromSquare square) b.pinned then
      let pinnedAxis := getConnectionAxis (b.getKingSquare us) square
      attacks &&& b.colorOccupancy them &&& pinnedAxis
    else attacks &&& b.colorOccupancy them
  else
    let ourPieces := b.colorOccupancy us
    if BitBoard.overlaps (BitBoard.fromSquare square) b.pinned then
      let pinnedAxis := getConnectionAxis (b.getKingSquare us) square
      attacks &&& BitBoard.compl ourPieces &&& pinnedAxis
    else attacks &&& BitBoard.compl ourPieces

/-- `generate_queen_attacks` from `movegen/generator.rs`. -/
def generateQueenAttacks (capturesOnly inCheck : Bool) (b : ChessBoard)
    (square : Nat) : Nat :=
  generateBishopAttacks capturesOnly inCheck b square |||
    generateRookAttacks capturesOnly inCheck b square

/-- `generate_pawn_moves` from `movegen/generator.rs`. -/
def generatePawnMoves (capturesOnly inCheck : Bool) (ml : MoveList)
    (b : ChessBoard) : MoveList :=
  (BitBoard.squares (b.query .pawn b.turn)).foldl
    (fun ml pawnSq =>
      ml.push ⟨pawnSq, generatePawnAttacks capturesOnly inCheck b pawnSq⟩)
    ml

/-- `generate_knight_moves` from `movegen/generator.rs` (only unpinned
knights are visited). -/
def generateKnightMoves (capturesOnly inCheck : Bool) (ml : MoveList)
    (b : ChessBoard) : MoveList :=
  (BitBoard.squares (b.query .knight b.turn &&& BitBoard.compl b.pinned)).foldl
    (fun ml knightSq =>
      ml.push ⟨knightSq, generateKnightAttacks capturesOnly inCheck true b knightSq⟩)
    ml

/-- `generate_king_moves` from `movegen/generator.rs`. -/
def generateKingMoves (capturesOnly inCheck : Bool) (ml : MoveList)
    (b : ChessBoard) : MoveList :=
  let kingSq := b.getKingSquare b.turn
  ml.push ⟨kingSq, generateKingAttacks capturesOnly inCheck b kingSq⟩

/-- `generate_bishop_moves` from `movegen/generator.rs`. -/
def generateBishopMoves (capturesOnly inCheck : Bool) (ml : MoveList)
    (b : ChessBoard) : MoveList :=
  (BitBoard.squares (b.query .bishop b.turn)).foldl
    (fun ml sq => ml.push ⟨sq, generateBishopAttacks capturesOnly inCheck b sq⟩)
    ml

/-- `generate_rook_moves` from `movegen/generator.rs`. -/
def generateRookMoves (capturesOnly inCheck : Bool) (ml : MoveList)
    (b : ChessBoard) : MoveList :=
  (BitBoard.squares (b.query .rook b.turn)).foldl
    (fun ml sq => ml.push ⟨sq, generateRookAttacks capturesOnly inCheck b sq⟩)
    ml

/-- `generate_queen_moves` from `movegen/generator.rs`. -/
def generateQueenMoves (capturesOnly inCheck : Bool) (ml : MoveList)
    (b : ChessBoard) : MoveList :=
  (BitBoard.squares (b.query .queen b.turn)).foldl
    (fun ml sq => ml.push ⟨sq, generateQueenAttacks capturesOnly inCheck b sq⟩)
    ml

/-- `generate_moves` from `movegen/generator.rs`: top-level dispatch on the
number of checkers. -/
def generateMoves (capturesOnly : Bool) (b : ChessBoard) : MoveList :=
  if BitBoard.isEmpty b.checkers then
    let ml : MoveList := []
    let ml := generatePawnMoves capturesOnly false ml b
    let ml := generateKnightMoves capturesOnly false ml b
    let ml := generateKingMoves capturesOnly false ml b
    let ml := generateBishopMoves capturesOnly false ml b
    let ml := generateRookMoves capturesOnly false ml b
    generateQueenMoves capturesOnly false ml b
  else if BitBoard.popcnt b.checkers = 1 then
    let ml : MoveList := []
    let ml := generatePawnMoves capturesOnly true ml b
    let ml := generateKnightMoves capturesOnly true ml b
    let ml := generateKingMoves capturesOnly true ml b
    let ml := generateBishopMoves capturesOnly true ml b
    let ml := generateRookMoves capturesOnly true ml b
    generateQueenMoves capturesOnly true ml b
  else
    generateKingMoves false true ([] : MoveList) b

/-- `generate_square_moves` from `movegen/generator.rs`. -/
def generateSquareMoves (capturesOnly : Bool) (b : ChessBoard)
    (square : Nat) : Nat :=
  match b.pieceAt square with
  | none => 0
  | some piece =>
    if piece.color ≠ b.turn then 0
    else if BitBoard.popcnt b.checkers > 1 then
      if piece.kind ≠ PieceType.king then 0
      else generateKingAttacks false true b (b.getKingSquare b.turn)
    else
      let inCheck := !BitBoard.isEmpty b.checkers
      match piece.kind with
      | .pawn => generatePawnAttacks capturesOnly inCheck b square
      | .knight => generateKnightAttacks capturesOnly inCheck false b square
      | .bishop => generateBishopAttacks capturesOnly inCheck b square
      | .rook => generateRookAttacks capturesOnly inCheck b square
      | .queen => generateQueenAttacks capturesOnly inCheck b square
      | .king => generateKingAttacks capturesOnly inCheck b square

/-- `MoveCreationError` from `movegen/movegen.rs`. -/
inductive MoveCreationError where
  | illegal
deriving DecidableEq, Repr

/-- `StrMoveCreationError` from `movegen/movegen.rs`. -/
inductive StrMoveCreationError where
  | invalidMove
  | illegalMove (e : MoveCreationError)
deriving DecidableEq, Repr

/-- `MoveGen::is_legal` from `movegen/movegen.rs`. -/
def isLegal (b : ChessBoard) (start finish : Nat) : Bool :=
  BitBoard.contains (generateSquareMoves false b start) finish

/-- `MoveGen::create_promotion_move_unchecked` from `movegen/movegen.rs`.
The `piece_at(start).unwrap()` panics off-contract; a pawn stands for the
unreachable value. -/
def createPromotionMoveUnchecked (b : ChessBoard) (start finish : Nat)
    (target : PieceType) : Move :=
  let us := b.turn
  let them := b.turn.negate
  let moving := ((b.pieceAt start).getD ⟨.pawn, us⟩).kind
  let fallback : Move :=
    if BitBoard.overlaps (BitBoard.fromSquare finish) (b.colorOccupancy them) then
      .capture start finish moving
    else .quiet start finish moving
  if moving = PieceType.pawn then
    let ranks : Nat × Nat × Nat := match us with
      | .white => (1, 3, 7)
      | .black => (6, 4, 0)
    if Square.rank start = ranks.1 ∧ Square.rank finish = ranks.2.1 then
      .doublePawnPush start finish
    else if b.en_passant = some finish then
      .enPassant start finish
    else if Square.rank finish = ranks.2.2 then
      if BitBoard.overlaps (BitBoard.fromSquare finish) (b.colorOccupancy them) then
        .promoteCapture start finish target
      else .promote start finish target
    else fallback
  else if moving = PieceType.king then
    let castleSquares : Nat × Nat × Nat := match us with
      | .white => (4, 6, 2)
      | .black => (60, 62, 58)
    if start = castleSquares.1 ∧ finish = castleSquares.2.1 then
      .castle start finish .kingside
    else if start = castleSquares.1 ∧ finish = castleSquares.2.2 then
      .castle start finish .queenside
    else fallback
  else fallback

/-- The four-step promotion sequence the `MoveGen` iterator emits after the
knight promotion: bishop, rook, queen (`PromoteStatus` in
`movegen/movegen.rs`). -/
def promoteContinuations (b : ChessBoard) (start finish : Nat) : List Move :=
  if BitBoard.overlaps (BitBoard.fromSquare finish) (b.colorOccupancy b.turn.negate) then
    [.promoteCapture start finish .bishop, .promoteCapture start finish .rook,
      .promoteCapture start finish .queen]
  else
    [.promote start finish .bishop, .promote start finish .rook,
      .promote start finish .queen]

/-- The moves the iterator yields for one `(start, end)` pair: the move built
with a knight promotion target, followed by the bishop/rook/queen variants
when it was a promotion. -/
def movesForTarget (b : ChessBoard) (start finish : Nat) : List Move :=
  let mv := createPromotionMoveUnchecked b start finish .knight
  match mv with
  | .promote _ _ _ => mv :: promoteContinuations b start finish
  | .promoteCapture _ _ _ => mv :: promoteContinuations b start finish
  | _ => [mv]

/-- The full iteration of a `MoveGen` (`Iterator::next` in
`movegen/movegen.rs`): entries are consumed from the back of the move list,
targets from the lowest square up, promotions expand to four moves. -/
def expand (b : ChessBoard) (ml : MoveList) : List Move :=
  (List.reverse ml).flatMap
    (fun pm => (BitBoard.squares pm.targets).flatMap (movesForTarget b pm.location))

/-- `MoveGen::legal(board).to_vec()`: the list of all legal moves. -/
def legal (b : ChessBoard) : List Move :=
  expand b (generateMoves false b)

/-- `MoveGen::create_promotion_move` from `movegen/movegen.rs`. -/
def createPromotionMove (b : ChessBoard) (start finish : Nat)
    (target : PieceType) : Except MoveCreationError Move :=
  if !isLegal b start finish then .error .illegal
  else .ok (createPromotionMoveUnchecked b start finish target)

/-- `MoveGen::create_move` from `movegen/movegen.rs`: promotion target
defaults to a queen. -/
def createMove (b : ChessBoard) (start finish : Nat) :
    Except MoveCreationError Move :=
  createPromotionMove b start finish .queen

/-- `MoveGen::create_str_move` from `movegen/movegen.rs`. -/
def createStrMove (b : ChessBoard) (s : List Char) :
    Except StrMoveCreationError Move :=
  if s.length < 4 then .error .invalidMove
  else
    match Square.fromString (s.take 2), Square.fromString ((s.drop 2).take 2) with
    | .ok start, .ok finish =>
      if s.length = 5 then
        match s[4]? with
        | some c =>
          let target : Option PieceType :=
            if c = 'n' then some .knight
            else if c = 'b' then some .bishop
            else if c = 'r' then some .rook
            else if c = 'q' then some .queen
            else none
          match target with
          | none => .error .invalidMove
          | some target =>
            match createPromotionMove b start finish target with
            | .error e => .error (.illegalMove e)
            | .ok mv => .ok mv
        | none => .error .invalidMove
      else
        match createMove b start finish with
        | .error e => .error (.illegalMove e)
        | .ok mv => .ok mv
    | _, _ => .error .invalidMove

end MoveGen

/-! The game controller (`chess_game.rs`). -/

/-- `DrawReason` from `chess_game.rs`. -/
inductive DrawReason where
  | insufficientMaterial
  | stalemate
  | threefoldRepetition
  | fiftyMoves
deriving DecidableEq, Repr

/-- `GameResult` from `chess_game.rs`. -/
inductive GameResult where
  | whiteWins
  | blackWins
  | draw (reason : DrawReason)
deriving DecidableEq, Repr

/-- `Footprint` from `chessboard/chessboard.rs`: the position state used as
the repetition key. -/
structure Footprint where
  piece_bbs : PieceType → Nat
  color_bbs : Color → Nat
  castling_rights : Nat
  en_passant : Option Nat
  turn : Color
  hash : Nat

instance : DecidableEq Footprint := fun a b => by
  cases a; cases b
  exact decidable_of_iff _ (Iff.of_eq (Footprint.mk.injEq _ _ _ _ _ _ _ _ _ _ _ _)).symm

/-- `ChessBoard::footprint`. -/
def ChessBoard.footprint (b : ChessBoard) : Footprint :=
  { piece_bbs := b.piece_bbs
    color_bbs := b.color_bbs
    castling_rights := b.castling_rights
    en_passant := b.en_passant
    turn := b.turn
    hash := b.hash }

/-- The repetition history `HashMap<Footprint, u8>`, as an association list
keyed by footprint equality. -/
abbrev History := List (Footprint × Nat)

/-- `HashMap::get` on the history. -/
def History.get (h : History) (fp : Footprint) : Option Nat :=
  (h.find? (fun e => decide (e.1 = fp))).map (·.2)

/-- The in-place increment performed through `get_mut`. -/
def History.bump (h : History) (fp : Footprint) : History :=
  h.map (fun e => if e.1 = fp then (e.1, (e.2 + 1) % 256) else e)

/-- The insufficient-material condition exactly as the final block of
`ChessGame::look_for_terminal` tests it (`chess_game.rs`). -/
def insufficientMaterialTriggers (b : ChessBoard) : Bool :=
  if BitBoard.popcnt (b.colorOccupancy .white) = 1 then
    if BitBoard.popcnt (b.colorOccupancy .black) = 1 then true
    else if BitBoard.popcnt (b.colorOccupancy .black) = 2 then
      !BitBoard.isEmpty (b.query .bishop .black) || !BitBoard.isEmpty (b.query .knight .black)
    else false
  else if BitBoard.popcnt (b.colorOccupancy .white) = 2 then
    if BitBoard.popcnt (b.colorOccupancy .black) = 2 then
      if BitBoard.overlaps (b.query .bishop .white) BitBoard.whiteSquares then
        BitBoard.overlaps (b.query .bishop .black) BitBoard.whiteSquares
      else if BitBoard.overlaps (b.query .bishop .white) BitBoard.blackSquares then
        BitBoard.overlaps (b.query .bishop .black) BitBoard.blackSquares
      else false
    else if BitBoard.popcnt (b.colorOccupancy .black) = 1 then
      !BitBoard.isEmpty (b.query .bishop .white) || !BitBoard.isEmpty (b.query .knight .white)
    else false
  else false

/-- `ChessGame` from `chess_game.rs`. -/
structure ChessGame where
  state : ChessBoard
  position_moves : List Move
  history : History
  made_moves : List Move
  result : Option GameResult

namespace ChessGame

/-- The result computed by `ChessGame::look_for_terminal` from
`chess_game.rs` (the method only mutates `self.result`): checkmate or
stalemate when no moves exist, then the 50-move rule, then insufficient
material, each later assignment overwriting the earlier one. -/
def lookForTerminalResult (b : ChessBoard) (moves : List Move)
    (r0 : Option GameResult) : Option GameResult :=
  -- Look for checkmate/stalemate.
  let r :=
    if moves.isEmpty then
      if BitBoard.isEmpty b.checkers then some (GameResult.draw .stalemate)
      else some (match b.turn with
        | .white => GameResult.blackWins
        | .black => GameResult.whiteWins)
    else r0
  -- Look for 50 move rule.
  let r := if b.halfmoves ≥ 100 then some (GameResult.draw .fiftyMoves) else r
  -- Look for insufficient material (the condition is spelled out in
  -- `insufficientMaterialTriggers` above, translated branch by branch).
  if insufficientMaterialTriggers b then some (GameResult.draw .insufficientMaterial) else r

/-- `ChessGame::look_for_terminal`. -/
def lookForTerminal (g : ChessGame) : ChessGame :=
  { g with result := lookForTerminalResult g.state g.position_moves g.result }

/-- `ChessGame::initialize_game` from `chess_game.rs`. -/
def initializeGame (state : ChessBoard) : ChessGame :=
  let positionMoves := MoveGen.legal state
  let history : History := [(state.footprint, 1)]
  let game : ChessGame :=
    { state := state
      position_moves := positionMoves
      history := history
      made_moves := []
      result := none }
  let game := game.lookForTerminal
  if game.result.isSome then { game with position_moves := [] } else game

/-- `ChessGame::new`. -/
def new : ChessGame := initializeGame ChessBoard.new

/-- `ChessGame::from_fen`. -/
def fromFen (fen : List Char) : Except FenLoadError ChessGame :=
  match ChessBoard.fromFen fen with
  | .error e => .error e
  | .ok state => .ok (initializeGame state)

/-- `ChessGame::make_move` from `chess_game.rs`: refuses once a result is
recorded; applies the move; keeps the repetition history only for the
`Quiet` move variant, clearing it otherwise; bumps or inserts the new
footprint, returning at once with `ThreefoldRepetition` when a count reaches
3; otherwise recomputes the legal moves and looks for a terminal state. -/
def makeMove (g : ChessGame) (mv : Move) : Except Unit ChessGame :=
  if g.result.isSome then .error ()
  else
    let state := g.state.makeMove mv
    let madeMoves := g.made_moves ++ [mv]
    let history : History :=
      match mv with
      | .quiet _ _ _ => g.history
      | _ => []
    match history.get state.footprint with
    | some count =>
      let history := history.bump state.footprint
      if (count + 1) % 256 = 3 then
        .ok { state := state, position_moves := g.position_moves,
              history := history, made_moves := madeMoves,
              result := some (.draw .threefoldRepetition) }
      else
        let g2 : ChessGame :=
          { state := state
            position_moves := MoveGen.legal state
            history := history
            made_moves := madeMoves
            result := none }
        .ok g2.lookForTerminal
    | none =>
      let history : History := List.concat history (state.footprint, 1)
      let g2 : ChessGame :=
        { state := state
          position_moves := MoveGen.legal state
          history := history
          made_moves := madeMoves
          result := none }
      .ok g2.lookForTerminal

/-- `ChessGame::is_legal_move` from `chess_game.rs`. -/
def isLegalMove (g : ChessGame) (start finish : Nat) : Bool :=
  if g.result.isSome then false
  else MoveGen.isLegal g.state start finish

/-- `ChessGame::create_move` from `chess_game.rs`. -/
def createMove (g : ChessGame) (start finish : Nat) :
    Except MoveGen.MoveCreationError Move :=
  if g.result.isSome then .error .illegal
  else MoveGen.createMove g.state start finish

/-- `ChessGame::create_promote_move` from `chess_game.rs`. -/
def createPromoteMove (g : ChessGame) (start finish : Nat)
    (target : PieceType) : Except MoveGen.MoveCreationError Move :=
  if g.result.isSome then .error .illegal
  else MoveGen.createPromotionMove g.state start finish target

/-- `ChessGame::create_str_move` from `chess_game.rs`. -/
def createStrMove (g : ChessGame) (s : List Char) :
    Except MoveGen.StrMoveCreationError Move :=
  if g.result.isSome then .error (.illegalMove .illegal)
  else MoveGen.createStrMove g.state s

end ChessGame

/-! Objects and helper definitions used by the claim theorems. -/

instance {ε α : Type} [DecidableEq ε] [DecidableEq α] : DecidableEq (Except ε α)
  | .ok a, .ok b => decidable_of_iff (a = b) (by simp)
  | .error a, .error b => decidable_of_iff (a = b) (by simp)
  | .ok _, .error _ => isFalse (by simp)
  | .error _, .ok _ => isFalse (by simp)

/-- Whether an `Except` value is an `Ok`. -/
def exceptIsOk {ε α : Type} : Except ε α → Bool
  | .ok _ => true
  | .error _ => false

/-- The position after the double pawn push e2e4 from the starting position
(its en-passant square is set to e3). -/
def epRoundTripStart : ChessBoard := ChessBoard.new.makeMove (.doublePawnPush 12 28)

/-- The board `from_fen` loads back from `get_fen` of `epRoundTripStart`. -/
def epRoundTripLoaded : ChessBoard :=
  match ChessBoard.fromFen (ChessBoard.getFen epRoundTripStart) with
  | .ok b => b
  | .error _ => junkBoard

/-- A builder with kings on E1 and E8, a black rook on H8 and exactly one
castling right set: Black kingside. Every home-square condition of the Black
kingside right holds. -/
def blackKingsideOnlyBuilder : Except BoardBuilderError BoardBuilder := do
  let bd ← BoardBuilder.new.piece 4 ⟨.king, .white⟩
  let bd ← bd.piece 60 ⟨.king, .black⟩
  let bd ← bd.piece 63 ⟨.rook, .black⟩
  let bd ← bd.castleRight .kingside .black
  bd.setTurn .white

/-- A FEN position whose only castling right is Black queenside while A8
does not hold a black rook (B8 has a knight, A8 is empty). -/
def blackQueensideNoRookFen : List Char :=
  String.toList "1n2k3/8/8/8/8/8/8/4K3 w q -"

/-- A placeholder game (used for the unreachable error branches of
constructions that are evaluated on inputs where they succeed). -/
def junkGame : ChessGame :=
  { state := junkBoard, position_moves := [], history := [], made_moves := [],
    result := none }

/-- The game loaded from the bare-kings FEN `7k/8/8/8/8/8/8/K7 w - -`; its
result is `Draw(InsufficientMaterial)` from construction, while `a1a2` would
be a legal king move of the underlying board. -/
def finishedGame : ChessGame :=
  match ChessGame.fromFen (String.toList "7k/8/8/8/8/8/8/K7 w - -") with
  | .ok g => g
  | .error _ => junkGame

/-- A rook endgame with the halfmove clock loaded at 100. -/
def clock100Game : ChessGame :=
  match ChessGame.fromFen (String.toList "7k/8/1r6/8/8/6R1/8/K7 w - - 100") with
  | .ok g => g
  | .error _ => junkGame

/-- The same rook endgame with the halfmove clock at 99. -/
def clock99Game : ChessGame :=
  match ChessGame.fromFen (String.toList "7k/8/1r6/8/8/6R1/8/K7 w - - 99") with
  | .ok g => g
  | .error _ => junkGame

/-- The game after the quiet pawn push e2e3 from the starting position. -/
def pawnPushGame : ChessGame :=
  match ChessGame.new.makeMove (.quiet 12 20 .pawn) with
  | .ok g => g
  | .error _ => junkGame

instance : DecidableEq ChessGame := fun a b => by
  cases a; cases b
  exact decidable_of_iff _ (Iff.of_eq (ChessGame.mk.injEq _ _ _ _ _ _ _ _ _ _)).symm

/-- The history the repetition step of `ChessGame::make_move` starts from:
kept for the `Quiet` variant, cleared otherwise. -/
def baseHistory (g : ChessGame) (mv : Move) : History :=
  match mv with
  | .quiet _ _ _ => g.history
  | _ => []

/-- The set of squares (bit indexes below 64) of a bitboard. -/
def bbFinset (x : Nat) : Finset Nat := (Finset.range 64).filter (fun i => x.testBit i)

/-- The board-representation invariant (spec 3.3): piece bitboards pairwise
disjoint, color bitboards disjoint, all values 64-bit, and the union of the
piece bitboards equal to the union of the color bitboards. -/
structure WellFormedBoard (b : ChessBoard) : Prop where
  piece_bounded : ∀ k, b.piece_bbs k < 2 ^ 64
  color_bounded : ∀ c, b.color_bbs c < 2 ^ 64
  piece_disjoint : ∀ k1 k2, k1 ≠ k2 → b.piece_bbs k1 &&& b.piece_bbs k2 = 0
  color_disjoint : b.color_bbs .white &&& b.color_bbs .black = 0
  aligned : (b.piece_bbs .pawn ||| b.piece_bbs .knight ||| b.piece_bbs .bishop |||
      b.piece_bbs .rook ||| b.piece_bbs .queen ||| b.piece_bbs .king) =
      (b.color_bbs .white ||| b.color_bbs .black)

/-- The claim's description of bare-king material: the color's occupancy is
exactly its king. -/
def onlyKing (b : ChessBoard) (c : Color) : Prop :=
  b.colorOccupancy c = b.query .king c

/-- The claim's description of a king plus a single piece of kind `k`. -/
def kingPlusSingle (b : ChessBoard) (c : Color) (k : PieceType) : Prop :=
  BitBoard.popcnt (b.query k c) = 1 ∧
  b.colorOccupancy c = (b.query .king c ||| b.query k c)

/-- C7's material description in the claim's words: king versus king, king
plus a single knight or single bishop versus bare king (either color), or
king plus bishop versus king plus bishop with both bishops on the same
color complex. -/
def specInsufficientMaterial (b : ChessBoard) : Prop :=
  (onlyKing b .white ∧ onlyKing b .black) ∨
  ((kingPlusSingle b .white .knight ∨ kingPlusSingle b .white .bishop) ∧ onlyKing b .black) ∨
  (onlyKing b .white ∧ (kingPlusSingle b .black .knight ∨ kingPlusSingle b .black .bishop)) ∨
  (kingPlusSingle b .white .bishop ∧ kingPlusSingle b .black .bishop ∧
    ((b.query .bishop .white &&& BitBoard.whiteSquares = b.query .bishop .white ∧
        b.query .bishop .black &&& BitBoard.whiteSquares = b.query .bishop .black) ∨
      (b.query .bishop .white &&& BitBoard.blackSquares = b.query .bishop .white ∧
        b.query .bishop .black &&& BitBoard.blackSquares = b.query .bishop .black)))

instance (b : ChessBoard) (c : Color) : Decidable (onlyKing b c) := by
  unfold onlyKing; infer_instance

instance (b : ChessBoard) (c : Color) (k : PieceType) : Decidable (kingPlusSingle b c k) := by
  unfold kingPlusSingle; infer_instance

instance (b : ChessBoard) : Decidable (specInsufficientMaterial b) := by
  unfold specInsufficientMaterial; infer_instance

/-- Two boards with the same piece and color bitboards. -/
def SameBBs (a b : ChessBoard) : Prop :=
  a.piece_bbs = b.piece_bbs ∧ a.color_bbs = b.color_bbs

/-- The structural preconditions `ChessBoard::make_move` relies on for a move
the generator produced for this board: the moving piece of the stated kind
and the mover's color sits on the start square, quiet destinations are empty,
capture destinations hold an enemy piece, the castle arm's rook square holds
a rook of the mover with the rook's destination empty and the four squares
distinct, and the en-passant victim square holds an enemy piece off the
moving pawn's path.  Every move yielded by `MoveGen` for a legal position
satisfies these. -/
def MoveApplicable (b : ChessBoard) : Move → Prop
  | .quiet start finish moving =>
      start < 64 ∧ finish < 64 ∧ start ≠ finish ∧
      start ∈ bbFinset (b.query moving b.turn) ∧ finish ∉ bbFinset b.occupancy
  | .capture start finish moving =>
      start < 64 ∧ finish < 64 ∧ start ≠ finish ∧
      start ∈ bbFinset (b.query moving b.turn) ∧
      finish ∈ bbFinset (b.color_bbs b.turn.negate)
  | .castle start finish side =>
      start < 64 ∧ finish < 64 ∧ start ≠ finish ∧
      start ≠ (ChessBoard.castleRookSquares b.turn side).1 ∧
      start ≠ (ChessBoard.castleRookSquares b.turn side).2 ∧
      finish ≠ (ChessBoard.castleRookSquares b.turn side).1 ∧
      finish ≠ (ChessBoard.castleRookSquares b.turn side).2 ∧
      start ∈ bbFinset (b.query .king b.turn) ∧
      (ChessBoard.castleRookSquares b.turn side).1 ∈ bbFinset (b.query .rook b.turn) ∧
      finish ∉ bbFinset b.occupancy ∧
      (ChessBoard.castleRookSquares b.turn side).2 ∉ bbFinset b.occupancy
  | .doublePawnPush start finish =>
      start < 64 ∧ finish < 64 ∧ start ≠ finish ∧
      start ∈ bbFinset (b.query .pawn b.turn) ∧ finish ∉ bbFinset b.occupancy
  | .enPassant start finish =>
      start < 64 ∧ finish < 64 ∧ ChessBoard.epVictimSquare b.turn finish < 64 ∧
      start ≠ finish ∧ ChessBoard.epVictimSquare b.turn finish ≠ start ∧
      ChessBoard.epVictimSquare b.turn finish ≠ finish ∧
      start ∈ bbFinset (b.query .pawn b.turn) ∧
      ChessBoard.epVictimSquare b.turn finish ∈ bbFinset (b.color_bbs b.turn.negate) ∧
      finish ∉ bbFinset b.occupancy
  | .promote start finish _ =>
      start < 64 ∧ finish < 64 ∧ start ≠ finish ∧
      start ∈ bbFinset (b.query .pawn b.turn) ∧ finish ∉ bbFinset b.occupancy
  | .promoteCapture start finish _ =>
      start < 64 ∧ finish < 64 ∧ start ≠ finish ∧
      start ∈ bbFinset (b.query .pawn b.turn) ∧
      finish ∈ bbFinset (b.color_bbs b.turn.negate)

def c8Board : ChessBoard :=
  (((ChessBoard.new.makeMove (.doublePawnPush 12 28)).makeMove
    (.doublePawnPush 50 34)).makeMove (.quiet 28 36 .pawn)).makeMove (.doublePawnPush 51 35)

/-- The side-to-move contribution of the from-scratch hash (what
`BoardBuilder::turn` XORs in). -/
def turnHash : Color → Nat
  | .white => 0
  | .black => turnZobrist

/-- The en-passant contribution of the from-scratch hash (what
`BoardBuilder::en_passant` XORs in). -/
def epHash : Option Nat → Nat
  | none => 0
  | some sq => epZobrist (Square.file sq)

/-- The castling-rights contribution of the from-scratch hash: one
`BoardBuilder::castle_right` XOR per set right. -/
def castleHash (cr : Nat) : Nat :=
  (if CastlingRights.isSet cr .kingside .white then castleZobrist .kingside .white else 0) ^^^
  (if CastlingRights.isSet cr .queenside .white then castleZobrist .queenside .white else 0) ^^^
  (if CastlingRights.isSet cr .kingside .black then castleZobrist .kingside .black else 0) ^^^
  (if CastlingRights.isSet cr .queenside .black then castleZobrist .queenside .black else 0)

/-- The Zobrist key of the piece standing on a square (zero when empty). -/
def pieceKeyAt (b : ChessBoard) (sq : Nat) : Nat :=
  match b.pieceAt sq with
  | some p => pieceZobrist p.color p.kind sq
  | none => 0

/-- The piece contribution of the from-scratch hash: one
`BoardBuilder::piece` XOR per occupied square. -/
def pieceHash (b : ChessBoard) : Nat :=
  (List.range 64).foldl (fun h sq => h ^^^ pieceKeyAt b sq) 0

/-- The spec's from-scratch hash of a position (C6's reference value): the
XOR of the keys `BoardBuilder` accumulates when the position is rebuilt piece
by piece with its turn, castling rights and en-passant square. -/
def scratchHash (b : ChessBoard) : Nat :=
  pieceHash b ^^^ castleHash b.castling_rights ^^^ epHash b.en_passant ^^^ turnHash b.turn

/-- A `BoardBuilder` run rebuilding from scratch the position after 1. e4:
every piece, Black to move, all four castling rights, en-passant square E3. -/
def c6Builder : BoardBuilder :=
  (do
    let bd := BoardBuilder.new
    let bd ← bd.piece 0 ⟨.rook, .white⟩
    let bd ← bd.piece 1 ⟨.knight, .white⟩
    let bd ← bd.piece 2 ⟨.bishop, .white⟩
    let bd ← bd.piece 3 ⟨.queen, .white⟩
    let bd ← bd.piece 4 ⟨.king, .white⟩
    let bd ← bd.piece 5 ⟨.bishop, .white⟩
    let bd ← bd.piece 6 ⟨.knight, .white⟩
    let bd ← bd.piece 7 ⟨.rook, .white⟩
    let bd ← bd.piece 8 ⟨.pawn, .white⟩
    let bd ← bd.piece 9 ⟨.pawn, .white⟩
    let bd ← bd.piece 10 ⟨.pawn, .white⟩
    let bd ← bd.piece 11 ⟨.pawn, .white⟩
    let bd ← bd.piece 28 ⟨.pawn, .white⟩
    let bd ← bd.piece 13 ⟨.pawn, .white⟩
    let bd ← bd.piece 14 ⟨.pawn, .white⟩
    let bd ← bd.piece 15 ⟨.pawn, .white⟩
    let bd ← bd.piece 48 ⟨.pawn, .black⟩
    let bd ← bd.piece 49 ⟨.pawn, .black⟩
    let bd ← bd.piece 50 ⟨.pawn, .black⟩
    let bd ← bd.piece 51 ⟨.pawn, .black⟩
    let bd ← bd.piece 52 ⟨.pawn, .black⟩
    let bd ← bd.piece 53 ⟨.pawn, .black⟩
    let bd ← bd.piece 54 ⟨.pawn, .black⟩
    let bd ← bd.piece 55 ⟨.pawn, .black⟩
    let bd ← bd.piece 56 ⟨.rook, .black⟩
    let bd ← bd.piece 57 ⟨.knight, .black⟩
    let bd ← bd.piece 58 ⟨.bishop, .black⟩
    let bd ← bd.piece 59 ⟨.queen, .black⟩
    let bd ← bd.piece 60 ⟨.king, .black⟩
    let bd ← bd.piece 61 ⟨.bishop, .black⟩
    let bd ← bd.piece 62 ⟨.knight, .black⟩
    let bd ← bd.piece 63 ⟨.rook, .black⟩
    let bd ← bd.setTurn .black
    let bd ← bd.castleRight .kingside .white
    let bd ← bd.castleRight .queenside .white
    let bd ← bd.castleRight .kingside .black
    let bd ← bd.castleRight .queenside .black
    let bd ← bd.enPassant 20
    pure bd : Except BoardBuilderError BoardBuilder).toOption.getD BoardBuilder.new

/-! Theorems settling the claims. -/

theorem mem_bbFinset {i x : Nat} : i ∈ bbFinset x ↔ i < 64 ∧ x.testBit i = true := by
  simp [bbFinset, Finset.mem_filter, Finset.mem_range, and_comm]

theorem popcnt_eq_card (x : Nat) : BitBoard.popcnt x = (bbFinset x).card := by
  unfold BitBoard.popcnt bbFinset
  rw [List.countP_eq_length_filter]
  simp [Finset.range, Finset.filter, Finset.card, Multiset.range]

theorem bbFinset_land (x y : Nat) : bbFinset (x &&& y) = bbFinset x ∩ bbFinset y := by
  ext i
  simp [mem_bbFinset, Nat.testBit_land]
  tauto

theorem bbFinset_lor (x y : Nat) : bbFinset (x ||| y) = bbFinset x ∪ bbFinset y := by
  ext i
  simp [mem_bbFinset, Nat.testBit_or]
  tauto

theorem bbFinset_zero : bbFinset 0 = ∅ := by
  ext i
  simp [mem_bbFinset]

theorem bbFinset_inj {x y : Nat} (hx : x < 2 ^ 64) (hy : y < 2 ^ 64)
    (h : bbFinset x = bbFinset y) : x = y := by
  apply Nat.eq_of_testBit_eq
  intro i
  by_cases hi : i < 64
  · have := Finset.ext_iff.mp h i
    simp only [mem_bbFinset, hi, true_and] at this
    by_cases hb : x.testBit i
    · rw [hb, (this.mp hb)]
    · simp only [Bool.not_eq_true] at hb
      rw [hb]
      by_cases hb2 : y.testBit i
      · exact absurd (this.mpr hb2) (by rw [hb]; simp)
      · simp only [Bool.not_eq_true] at hb2
        rw [hb2]
  · have hxi : x.testBit i = false :=
      Nat.testBit_lt_two_pow (Nat.lt_of_lt_of_le hx (Nat.pow_le_pow_right (by omega) (by omega)))
    have hyi : y.testBit i = false :=
      Nat.testBit_lt_two_pow (Nat.lt_of_lt_of_le hy (Nat.pow_le_pow_right (by omega) (by omega)))
    rw [hxi, hyi]

theorem bbFinset_empty_iff {x : Nat} (hx : x < 2 ^ 64) : bbFinset x = ∅ ↔ x = 0 := by
  constructor
  · intro h
    exact bbFinset_inj hx (by norm_num) (h.trans bbFinset_zero.symm)
  · intro h
    rw [h]
    exact bbFinset_zero

theorem overlaps_iff {x y : Nat} (hx : x < 2 ^ 64) :
    BitBoard.overlaps x y = true ↔ (bbFinset x ∩ bbFinset y).Nonempty := by
  unfold BitBoard.overlaps
  rw [← bbFinset_land]
  simp only [bne_iff_ne, ne_eq]
  rw [Finset.nonempty_iff_ne_empty]
  have hb : x &&& y < 2 ^ 64 := Nat.lt_of_le_of_lt Nat.and_le_left hx
  constructor
  · intro h hc
    exact h ((bbFinset_empty_iff hb).mp hc)
  · intro h hc
    exact h ((bbFinset_empty_iff hb).mpr hc)

theorem query_lt {b : ChessBoard} (hwf : WellFormedBoard b) (k : PieceType) (c : Color) :
    b.query k c < 2 ^ 64 :=
  Nat.lt_of_le_of_lt Nat.and_le_right (hwf.color_bounded c)

theorem query_subset_color (b : ChessBoard) (k : PieceType) (c : Color) :
    bbFinset (b.query k c) ⊆ bbFinset (b.color_bbs c) := by
  unfold ChessBoard.query
  rw [bbFinset_land]
  exact Finset.inter_subset_right

theorem query_subset_piece (b : ChessBoard) (k : PieceType) (c : Color) :
    bbFinset (b.query k c) ⊆ bbFinset (b.piece_bbs k) := by
  unfold ChessBoard.query
  rw [bbFinset_land]
  exact Finset.inter_subset_left

theorem queries_disjoint {b : ChessBoard} (hwf : WellFormedBoard b) {k1 k2 : PieceType}
    (h : k1 ≠ k2) (c1 c2 : Color) :
    bbFinset (b.query k1 c1) ∩ bbFinset (b.query k2 c2) = ∅ := by
  apply Finset.subset_empty.mp
  calc bbFinset (b.query k1 c1) ∩ bbFinset (b.query k2 c2)
      ⊆ bbFinset (b.piece_bbs k1) ∩ bbFinset (b.piece_bbs k2) :=
        Finset.inter_subset_inter (query_subset_piece b k1 c1) (query_subset_piece b k2 c2)
    _ = bbFinset (b.piece_bbs k1 &&& b.piece_bbs k2) := (bbFinset_land _ _).symm
    _ = bbFinset 0 := by rw [hwf.piece_disjoint _ _ h]
    _ = ∅ := bbFinset_zero

theorem mem_color_exists_kind {b : ChessBoard} (hwf : WellFormedBoard b) (c : Color) {i : Nat}
    (hi : i ∈ bbFinset (b.color_bbs c)) :
    ∃ k, i ∈ bbFinset (b.query k c) := by
  have hcu : i ∈ bbFinset (b.color_bbs .white ||| b.color_bbs .black) := by
    rw [bbFinset_lor]
    cases c with
    | white => exact Finset.mem_union_left _ hi
    | black => exact Finset.mem_union_right _ hi
  rw [← hwf.aligned] at hcu
  simp only [bbFinset_lor, Finset.mem_union] at hcu
  have hk : ∃ k, i ∈ bbFinset (b.piece_bbs k) := by
    rcases hcu with ((((h | h) | h) | h) | h) | h
    · exact ⟨.pawn, h⟩
    · exact ⟨.knight, h⟩
    · exact ⟨.bishop, h⟩
    · exact ⟨.rook, h⟩
    · exact ⟨.queen, h⟩
    · exact ⟨.king, h⟩
  rcases hk with ⟨k, hk⟩
  refine ⟨k, ?_⟩
  unfold ChessBoard.query
  rw [bbFinset_land]
  exact Finset.mem_inter.mpr ⟨hk, hi⟩

theorem finset_pinch {O K M : Finset Nat} (hKO : K ⊆ O) (hMO : M ⊆ O)
    (hdisj : K ∩ M = ∅) (hK : K.card = 1) (hM : M.Nonempty) (hO : O.card = 2) :
    M.card = 1 ∧ K ∪ M = O := by
  have hsub : K ∪ M ⊆ O := Finset.union_subset hKO hMO
  have hcard : (K ∪ M).card = K.card + M.card :=
    Finset.card_union_of_disjoint (Finset.disjoint_iff_inter_eq_empty.mpr hdisj)
  have hle : (K ∪ M).card ≤ 2 := hO ▸ Finset.card_le_card hsub
  have hpos : 0 < M.card := Finset.card_pos.mpr hM
  have hMcard : M.card = 1 := by omega
  refine ⟨hMcard, ?_⟩
  apply Finset.eq_of_subset_of_card_le hsub
  omega

theorem bb_ne_zero_iff_nonempty {x : Nat} (hx : x < 2 ^ 64) :
    x ≠ 0 ↔ (bbFinset x).Nonempty := by
  rw [Finset.nonempty_iff_ne_empty, not_iff_not]
  exact (bbFinset_empty_iff hx).symm

theorem land_eq_self_iff_subset {x y : Nat} (hx : x < 2 ^ 64) :
    x &&& y = x ↔ bbFinset x ⊆ bbFinset y := by
  constructor
  · intro h
    intro i hi
    have : i ∈ bbFinset (x &&& y) := by rw [h]; exact hi
    rw [bbFinset_land] at this
    exact (Finset.mem_inter.mp this).2
  · intro h
    apply bbFinset_inj (Nat.lt_of_le_of_lt Nat.and_le_left hx) hx
    rw [bbFinset_land]
    exact Finset.inter_eq_left.mpr h

theorem singleton_overlap {x m : Nat} (hx : x < 2 ^ 64)
    (h1 : (bbFinset x).card = 1) :
    BitBoard.overlaps x m = true ↔ x &&& m = x := by
  rcases Finset.card_eq_one.mp h1 with ⟨a, ha⟩
  rw [overlaps_iff hx, land_eq_self_iff_subset hx, ha]
  constructor
  · intro ⟨i, hi⟩
    rw [Finset.mem_inter, Finset.mem_singleton] at hi
    intro j hj
    rw [Finset.mem_singleton] at hj
    subst hj
    rw [← hi.1]
    exact hi.2
  · intro h
    exact ⟨a, Finset.mem_inter.mpr ⟨Finset.mem_singleton_self a, h (Finset.mem_singleton_self a)⟩⟩

theorem onlyKing_iff_popcnt_one {b : ChessBoard} (hwf : WellFormedBoard b)
    (hk : ∀ c, BitBoard.popcnt (b.query .king c) = 1) (c : Color) :
    BitBoard.popcnt (b.colorOccupancy c) = 1 ↔ onlyKing b c := by
  have hKO : bbFinset (b.query .king c) ⊆ bbFinset (b.color_bbs c) := query_subset_color b .king c
  have hKcard : (bbFinset (b.query .king c)).card = 1 := by
    rw [← popcnt_eq_card]; exact hk c
  constructor
  · intro h1
    rw [popcnt_eq_card] at h1
    have h1b : (bbFinset (b.color_bbs c)).card = 1 := h1
    have heq : bbFinset (b.query .king c) = bbFinset (b.color_bbs c) :=
      Finset.eq_of_subset_of_card_le hKO (by omega)
    exact (bbFinset_inj (hwf.color_bounded c) (query_lt hwf .king c) heq.symm)
  · intro h
    have hb : b.color_bbs c = b.query .king c := h
    rw [popcnt_eq_card]
    show (bbFinset (b.color_bbs c)).card = 1
    rw [hb, ← popcnt_eq_card]
    exact hk c

theorem kingPlusSingle_popcnt_two {b : ChessBoard} (hwf : WellFormedBoard b)
    (hk : ∀ c, BitBoard.popcnt (b.query .king c) = 1) (c : Color) {k : PieceType}
    (hkk : k ≠ .king) (h : kingPlusSingle b c k) :
    BitBoard.popcnt (b.colorOccupancy c) = 2 := by
  rcases h with ⟨h1, h2⟩
  have h2b : b.color_bbs c = (b.query .king c ||| b.query k c) := h2
  rw [popcnt_eq_card]
  show (bbFinset (b.color_bbs c)).card = 2
  rw [h2b, bbFinset_lor,
    Finset.card_union_of_disjoint
      (Finset.disjoint_iff_inter_eq_empty.mpr
        (queries_disjoint hwf (fun hh => hkk hh.symm) c c))]
  rw [← popcnt_eq_card, ← popcnt_eq_card, hk c, h1]

theorem popcnt_two_single {b : ChessBoard} (hwf : WellFormedBoard b)
    (hk : ∀ c, BitBoard.popcnt (b.query .king c) = 1) (c : Color) {k : PieceType}
    (hkk : k ≠ .king) (h2 : BitBoard.popcnt (b.colorOccupancy c) = 2)
    (hne : b.query k c ≠ 0) : kingPlusSingle b c k := by
  have hKO : bbFinset (b.query .king c) ⊆ bbFinset (b.color_bbs c) := query_subset_color b .king c
  have hMO : bbFinset (b.query k c) ⊆ bbFinset (b.color_bbs c) := query_subset_color b k c
  have hdisj : bbFinset (b.query .king c) ∩ bbFinset (b.query k c) = ∅ :=
    queries_disjoint hwf (fun hh => hkk hh.symm) c c
  have hKcard : (bbFinset (b.query .king c)).card = 1 := by
    rw [← popcnt_eq_card]; exact hk c
  have hMne : (bbFinset (b.query k c)).Nonempty :=
    (bb_ne_zero_iff_nonempty (query_lt hwf k c)).mp hne
  have hOcard : (bbFinset (b.color_bbs c)).card = 2 := by
    rw [← popcnt_eq_card]; exact h2
  rcases finset_pinch hKO hMO hdisj hKcard hMne hOcard with ⟨hM1, hunion⟩
  constructor
  · rw [popcnt_eq_card]; exact hM1
  · apply bbFinset_inj (hwf.color_bounded c)
      (Nat.or_lt_two_pow (query_lt hwf .king c) (query_lt hwf k c))
    rw [bbFinset_lor]
    exact hunion.symm

theorem isEmpty_not_iff {x : Nat} : (!BitBoard.isEmpty x) = true ↔ x ≠ 0 := by
  unfold BitBoard.isEmpty
  simp

theorem insufficient_triggers_iff {b : ChessBoard} (hwf : WellFormedBoard b)
    (hk : ∀ c, BitBoard.popcnt (b.query .king c) = 1) :
    insufficientMaterialTriggers b = true ↔ specInsufficientMaterial b := by
  have hBw := query_lt hwf .bishop .white
  have hBb := query_lt hwf .bishop .black
  constructor
  · intro h
    unfold insufficientMaterialTriggers at h
    by_cases hw1 : BitBoard.popcnt (b.colorOccupancy .white) = 1
    · rw [if_pos hw1] at h
      by_cases hb1 : BitBoard.popcnt (b.colorOccupancy .black) = 1
      · exact Or.inl ⟨(onlyKing_iff_popcnt_one hwf hk .white).mp hw1,
          (onlyKing_iff_popcnt_one hwf hk .black).mp hb1⟩
      · rw [if_neg hb1] at h
        by_cases hb2 : BitBoard.popcnt (b.colorOccupancy .black) = 2
        · rw [if_pos hb2] at h
          refine Or.inr (Or.inr (Or.inl ⟨(onlyKing_iff_popcnt_one hwf hk .white).mp hw1, ?_⟩))
          rcases (Bool.or_eq_true _ _).mp h with hB | hN
          · exact Or.inr (popcnt_two_single hwf hk .black (by simp) hb2
              (isEmpty_not_iff.mp hB))
          · exact Or.inl (popcnt_two_single hwf hk .black (by simp) hb2
              (isEmpty_not_iff.mp hN))
        · rw [if_neg hb2] at h
          exact absurd h (by simp)
    · rw [if_neg hw1] at h
      by_cases hw2 : BitBoard.popcnt (b.colorOccupancy .white) = 2
      · rw [if_pos hw2] at h
        by_cases hb2 : BitBoard.popcnt (b.colorOccupancy .black) = 2
        · rw [if_pos hb2] at h
          by_cases hWW : BitBoard.overlaps (b.query .bishop .white) BitBoard.whiteSquares = true
          · rw [if_pos hWW] at h
            have hwne : b.query .bishop .white ≠ 0 := by
              intro h0
              rw [h0] at hWW
              simp [BitBoard.overlaps, Nat.zero_and] at hWW
            have hbne : b.query .bishop .black ≠ 0 := by
              intro h0
              rw [h0] at h
              simp [BitBoard.overlaps, Nat.zero_and] at h
            have hpw := popcnt_two_single hwf hk .white (by simp) hw2 hwne
            have hpb := popcnt_two_single hwf hk .black (by simp) hb2 hbne
            refine Or.inr (Or.inr (Or.inr ⟨hpw, hpb, Or.inl ⟨?_, ?_⟩⟩))
            · exact (singleton_overlap hBw (by rw [← popcnt_eq_card]; exact hpw.1)).mp hWW
            · exact (singleton_overlap hBb (by rw [← popcnt_eq_card]; exact hpb.1)).mp h
          · rw [if_neg hWW] at h
            by_cases hWB : BitBoard.overlaps (b.query .bishop .white) BitBoard.blackSquares = true
            · rw [if_pos hWB] at h
              have hwne : b.query .bishop .white ≠ 0 := by
                intro h0
                rw [h0] at hWB
                simp [BitBoard.overlaps, Nat.zero_and] at hWB
              have hbne : b.query .bishop .black ≠ 0 := by
                intro h0
                rw [h0] at h
                simp [BitBoard.overlaps, Nat.zero_and] at h
              have hpw := popcnt_two_single hwf hk .white (by simp) hw2 hwne
              have hpb := popcnt_two_single hwf hk .black (by simp) hb2 hbne
              refine Or.inr (Or.inr (Or.inr ⟨hpw, hpb, Or.inr ⟨?_, ?_⟩⟩))
              · exact (singleton_overlap hBw (by rw [← popcnt_eq_card]; exact hpw.1)).mp hWB
              · exact (singleton_overlap hBb (by rw [← popcnt_eq_card]; exact hpb.1)).mp h
            · rw [if_neg hWB] at h
              exact absurd h (by simp)
        · rw [if_neg hb2] at h
          by_cases hb1 : BitBoard.popcnt (b.colorOccupancy .black) = 1
          · rw [if_pos hb1] at h
            refine Or.inr (Or.inl ⟨?_, (onlyKing_iff_popcnt_one hwf hk .black).mp hb1⟩)
            rcases (Bool.or_eq_true _ _).mp h with hB | hN
            · exact Or.inr (popcnt_two_single hwf hk .white (by simp) hw2
                (isEmpty_not_iff.mp hB))
            · exact Or.inl (popcnt_two_single hwf hk .white (by simp) hw2
                (isEmpty_not_iff.mp hN))
          · rw [if_neg hb1] at h
            exact absurd h (by simp)
      · rw [if_neg hw2] at h
        exact absurd h (by simp)
  · intro hspec
    unfold insufficientMaterialTriggers
    rcases hspec with ⟨hw, hb⟩ | ⟨hw, hb⟩ | ⟨hw, hb⟩ | ⟨hw, hb, hcx⟩
    · rw [if_pos ((onlyKing_iff_popcnt_one hwf hk .white).mpr hw),
        if_pos ((onlyKing_iff_popcnt_one hwf hk .black).mpr hb)]
    · have hpw2 : BitBoard.popcnt (b.colorOccupancy .white) = 2 := by
        rcases hw with hsingle | hsingle
        · exact kingPlusSingle_popcnt_two hwf hk .white (by simp) hsingle
        · exact kingPlusSingle_popcnt_two hwf hk .white (by simp) hsingle
      have hpb1 := (onlyKing_iff_popcnt_one hwf hk .black).mpr hb
      rw [if_neg (by omega), if_pos hpw2, if_neg (by omega), if_pos hpb1]
      rcases hw with hsingle | hsingle
      · have : b.query .knight .white ≠ 0 := by
          intro h0
          have := hsingle.1
          rw [h0] at this
          simp [BitBoard.popcnt] at this
        simp [isEmpty_not_iff.mpr this]
      · have : b.query .bishop .white ≠ 0 := by
          intro h0
          have := hsingle.1
          rw [h0] at this
          simp [BitBoard.popcnt] at this
        simp [isEmpty_not_iff.mpr this]
    · have hpb2 : BitBoard.popcnt (b.colorOccupancy .black) = 2 := by
        rcases hb with hsingle | hsingle
        · exact kingPlusSingle_popcnt_two hwf hk .black (by simp) hsingle
        · exact kingPlusSingle_popcnt_two hwf hk .black (by simp) hsingle
      have hpw1 := (onlyKing_iff_popcnt_one hwf hk .white).mpr hw
      rw [if_pos hpw1, if_neg (by omega), if_pos hpb2]
      rcases hb with hsingle | hsingle
      · have : b.query .knight .black ≠ 0 := by
          intro h0
          have := hsingle.1
          rw [h0] at this
          simp [BitBoard.popcnt] at this
        simp [isEmpty_not_iff.mpr this]
      · have : b.query .bishop .black ≠ 0 := by
          intro h0
          have := hsingle.1
          rw [h0] at this
          simp [BitBoard.popcnt] at this
        simp [isEmpty_not_iff.mpr this]
    · have hpw2 := kingPlusSingle_popcnt_two hwf hk .white (by simp) hw
      have hpb2 := kingPlusSingle_popcnt_two hwf hk .black (by simp) hb
      have hw1 : (bbFinset (b.query .bishop .white)).card = 1 := by
        rw [← popcnt_eq_card]; exact hw.1
      have hb1 : (bbFinset (b.query .bishop .black)).card = 1 := by
        rw [← popcnt_eq_card]; exact hb.1
      rw [if_neg (by omega), if_pos hpw2, if_pos hpb2]
      rcases hcx with ⟨hcw, hcb⟩ | ⟨hcw, hcb⟩
      · rw [if_pos ((singleton_overlap hBw hw1).mpr hcw)]
        exact (singleton_overlap hBb hb1).mpr hcb
      · have hWWfalse : BitBoard.overlaps (b.query .bishop .white) BitBoard.whiteSquares = false := by
          rw [Bool.eq_false_iff]
          intro hover
          have hsub := (singleton_overlap hBw hw1).mp hover
          -- bishop inside blackSquares and whiteSquares: intersection empty forces bishop = 0
          have : b.query .bishop .white &&& (BitBoard.blackSquares &&& BitBoard.whiteSquares) =
              b.query .bishop .white := by
            rw [← Nat.and_assoc, hcw, hsub]
          rw [(by decide : BitBoard.blackSquares &&& BitBoard.whiteSquares = 0)] at this
          rw [Nat.and_zero] at this
          have hne : b.query .bishop .white ≠ 0 := by
            intro h0
            rw [h0] at hw1
            rw [bbFinset_zero] at hw1
            simp at hw1
          exact hne this.symm
        rw [if_neg (by rw [hWWfalse]; simp)]
        rw [if_pos ((singleton_overlap hBw hw1).mpr hcw)]
        exact (singleton_overlap hBb hb1).mpr hcb

/-- C7: on any well-formed board with one king per color, the result of
`look_for_terminal` (called with no prior result, as at construction and
after every successful move) is `Draw(InsufficientMaterial)` exactly when
the material matches the claim's list: bare kings, king and a single minor
piece versus bare king, or king and bishop versus king and bishop with both
bishops on one color complex. -/
theorem insufficient_material_iff (b : ChessBoard) (moves : List Move)
    (hwf : WellFormedBoard b) (hk : ∀ c, BitBoard.popcnt (b.query .king c) = 1) :
    ChessGame.lookForTerminalResult b moves none = some (.draw .insufficientMaterial) ↔
      specInsufficientMaterial b := by
  rw [← insufficient_triggers_iff hwf hk]
  constructor
  · intro h
    by_cases ht : insufficientMaterialTriggers b
    · exact ht
    · exfalso
      by_cases h2 : moves.isEmpty <;>
        by_cases h3 : BitBoard.isEmpty b.checkers <;>
          by_cases h4 : b.halfmoves ≥ 100 <;>
            cases htn : b.turn <;>
              simp_all [ChessGame.lookForTerminalResult]
  · intro ht
    unfold ChessGame.lookForTerminalResult
    rw [if_pos ht]

/-- C7 witness: the bare-kings board draws by insufficient material, and the
rook endgame (clock at 99, no terminal state) does not. -/
theorem insufficient_material_iff_witness :
    (ChessGame.lookForTerminalResult finishedGame.state [] none =
      some (.draw .insufficientMaterial)) ∧
    (ChessGame.lookForTerminalResult clock99Game.state clock99Game.position_moves none ≠
      some (.draw .insufficientMaterial)) := by
  constructor
  · exact (insufficient_material_iff finishedGame.state []
      ⟨by decide, by decide, by decide, by decide, by decide⟩ (by decide)).mpr
      (Or.inl ⟨by decide, by decide⟩)
  · intro hc
    have h := (insufficient_material_iff clock99Game.state clock99Game.position_moves
      ⟨by decide, by decide, by decide, by decide, by decide⟩ (by decide)).mp hc
    revert h
    decide


/-- C2: the FEN round trip `from_fen(P.get_fen())` succeeds on the position
after e2e4 but returns a board whose en-passant square has been dropped
(`from_builder` constructs the board with `en_passant: None`), so the loaded
board differs from `P` in the sense of the source's `PartialEq`. -/
theorem fen_roundtrip_drops_ep_square :
    ChessBoard.fromFen (ChessBoard.getFen epRoundTripStart) = .ok epRoundTripLoaded ∧
    epRoundTripStart.en_passant = some 20 ∧
    epRoundTripLoaded.en_passant = none ∧
    ChessBoard.boardEq epRoundTripLoaded epRoundTripStart = false :=
  ⟨by decide, by decide, by decide, by decide⟩

/-- C3: the castling-right validation of `from_builder` checks the Black
kingside right twice — the second copy demanding a rook on A8 — and never
checks the Black queenside right.  Hence a builder whose only right is Black
kingside with king on E8 and rook on H8 is rejected with
`InvalidCastleRight`, while a position whose only right is Black queenside
with no rook on A8 is accepted. -/
theorem fromBuilder_black_castle_right_swapped :
    blackKingsideOnlyBuilder.map ChessBoard.fromBuilder =
      .ok (.error .invalidCastleRight) ∧
    exceptIsOk (ChessBoard.fromFen blackQueensideNoRookFen) = true :=
  ⟨by decide, by decide⟩

/-- C5 (counterexample): `BitBoard::left` is a bare right shift, so the
file-A square A2 wraps to H1 instead of vanishing — the bitboard
`from_square(A2).left()` is not empty. -/
theorem bitboard_left_wraps_cex :
    BitBoard.left (BitBoard.fromSquare 8) = BitBoard.fromSquare 7 ∧
    BitBoard.left (BitBoard.fromSquare 8) ≠ BitBoard.empty :=
  ⟨by decide, by decide⟩

/-- C5 (amended): vertical shifts cannot wrap — shifting the rank-8 part of
any bitboard up, or the rank-1 part down, gives the empty board — and the
`Square` accessors return `None` past the A/H files; but `BitBoard::left`
and `BitBoard::right` are unmasked shifts, carrying a file-A bit to file H
one rank lower (A2 to H1) and a file-H bit to file A one rank higher
(H1 to A2). -/
theorem shift_edge_behavior :
    (∀ bb, BitBoard.up (bb &&& BitBoard.fromRank 7) = BitBoard.empty) ∧
    (∀ bb, BitBoard.down (bb &&& BitBoard.fromRank 0) = BitBoard.empty) ∧
    BitBoard.left (BitBoard.fromSquare 8) = BitBoard.fromSquare 7 ∧
    BitBoard.right (BitBoard.fromSquare 7) = BitBoard.fromSquare 8 ∧
    (∀ r, Square.left (8 * r) = none) ∧
    (∀ r, Square.right (8 * r + 7) = none) := by
  refine ⟨?_, ?_, by decide, by decide, ?_, ?_⟩
  · intro bb
    unfold BitBoard.up BitBoard.fromRank BitBoard.empty M64
    apply Nat.eq_of_testBit_eq
    intro i
    simp only [Nat.testBit_mod_two_pow, Nat.testBit_shiftLeft, Nat.testBit_land, Nat.zero_testBit]
    rw [Bool.eq_false_iff]
    intro h
    simp only [Bool.and_eq_true, decide_eq_true_eq] at h
    omega
  · intro bb
    unfold BitBoard.down BitBoard.fromRank BitBoard.empty M64
    apply Nat.eq_of_testBit_eq
    intro i
    simp only [Nat.testBit_shiftRight, Nat.testBit_land, Nat.zero_testBit,
      Nat.testBit_mod_two_pow, Nat.testBit_shiftLeft]
    rw [Bool.eq_false_iff]
    intro h
    simp only [Bool.and_eq_true, decide_eq_true_eq] at h
    have h255 : Nat.testBit 255 (8 + i - 0 * 8) = false := by
      have e : (255 : Nat) = 2 ^ 8 - 1 := by norm_num
      rw [e, Nat.testBit_two_pow_sub_one]
      simp only [decide_eq_false_iff_not]
      omega
    rw [h255] at h
    simp at h
  · intro r
    unfold Square.left Square.file
    rw [if_pos (Nat.mul_mod_right 8 r)]
  · intro r
    unfold Square.right Square.file
    rw [if_pos (by omega)]

theorem history_get_bump_self (h : History) (fp : Footprint) :
    History.get (History.bump h fp) fp = (History.get h fp).map (fun c => (c + 1) % 256) := by
  induction h with
  | nil => rfl
  | cons e t ih =>
    unfold History.bump History.get at *
    by_cases he : e.1 = fp
    · simp [List.find?_cons, he]
    · simp only [List.map_cons, if_neg he]
      rw [List.find?_cons_of_neg _ (by simp [he]), List.find?_cons_of_neg _ (by simp [he])]
      exact ih

theorem history_get_bump_ne (h : History) (fp fp2 : Footprint) (hne : fp2 ≠ fp) :
    History.get (History.bump h fp) fp2 = History.get h fp2 := by
  induction h with
  | nil => rfl
  | cons e t ih =>
    unfold History.bump History.get at *
    simp only [List.map_cons]
    by_cases he : e.1 = fp2
    · have hef : ¬ (e.1 = fp) := by rw [he]; exact hne
      rw [if_neg hef]
      rw [List.find?_cons_of_pos _ (by simp [he]), List.find?_cons_of_pos _ (by simp [he])]
    · by_cases hef : e.1 = fp
      · rw [if_pos hef]
        rw [List.find?_cons_of_neg _ (by simp [he]), List.find?_cons_of_neg _ (by simp [he])]
        exact ih
      · rw [if_neg hef]
        rw [List.find?_cons_of_neg _ (by simp [he]), List.find?_cons_of_neg _ (by simp [he])]
        exact ih

theorem history_get_concat_self (h : History) (fp : Footprint)
    (hnone : History.get h fp = none) :
    History.get (List.concat h (fp, 1)) fp = some 1 := by
  induction h with
  | nil => simp [History.get]
  | cons e t ih =>
    unfold History.get at *
    by_cases he : e.1 = fp
    · rw [List.find?_cons_of_pos _ (by simp [he])] at hnone
      simp at hnone
    · rw [List.find?_cons_of_neg _ (by simp [he])] at hnone
      simp only [List.concat_cons]
      rw [List.find?_cons_of_neg _ (by simp [he])]
      exact ih hnone

theorem history_get_concat_ne (h : History) (fp fp2 : Footprint) (hne : fp2 ≠ fp) :
    History.get (List.concat h (fp, 1)) fp2 = History.get h fp2 := by
  induction h with
  | nil =>
    unfold History.get
    simp only [List.concat_nil]
    rw [List.find?_cons_of_neg _ (by simp [Ne.symm hne])]
  | cons e t ih =>
    unfold History.get at *
    by_cases he : e.1 = fp2
    · simp only [List.concat_cons]
      rw [List.find?_cons_of_pos _ (by simp [he]), List.find?_cons_of_pos _ (by simp [he])]
    · simp only [List.concat_cons]
      rw [List.find?_cons_of_neg _ (by simp [he]), List.find?_cons_of_neg _ (by simp [he])]
      exact ih


/-- C4 (amended): after a successful `ChessGame::make_move`, the repetition
map is kept exactly when the move is the `Quiet` variant (a quiet pawn push
included): for a `Quiet` move every other footprint count survives, for any
other variant the new history holds only the new footprint at count 1; the
new footprint is bumped when present in the base map and inserted at 1
otherwise; and when the bumped count reaches 3 the result
`Draw(ThreefoldRepetition)` is recorded with the method returning at once
(the cached legal-move list is left untouched). -/
theorem game_makeMove_repetition_policy (g g2 : ChessGame) (mv : Move)
    (hmk : g.makeMove mv = .ok g2) :
    g2.state = g.state.makeMove mv ∧
    (∀ s e k, mv = .quiet s e k →
      ∀ fp, fp ≠ (g.state.makeMove mv).footprint →
        History.get g2.history fp = History.get g.history fp) ∧
    ((∀ s e k, mv ≠ .quiet s e k) →
      ∀ fp, History.get g2.history fp =
        if fp = (g.state.makeMove mv).footprint then some 1 else none) ∧
    (∀ c, History.get (baseHistory g mv) (g.state.makeMove mv).footprint = some c →
      History.get g2.history (g.state.makeMove mv).footprint = some ((c + 1) % 256) ∧
      ((c + 1) % 256 = 3 →
        g2.result = some (.draw .threefoldRepetition) ∧
        g2.position_moves = g.position_moves)) ∧
    (History.get (baseHistory g mv) (g.state.makeMove mv).footprint = none →
      History.get g2.history (g.state.makeMove mv).footprint = some 1) := by
  unfold ChessGame.makeMove at hmk
  by_cases hr : g.result.isSome
  · rw [if_pos hr] at hmk
    exact absurd hmk (by simp)
  · rw [if_neg hr] at hmk
    split at hmk
    case _ s e k =>
      dsimp only at hmk
      split at hmk
      case _ count heq =>
        split at hmk
        case _ h3 =>
          cases hmk
          refine ⟨rfl, ?_, ?_, ?_, ?_⟩
          · intro s2 e2 k2 _ fp hne
            exact history_get_bump_ne _ _ _ hne
          · intro hnq
            exact absurd rfl (hnq s e k)
          · intro c2 hc2
            have hc2b : History.get g.history
                (g.state.makeMove (Move.quiet s e k)).footprint = some c2 := hc2
            rw [heq] at hc2b
            injection hc2b with hcount
            subst hcount
            have hb := history_get_bump_self g.history
              (g.state.makeMove (Move.quiet s e k)).footprint
            rw [heq] at hb
            exact ⟨hb, fun _ => ⟨rfl, rfl⟩⟩
          · intro hc
            have hcb : History.get g.history
                (g.state.makeMove (Move.quiet s e k)).footprint = none := hc
            rw [heq] at hcb
            exact absurd hcb (by simp)
        case _ h3 =>
          cases hmk
          refine ⟨rfl, ?_, ?_, ?_, ?_⟩
          · intro s2 e2 k2 _ fp hne
            exact history_get_bump_ne _ _ _ hne
          · intro hnq
            exact absurd rfl (hnq s e k)
          · intro c2 hc2
            have hc2b : History.get g.history
                (g.state.makeMove (Move.quiet s e k)).footprint = some c2 := hc2
            rw [heq] at hc2b
            injection hc2b with hcount
            subst hcount
            have hb := history_get_bump_self g.history
              (g.state.makeMove (Move.quiet s e k)).footprint
            rw [heq] at hb
            exact ⟨hb, fun hcontra => absurd hcontra h3⟩
          · intro hc
            have hcb : History.get g.history
                (g.state.makeMove (Move.quiet s e k)).footprint = none := hc
            rw [heq] at hcb
            exact absurd hcb (by simp)
      case _ heq =>
        cases hmk
        refine ⟨rfl, ?_, ?_, ?_, ?_⟩
        · intro s2 e2 k2 _ fp hne
          exact history_get_concat_ne _ _ _ hne
        · intro hnq
          exact absurd rfl (hnq s e k)
        · intro c hc
          have hcb : History.get g.history
              (g.state.makeMove (Move.quiet s e k)).footprint = some c := hc
          rw [heq] at hcb
          exact absurd hcb (by simp)
        · intro _
          exact history_get_concat_self _ _ heq
    case _ x hx =>
      have hbase0 : baseHistory g mv = [] := by
        cases mv with
        | quiet a b c => exact ((hx a b c) rfl).elim
        | capture _ _ _ => rfl
        | castle _ _ _ => rfl
        | doublePawnPush _ _ => rfl
        | enPassant _ _ => rfl
        | promote _ _ _ => rfl
        | promoteCapture _ _ _ => rfl
      dsimp only at hmk
      split at hmk
      case _ count heq =>
        exact absurd heq (by simp [History.get])
      case _ heq =>
        cases hmk
        refine ⟨rfl, ?_, ?_, ?_, ?_⟩
        · intro s2 e2 k2 hmv fp hne
          exact ((hx s2 e2 k2) hmv).elim
        · intro hnq fp
          by_cases hfp : fp = (g.state.makeMove mv).footprint
          · rw [if_pos hfp, hfp]
            exact history_get_concat_self [] _ rfl
          · rw [if_neg hfp]
            exact (history_get_concat_ne [] _ fp hfp).trans rfl
        · intro c hc
          rw [hbase0] at hc
          exact absurd hc (by simp [History.get])
        · intro _
          exact history_get_concat_self [] _ rfl

/-- C4 witness: the quiet pawn push e2e3 from the starting position, run
through the repetition-policy theorem: the starting position's footprint
keeps its count in the new history. -/
theorem game_makeMove_repetition_policy_witness :
    ChessGame.new.makeMove (.quiet 12 20 .pawn) = .ok pawnPushGame ∧
    History.get pawnPushGame.history ChessBoard.new.footprint =
      History.get ChessGame.new.history ChessBoard.new.footprint := by
  have h := game_makeMove_repetition_policy ChessGame.new pawnPushGame
    (.quiet 12 20 .pawn) (by decide)
  exact ⟨by decide, h.2.1 12 20 .pawn rfl ChessBoard.new.footprint (by decide)⟩

/-- C4 counterexample to the claim as stated: the quiet single pawn push
e2e3 is a legal generated move, yet after `make_move` the repetition map
still holds the starting position's footprint — the map was not cleared. -/
theorem quiet_pawn_push_keeps_history_cex :
    ChessGame.new.makeMove (.quiet 12 20 .pawn) = .ok pawnPushGame ∧
    Move.quiet 12 20 PieceType.pawn ∈ MoveGen.legal ChessGame.new.state ∧
    History.get pawnPushGame.history ChessBoard.new.footprint = some 1 ∧
    pawnPushGame.history.length = 2 :=
  ⟨by decide, by decide, by decide, by decide⟩

/-- C9: `look_for_terminal` records `Draw(FiftyMoves)` exactly at the
100-halfmove threshold: whenever the halfmove clock is at least 100 (and the
later insufficient-material assignment does not overwrite it) the result is
`Draw(FiftyMoves)`, and below 100 halfmoves — in particular for every clock
value from 50 to 99 — `Draw(FiftyMoves)` is never produced. -/
theorem fifty_move_rule_threshold (g : ChessGame) :
    (100 ≤ g.state.halfmoves → insufficientMaterialTriggers g.state = false →
      g.lookForTerminal.result = some (.draw .fiftyMoves)) ∧
    (g.state.halfmoves < 100 → g.result = none →
      g.lookForTerminal.result ≠ some (.draw .fiftyMoves)) := by
  constructor
  · intro h100 him
    simp only [ChessGame.lookForTerminal, ChessGame.lookForTerminalResult, him,
      Bool.false_eq_true, if_false, ge_iff_le]
    rw [if_pos h100]
  · intro h100 hres
    have hnot : ¬ (100 ≤ g.state.half_move_clock) := by
      have := h100; unfold ChessBoard.halfmoves at this; omega
    by_cases h1 : insufficientMaterialTriggers g.state <;>
      by_cases h2 : g.position_moves.isEmpty <;>
        by_cases h3 : BitBoard.isEmpty g.state.checkers <;>
          cases ht : g.state.turn <;>
            simp_all [ChessGame.lookForTerminal, ChessGame.lookForTerminalResult,
              ChessBoard.halfmoves]

/-- C9 witness: the rook endgame loaded with the clock at 100 draws by the
fifty-move rule, the same position at 99 does not. -/
theorem fifty_move_rule_threshold_witness :
    (100 ≤ clock100Game.state.halfmoves ∧
      insufficientMaterialTriggers clock100Game.state = false ∧
      clock100Game.lookForTerminal.result = some (.draw .fiftyMoves)) ∧
    (clock99Game.state.halfmoves < 100 ∧ clock99Game.result = none ∧
      clock99Game.lookForTerminal.result ≠ some (.draw .fiftyMoves)) := by
  refine ⟨⟨by decide, by decide, ?_⟩, ⟨by decide, by decide, ?_⟩⟩
  · exact (fifty_move_rule_threshold clock100Game).1 (by decide) (by decide)
  · exact (fifty_move_rule_threshold clock99Game).2 (by decide) (by decide)

/-- C10: once a `ChessGame` carries a recorded result, `is_legal_move`
returns `false` and `create_move`, `create_promote_move` and
`create_str_move` return errors, for every argument. -/
theorem finished_game_refuses_move_queries (g : ChessGame) (r : GameResult)
    (hr : g.result = some r) (start finish : Nat) (target : PieceType)
    (s : List Char) :
    g.isLegalMove start finish = false ∧
    g.createMove start finish = .error .illegal ∧
    g.createPromoteMove start finish target = .error .illegal ∧
    g.createStrMove s = .error (.illegalMove .illegal) := by
  refine ⟨?_, ?_, ?_, ?_⟩ <;>
    simp [ChessGame.isLegalMove, ChessGame.createMove, ChessGame.createPromoteMove,
      ChessGame.createStrMove, hr]

/-- C10 witness: the bare-kings game has an insufficient-material result from
construction; `a1a2` names a legal king move of its underlying board, yet
every move query refuses. -/
theorem finished_game_refuses_move_queries_witness :
    finishedGame.result = some (.draw .insufficientMaterial) ∧
    MoveGen.isLegal finishedGame.state 0 8 = true ∧
    finishedGame.isLegalMove 0 8 = false ∧
    finishedGame.createStrMove (String.toList "a1a2") = .error (.illegalMove .illegal) := by
  refine ⟨by decide, by decide, ?_, ?_⟩
  · exact (finished_game_refuses_move_queries finishedGame (.draw .insufficientMaterial)
      (by decide) 0 8 .queen (String.toList "a1a2")).1
  · exact (finished_game_refuses_move_queries finishedGame (.draw .insufficientMaterial)
      (by decide) 0 8 .queen (String.toList "a1a2")).2.2.2


theorem testBit_fromSquare {s : Nat} (h : s < 64) (i : Nat) :
    (BitBoard.fromSquare s).testBit i = decide (s = i) := by
  have he : BitBoard.fromSquare s = 2 ^ s := by
    unfold BitBoard.fromSquare M64
    rw [Nat.shiftLeft_eq, Nat.one_mul]
    exact Nat.mod_eq_of_lt (Nat.pow_lt_pow_right (by omega) h)
  rw [he]
  by_cases hi : s = i
  · subst hi
    simp [Nat.testBit_two_pow_self]
  · simp [Nat.testBit_two_pow_of_ne hi, hi]

theorem fromSquare_lt (sq : Nat) : BitBoard.fromSquare sq < 2 ^ 64 := by
  unfold BitBoard.fromSquare M64
  exact Nat.mod_lt _ (by norm_num)

theorem bbFinset_fromSquare {sq : Nat} (h : sq < 64) :
    bbFinset (BitBoard.fromSquare sq) = {sq} := by
  ext i
  simp only [mem_bbFinset, testBit_fromSquare h, Finset.mem_singleton, decide_eq_true_eq]
  omega

theorem land_eq_zero_iff {x y : Nat} (hx : x < 2 ^ 64) :
    x &&& y = 0 ↔ bbFinset x ∩ bbFinset y = ∅ := by
  rw [← bbFinset_land]
  exact (bbFinset_empty_iff (Nat.lt_of_le_of_lt Nat.and_le_left hx)).symm

theorem overlap_single_iff {x sq : Nat} (hx : x < 2 ^ 64) (hsq : sq < 64) :
    BitBoard.overlaps x (BitBoard.fromSquare sq) = true ↔ sq ∈ bbFinset x := by
  rw [overlaps_iff hx, bbFinset_fromSquare hsq]
  constructor
  · rintro ⟨i, hi⟩
    rw [Finset.mem_inter, Finset.mem_singleton] at hi
    rw [← hi.2]
    exact hi.1
  · intro h
    exact ⟨sq, Finset.mem_inter.mpr ⟨h, Finset.mem_singleton_self sq⟩⟩

theorem bbFinset_or_single (x : Nat) {sq : Nat} (h : sq < 64) :
    bbFinset (x ||| BitBoard.fromSquare sq) = insert sq (bbFinset x) := by
  ext i
  simp only [mem_bbFinset, Nat.testBit_or, testBit_fromSquare h, Finset.mem_insert,
    Bool.or_eq_true, decide_eq_true_eq]
  constructor
  · rintro ⟨h64, hb | hb⟩
    · exact Or.inr ⟨h64, hb⟩
    · exact Or.inl hb.symm
  · rintro (rfl | ⟨h64, hb⟩)
    · exact ⟨h, Or.inr (by simp)⟩
    · exact ⟨h64, Or.inl hb⟩

theorem bbFinset_xor_single {x sq : Nat} (h : sq < 64) (hmem : sq ∈ bbFinset x) :
    bbFinset (x ^^^ BitBoard.fromSquare sq) = bbFinset x \ {sq} := by
  ext i
  simp only [mem_bbFinset, Nat.testBit_xor, testBit_fromSquare h, Finset.mem_sdiff,
    Finset.mem_singleton, mem_bbFinset]
  by_cases hi : sq = i
  · subst hi
    rw [mem_bbFinset] at hmem
    simp [hmem.2]
  · have hi2 : ¬ i = sq := fun hh => hi hh.symm
    simp [hi, hi2]

theorem bbFinset_xor_pair {x s e : Nat} (hs : s < 64) (he : e < 64) (hne : s ≠ e)
    (hsmem : s ∈ bbFinset x) (hemem : e ∉ bbFinset x) :
    bbFinset (x ^^^ (BitBoard.fromSquare s ||| BitBoard.fromSquare e)) =
      insert e (bbFinset x \ {s}) := by
  have hex : x.testBit e = false := by
    rw [mem_bbFinset] at hemem
    by_cases hh : x.testBit e
    · exact absurd ⟨he, hh⟩ hemem
    · simpa using hh
  ext i
  simp only [mem_bbFinset, Nat.testBit_xor, Nat.testBit_or, testBit_fromSquare hs,
    testBit_fromSquare he, Finset.mem_insert, Finset.mem_sdiff, Finset.mem_singleton,
    mem_bbFinset]
  by_cases his : i = s
  · subst his
    rw [mem_bbFinset] at hsmem
    have h1 : ¬ e = i := fun hh => hne hh.symm
    simp [hsmem.2, hne, h1]
  · by_cases hie : i = e
    · subst hie
      have h1 : ¬ s = i := hne
      simp [hex, hne, h1, he]
    · have h1 : ¬ s = i := fun hh => his hh.symm
      have h2 : ¬ e = i := fun hh => hie hh.symm
      simp [h1, h2, his, hie]

theorem mem_pieces_union_iff {b : ChessBoard} {i : Nat} :
    i ∈ bbFinset (b.piece_bbs .pawn ||| b.piece_bbs .knight ||| b.piece_bbs .bishop |||
      b.piece_bbs .rook ||| b.piece_bbs .queen ||| b.piece_bbs .king) ↔
    ∃ k, i ∈ bbFinset (b.piece_bbs k) := by
  simp only [bbFinset_lor, Finset.mem_union]
  constructor
  · rintro (((((h | h) | h) | h) | h) | h)
    exacts [⟨.pawn, h⟩, ⟨.knight, h⟩, ⟨.bishop, h⟩, ⟨.rook, h⟩, ⟨.queen, h⟩, ⟨.king, h⟩]
  · rintro ⟨k, h⟩
    cases k
    exacts [Or.inl (Or.inl (Or.inl (Or.inl (Or.inl h)))),
      Or.inl (Or.inl (Or.inl (Or.inl (Or.inr h)))),
      Or.inl (Or.inl (Or.inl (Or.inr h))),
      Or.inl (Or.inl (Or.inr h)), Or.inl (Or.inr h), Or.inr h]

theorem mem_colors_union_iff {b : ChessBoard} {i : Nat} :
    i ∈ bbFinset (b.color_bbs .white ||| b.color_bbs .black) ↔
    ∃ c, i ∈ bbFinset (b.color_bbs c) := by
  simp only [bbFinset_lor, Finset.mem_union]
  constructor
  · rintro (h | h)
    exacts [⟨.white, h⟩, ⟨.black, h⟩]
  · rintro ⟨c, h⟩
    cases c
    exacts [Or.inl h, Or.inr h]

theorem wf_of_pointwise {b : ChessBoard}
    (hpb : ∀ k, b.piece_bbs k < 2 ^ 64) (hcb : ∀ c, b.color_bbs c < 2 ^ 64)
    (hpd : ∀ k1 k2, k1 ≠ k2 → ∀ i, i ∈ bbFinset (b.piece_bbs k1) →
      i ∉ bbFinset (b.piece_bbs k2))
    (hcd : ∀ i, i ∈ bbFinset (b.color_bbs .white) → i ∉ bbFinset (b.color_bbs .black))
    (hal : ∀ i, (∃ k, i ∈ bbFinset (b.piece_bbs k)) ↔ (∃ c, i ∈ bbFinset (b.color_bbs c))) :
    WellFormedBoard b := by
  refine ⟨hpb, hcb, ?_, ?_, ?_⟩
  · intro k1 k2 hk
    rw [land_eq_zero_iff (hpb k1), Finset.eq_empty_iff_forall_not_mem]
    intro i hi
    rw [Finset.mem_inter] at hi
    exact hpd k1 k2 hk i hi.1 hi.2
  · rw [land_eq_zero_iff (hcb .white), Finset.eq_empty_iff_forall_not_mem]
    intro i hi
    rw [Finset.mem_inter] at hi
    exact hcd i hi.1 hi.2
  · apply bbFinset_inj
    · exact Nat.or_lt_two_pow (Nat.or_lt_two_pow (Nat.or_lt_two_pow (Nat.or_lt_two_pow
        (Nat.or_lt_two_pow (hpb .pawn) (hpb .knight)) (hpb .bishop)) (hpb .rook))
        (hpb .queen)) (hpb .king)
    · exact Nat.or_lt_two_pow (hcb .white) (hcb .black)
    · ext i
      rw [mem_pieces_union_iff, mem_colors_union_iff]
      exact hal i

theorem wf_pointwise_disjoint {b : ChessBoard} (hwf : WellFormedBoard b) {k1 k2 : PieceType}
    (hk : k1 ≠ k2) {i : Nat} (h : i ∈ bbFinset (b.piece_bbs k1)) :
    i ∉ bbFinset (b.piece_bbs k2) := by
  intro h2
  have := hwf.piece_disjoint k1 k2 hk
  rw [land_eq_zero_iff (hwf.piece_bounded k1)] at this
  exact absurd (Finset.mem_inter.mpr ⟨h, h2⟩) (by rw [this]; exact Finset.not_mem_empty i)

theorem wf_pointwise_color_disjoint {b : ChessBoard} (hwf : WellFormedBoard b)
    {c1 c2 : Color} (hc : c1 ≠ c2) {i : Nat} (h : i ∈ bbFinset (b.color_bbs c1)) :
    i ∉ bbFinset (b.color_bbs c2) := by
  intro h2
  have hwb : i ∈ bbFinset (b.color_bbs .white) ∧ i ∈ bbFinset (b.color_bbs .black) := by
    cases c1 <;> cases c2 <;> simp_all
  have := hwf.color_disjoint
  rw [land_eq_zero_iff (hwf.color_bounded .white)] at this
  exact absurd (Finset.mem_inter.mpr hwb) (by rw [this]; exact Finset.not_mem_empty i)

theorem wf_pointwise_aligned {b : ChessBoard} (hwf : WellFormedBoard b) (i : Nat) :
    (∃ k, i ∈ bbFinset (b.piece_bbs k)) ↔ (∃ c, i ∈ bbFinset (b.color_bbs c)) := by
  rw [← mem_pieces_union_iff, ← mem_colors_union_iff, hwf.aligned]

theorem mem_occupancy_iff {b : ChessBoard} {i : Nat} :
    i ∈ bbFinset b.occupancy ↔ ∃ c, i ∈ bbFinset (b.color_bbs c) := by
  unfold ChessBoard.occupancy ChessBoard.colorOccupancy
  exact mem_colors_union_iff

theorem not_occ_not_piece {b : ChessBoard} (hwf : WellFormedBoard b) {i : Nat}
    (h : i ∉ bbFinset b.occupancy) (k : PieceType) : i ∉ bbFinset (b.piece_bbs k) := by
  intro hmem
  exact h (mem_occupancy_iff.mpr ((wf_pointwise_aligned hwf i).mp ⟨k, hmem⟩))

theorem not_occ_not_color {b : ChessBoard} {i : Nat}
    (h : i ∉ bbFinset b.occupancy) (c : Color) : i ∉ bbFinset (b.color_bbs c) := by
  intro hmem
  exact h (mem_occupancy_iff.mpr ⟨c, hmem⟩)

theorem SameBBs.rfl {a : ChessBoard} : SameBBs a a := ⟨Eq.refl _, Eq.refl _⟩

theorem SameBBs.trans {a b c : ChessBoard} (h1 : SameBBs a b) (h2 : SameBBs b c) :
    SameBBs a c := ⟨h1.1.trans h2.1, h1.2.trans h2.2⟩

theorem SameBBs.wf {a b : ChessBoard} (h : SameBBs a b) (hwf : WellFormedBoard a) :
    WellFormedBoard b := by
  refine ⟨?_, ?_, ?_, ?_, ?_⟩
  · rw [← h.1]
    exact hwf.piece_bounded
  · rw [← h.2]
    exact hwf.color_bounded
  · rw [← h.1]
    exact hwf.piece_disjoint
  · rw [← h.2]
    exact hwf.color_disjoint
  · rw [← h.1, ← h.2]
    exact hwf.aligned

theorem SameBBs.query {a b : ChessBoard} (h : SameBBs a b) (k : PieceType) (c : Color) :
    b.query k c = a.query k c := by
  unfold ChessBoard.query
  rw [h.1, h.2]

theorem SameBBs.occ {a b : ChessBoard} (h : SameBBs a b) : b.occupancy = a.occupancy := by
  unfold ChessBoard.occupancy ChessBoard.colorOccupancy
  rw [h.2]

theorem sameBBs_clearEp (b : ChessBoard) : SameBBs b b.clearEp := by
  unfold ChessBoard.clearEp
  constructor <;> (split <;> rfl)

theorem sameBBs_toggleTurn (b : ChessBoard) : SameBBs b b.toggleTurn := ⟨Eq.refl _, Eq.refl _⟩

theorem sameBBs_setEp (b : ChessBoard) (sq : Nat) : SameBBs b (b.setEp sq) :=
  ⟨Eq.refl _, Eq.refl _⟩

theorem sameBBs_unsetCastleRight (b : ChessBoard) (side : CastleSide) (c : Color) :
    SameBBs b (b.unsetCastleRight side c) := by
  unfold ChessBoard.unsetCastleRight
  constructor <;> (split <;> rfl)

theorem sameBBs_unsetColorRights (b : ChessBoard) (c : Color) :
    SameBBs b (b.unsetColorRights c) :=
  (sameBBs_unsetCastleRight b .kingside c).trans
    (sameBBs_unsetCastleRight (b.unsetCastleRight .kingside c) .queenside c)

theorem sameBBs_unsetMovedRookRights (b : ChessBoard) (us : Color) (start : Nat) :
    SameBBs b (b.unsetMovedRookRights us start) := by
  unfold ChessBoard.unsetMovedRookRights
  split
  · exact sameBBs_unsetCastleRight _ _ _
  · exact sameBBs_unsetCastleRight _ _ _
  · exact sameBBs_unsetCastleRight _ _ _
  · exact sameBBs_unsetCastleRight _ _ _
  · exact SameBBs.rfl

theorem sameBBs_unsetCapturedRookRights (b : ChessBoard) (us them : Color) (finish : Nat) :
    SameBBs b (b.unsetCapturedRookRights us them finish) := by
  unfold ChessBoard.unsetCapturedRookRights
  split
  · exact sameBBs_unsetCastleRight _ _ _
  · exact sameBBs_unsetCastleRight _ _ _
  · exact sameBBs_unsetCastleRight _ _ _
  · exact sameBBs_unsetCastleRight _ _ _
  · exact SameBBs.rfl

theorem sameBBs_calculateExtraData (b : ChessBoard) : SameBBs b b.calculateExtraData :=
  ⟨Eq.refl _, Eq.refl _⟩

theorem overlap_single_true {x sq : Nat} (hx : x < 2 ^ 64) (hsq : sq < 64)
    (h : sq ∈ bbFinset x) : BitBoard.overlaps x (BitBoard.fromSquare sq) = true :=
  (overlap_single_iff hx hsq).mpr h

theorem overlap_single_false {x sq : Nat} (hx : x < 2 ^ 64) (hsq : sq < 64)
    (h : sq ∉ bbFinset x) : BitBoard.overlaps x (BitBoard.fromSquare sq) = false := by
  rw [← Bool.not_eq_true, overlap_single_iff hx hsq]
  exact h

theorem insert_desc (b : ChessBoard) {sq : Nat} (hsq : sq < 64) (p : Piece) :
    (∀ k, bbFinset ((b.insert sq p).piece_bbs k) =
      if k = p.kind then insert sq (bbFinset (b.piece_bbs k)) else bbFinset (b.piece_bbs k)) ∧
    (∀ c, bbFinset ((b.insert sq p).color_bbs c) =
      if c = p.color then insert sq (bbFinset (b.color_bbs c)) else bbFinset (b.color_bbs c)) := by
  constructor
  · intro k
    show bbFinset (Function.update b.piece_bbs p.kind
      (b.piece_bbs p.kind ||| BitBoard.fromSquare sq) k) = _
    rw [Function.update_apply]
    by_cases hk : k = p.kind
    · rw [if_pos hk, if_pos hk, hk, bbFinset_or_single _ hsq]
    · rw [if_neg hk, if_neg hk]
  · intro c
    show bbFinset (Function.update b.color_bbs p.color
      (b.color_bbs p.color ||| BitBoard.fromSquare sq) c) = _
    rw [Function.update_apply]
    by_cases hc : c = p.color
    · rw [if_pos hc, if_pos hc, hc, bbFinset_or_single _ hsq]
    · rw [if_neg hc, if_neg hc]

theorem remove_desc {b : ChessBoard} {sq : Nat} {p : Piece} (hp : b.pieceAt sq = some p)
    (hsq : sq < 64) (hpm : sq ∈ bbFinset (b.piece_bbs p.kind))
    (hcm : sq ∈ bbFinset (b.color_bbs p.color)) :
    (∀ k, bbFinset ((b.remove sq).piece_bbs k) =
      if k = p.kind then bbFinset (b.piece_bbs k) \ {sq} else bbFinset (b.piece_bbs k)) ∧
    (∀ c, bbFinset ((b.remove sq).color_bbs c) =
      if c = p.color then bbFinset (b.color_bbs c) \ {sq} else bbFinset (b.color_bbs c)) := by
  unfold ChessBoard.remove
  rw [hp]
  constructor
  · intro k
    show bbFinset (Function.update b.piece_bbs p.kind
      (b.piece_bbs p.kind ^^^ BitBoard.fromSquare sq) k) = _
    rw [Function.update_apply]
    by_cases hk : k = p.kind
    · rw [if_pos hk, if_pos hk, hk, bbFinset_xor_single hsq hpm]
    · rw [if_neg hk, if_neg hk]
  · intro c
    show bbFinset (Function.update b.color_bbs p.color
      (b.color_bbs p.color ^^^ BitBoard.fromSquare sq) c) = _
    rw [Function.update_apply]
    by_cases hc : c = p.color
    · rw [if_pos hc, if_pos hc, hc, bbFinset_xor_single hsq hcm]
    · rw [if_neg hc, if_neg hc]

theorem movePiece_desc {b : ChessBoard} {s e : Nat} (hs : s < 64) (he : e < 64)
    (hne : s ≠ e) (p : Piece)
    (hpm : s ∈ bbFinset (b.piece_bbs p.kind)) (hpe : e ∉ bbFinset (b.piece_bbs p.kind))
    (hcm : s ∈ bbFinset (b.color_bbs p.color)) (hce : e ∉ bbFinset (b.color_bbs p.color)) :
    (∀ k, bbFinset ((b.movePiece s e p).piece_bbs k) =
      if k = p.kind then insert e (bbFinset (b.piece_bbs k) \ {s})
      else bbFinset (b.piece_bbs k)) ∧
    (∀ c, bbFinset ((b.movePiece s e p).color_bbs c) =
      if c = p.color then insert e (bbFinset (b.color_bbs c) \ {s})
      else bbFinset (b.color_bbs c)) := by
  constructor
  · intro k
    show bbFinset (Function.update b.piece_bbs p.kind
      (b.piece_bbs p.kind ^^^ (BitBoard.fromSquare s ||| BitBoard.fromSquare e)) k) = _
    rw [Function.update_apply]
    by_cases hk : k = p.kind
    · rw [if_pos hk, if_pos hk, hk, bbFinset_xor_pair hs he hne hpm hpe]
    · rw [if_neg hk, if_neg hk]
  · intro c
    show bbFinset (Function.update b.color_bbs p.color
      (b.color_bbs p.color ^^^ (BitBoard.fromSquare s ||| BitBoard.fromSquare e)) c) = _
    rw [Function.update_apply]
    by_cases hc : c = p.color
    · rw [if_pos hc, if_pos hc, hc, bbFinset_xor_pair hs he hne hcm hce]
    · rw [if_neg hc, if_neg hc]

theorem pieceAtAux_eq {b : ChessBoard} (hwf : WellFormedBoard b) {sq : Nat} (hsq : sq < 64)
    {k : PieceType} (hpm : sq ∈ bbFinset (b.piece_bbs k)) (c : Color) :
    ChessBoard.pieceAt.pieceAtAux b sq c = ⟨k, c⟩ := by
  have hpnr_lt : b.piece_bbs .pawn ||| b.piece_bbs .knight ||| b.piece_bbs .rook < 2 ^ 64 :=
    Nat.or_lt_two_pow (Nat.or_lt_two_pow (hwf.piece_bounded .pawn) (hwf.piece_bounded .knight))
      (hwf.piece_bounded .rook)
  have hmem_pnr : ∀ k2, sq ∈ bbFinset (b.piece_bbs k2) →
      sq ∈ bbFinset (b.piece_bbs .pawn ||| b.piece_bbs .knight ||| b.piece_bbs .rook) ∨
      (k2 = .bishop ∨ k2 = .queen ∨ k2 = .king) := by
    intro k2 h2
    cases k2
    · exact Or.inl (by rw [bbFinset_lor, bbFinset_lor]; exact
        Finset.mem_union_left _ (Finset.mem_union_left _ h2))
    · exact Or.inl (by rw [bbFinset_lor, bbFinset_lor]; exact
        Finset.mem_union_left _ (Finset.mem_union_right _ h2))
    · exact Or.inr (Or.inl rfl)
    · exact Or.inl (by rw [bbFinset_lor]; exact Finset.mem_union_right _ h2)
    · exact Or.inr (Or.inr (Or.inl rfl))
    · exact Or.inr (Or.inr (Or.inr rfl))
  have hnot : ∀ k2, k2 ≠ k → sq ∉ bbFinset (b.piece_bbs k2) := by
    intro k2 hk2 hcon
    exact wf_pointwise_disjoint hwf hk2 hcon hpm
  unfold ChessBoard.pieceAt.pieceAtAux
  dsimp only
  cases k with
  | pawn =>
    have h1 : BitBoard.overlaps (b.piece_bbs .pawn ||| b.piece_bbs .knight |||
        b.piece_bbs .rook) (BitBoard.fromSquare sq) = true :=
      overlap_single_true hpnr_lt hsq (by
        rcases hmem_pnr .pawn hpm with h | h
        · exact h
        · simp at h)
    have h2 : BitBoard.overlaps (b.piece_bbs .pawn) (BitBoard.fromSquare sq) = true :=
      overlap_single_true (hwf.piece_bounded .pawn) hsq hpm
    rw [h1, h2]
    rfl
  | knight =>
    have h1 : BitBoard.overlaps (b.piece_bbs .pawn ||| b.piece_bbs .knight |||
        b.piece_bbs .rook) (BitBoard.fromSquare sq) = true :=
      overlap_single_true hpnr_lt hsq (by
        rcases hmem_pnr .knight hpm with h | h
        · exact h
        · simp at h)
    have h2 : BitBoard.overlaps (b.piece_bbs .pawn) (BitBoard.fromSquare sq) = false :=
      overlap_single_false (hwf.piece_bounded .pawn) hsq (hnot .pawn (by simp))
    have h3 : BitBoard.overlaps (b.piece_bbs .knight) (BitBoard.fromSquare sq) = true :=
      overlap_single_true (hwf.piece_bounded .knight) hsq hpm
    rw [h1, h2, h3]
    rfl
  | rook =>
    have h1 : BitBoard.overlaps (b.piece_bbs .pawn ||| b.piece_bbs .knight |||
        b.piece_bbs .rook) (BitBoard.fromSquare sq) = true :=
      overlap_single_true hpnr_lt hsq (by
        rcases hmem_pnr .rook hpm with h | h
        · exact h
        · simp at h)
    have h2 : BitBoard.overlaps (b.piece_bbs .pawn) (BitBoard.fromSquare sq) = false :=
      overlap_single_false (hwf.piece_bounded .pawn) hsq (hnot .pawn (by simp))
    have h3 : BitBoard.overlaps (b.piece_bbs .knight) (BitBoard.fromSquare sq) = false :=
      overlap_single_false (hwf.piece_bounded .knight) hsq (hnot .knight (by simp))
    rw [h1, h2, h3]
    rfl
  | bishop =>
    have h1 : BitBoard.overlaps (b.piece_bbs .pawn ||| b.piece_bbs .knight |||
        b.piece_bbs .rook) (BitBoard.fromSquare sq) = false :=
      overlap_single_false hpnr_lt hsq (by
        rw [bbFinset_lor, bbFinset_lor]
        simp only [Finset.mem_union]
        rintro ((h | h) | h)
        · exact hnot .pawn (by simp) h
        · exact hnot .knight (by simp) h
        · exact hnot .rook (by simp) h)
    have h2 : BitBoard.overlaps (b.piece_bbs .bishop) (BitBoard.fromSquare sq) = true :=
      overlap_single_true (hwf.piece_bounded .bishop) hsq hpm
    rw [h1, h2]
    rfl
  | queen =>
    have h1 : BitBoard.overlaps (b.piece_bbs .pawn ||| b.piece_bbs .knight |||
        b.piece_bbs .rook) (BitBoard.fromSquare sq) = false :=
      overlap_single_false hpnr_lt hsq (by
        rw [bbFinset_lor, bbFinset_lor]
        simp only [Finset.mem_union]
        rintro ((h | h) | h)
        · exact hnot .pawn (by simp) h
        · exact hnot .knight (by simp) h
        · exact hnot .rook (by simp) h)
    have h2 : BitBoard.overlaps (b.piece_bbs .bishop) (BitBoard.fromSquare sq) = false :=
      overlap_single_false (hwf.piece_bounded .bishop) hsq (hnot .bishop (by simp))
    have h3 : BitBoard.overlaps (b.piece_bbs .queen) (BitBoard.fromSquare sq) = true :=
      overlap_single_true (hwf.piece_bounded .queen) hsq hpm
    rw [h1, h2, h3]
    rfl
  | king =>
    have h1 : BitBoard.overlaps (b.piece_bbs .pawn ||| b.piece_bbs .knight |||
        b.piece_bbs .rook) (BitBoard.fromSquare sq) = false :=
      overlap_single_false hpnr_lt hsq (by
        rw [bbFinset_lor, bbFinset_lor]
        simp only [Finset.mem_union]
        rintro ((h | h) | h)
        · exact hnot .pawn (by simp) h
        · exact hnot .knight (by simp) h
        · exact hnot .rook (by simp) h)
    have h2 : BitBoard.overlaps (b.piece_bbs .bishop) (BitBoard.fromSquare sq) = false :=
      overlap_single_false (hwf.piece_bounded .bishop) hsq (hnot .bishop (by simp))
    have h3 : BitBoard.overlaps (b.piece_bbs .queen) (BitBoard.fromSquare sq) = false :=
      overlap_single_false (hwf.piece_bounded .queen) hsq (hnot .queen (by simp))
    rw [h1, h2, h3]
    rfl

theorem pieceAt_of_query {b : ChessBoard} (hwf : WellFormedBoard b) {sq : Nat} (hsq : sq < 64)
    {k : PieceType} {c : Color} (h : sq ∈ bbFinset (b.query k c)) :
    b.pieceAt sq = some (⟨k, c⟩ : Piece) := by
  have hpm : sq ∈ bbFinset (b.piece_bbs k) := query_subset_piece b k c h
  have hcm : sq ∈ bbFinset (b.color_bbs c) := query_subset_color b k c h
  unfold ChessBoard.pieceAt
  dsimp only
  cases c with
  | white =>
    have hw : BitBoard.overlaps (b.color_bbs .white) (BitBoard.fromSquare sq) = true :=
      overlap_single_true (hwf.color_bounded .white) hsq hcm
    rw [hw]
    simp only [if_true]
    rw [pieceAtAux_eq hwf hsq hpm]
  | black =>
    have hnw : sq ∉ bbFinset (b.color_bbs .white) :=
      wf_pointwise_color_disjoint hwf (by simp) hcm
    have hw : BitBoard.overlaps (b.color_bbs .white) (BitBoard.fromSquare sq) = false :=
      overlap_single_false (hwf.color_bounded .white) hsq hnw
    have hb : BitBoard.overlaps (b.color_bbs .black) (BitBoard.fromSquare sq) = true :=
      overlap_single_true (hwf.color_bounded .black) hsq hcm
    rw [hw, hb]
    simp only [Bool.false_eq_true, if_false, if_true]
    rw [pieceAtAux_eq hwf hsq hpm]

theorem insert_wf {b : ChessBoard} (hwf : WellFormedBoard b) {sq : Nat} (hsq : sq < 64)
    (p : Piece) (hemp : sq ∉ bbFinset b.occupancy) : WellFormedBoard (b.insert sq p) := by
  obtain ⟨hdp, hdc⟩ := insert_desc b hsq p
  have hnp : ∀ k, sq ∉ bbFinset (b.piece_bbs k) := not_occ_not_piece hwf hemp
  have hnc : ∀ c, sq ∉ bbFinset (b.color_bbs c) := not_occ_not_color hemp
  apply wf_of_pointwise
  · intro k
    show Function.update b.piece_bbs p.kind
      (b.piece_bbs p.kind ||| BitBoard.fromSquare sq) k < 2 ^ 64
    rw [Function.update_apply]
    split
    · exact Nat.or_lt_two_pow (hwf.piece_bounded _) (fromSquare_lt _)
    · exact hwf.piece_bounded k
  · intro c
    show Function.update b.color_bbs p.color
      (b.color_bbs p.color ||| BitBoard.fromSquare sq) c < 2 ^ 64
    rw [Function.update_apply]
    split
    · exact Nat.or_lt_two_pow (hwf.color_bounded _) (fromSquare_lt _)
    · exact hwf.color_bounded c
  · intro k1 k2 hk i hi1 hi2
    rw [hdp k1] at hi1
    rw [hdp k2] at hi2
    by_cases h1 : k1 = p.kind <;> by_cases h2 : k2 = p.kind
    · exact hk (h1.trans h2.symm)
    · rw [if_pos h1, Finset.mem_insert] at hi1
      rw [if_neg h2] at hi2
      rcases hi1 with rfl | hi1
      · exact hnp k2 hi2
      · exact wf_pointwise_disjoint hwf hk hi1 hi2
    · rw [if_neg h1] at hi1
      rw [if_pos h2, Finset.mem_insert] at hi2
      rcases hi2 with rfl | hi2
      · exact hnp k1 hi1
      · exact wf_pointwise_disjoint hwf hk hi1 hi2
    · rw [if_neg h1] at hi1
      rw [if_neg h2] at hi2
      exact wf_pointwise_disjoint hwf hk hi1 hi2
  · intro i hi1 hi2
    rw [hdc .white] at hi1
    rw [hdc .black] at hi2
    by_cases h1 : Color.white = p.color <;> by_cases h2 : Color.black = p.color
    · exact absurd (h1.trans h2.symm) (by simp)
    · rw [if_pos h1, Finset.mem_insert] at hi1
      rw [if_neg h2] at hi2
      rcases hi1 with rfl | hi1
      · exact hnc .black hi2
      · exact wf_pointwise_color_disjoint hwf (by simp) hi1 hi2
    · rw [if_neg h1] at hi1
      rw [if_pos h2, Finset.mem_insert] at hi2
      rcases hi2 with rfl | hi2
      · exact hnc .white hi1
      · exact wf_pointwise_color_disjoint hwf (by simp) hi1 hi2
    · rw [if_neg h1] at hi1
      rw [if_neg h2] at hi2
      exact wf_pointwise_color_disjoint hwf (by simp) hi1 hi2
  · intro i
    have hL : (∃ k, i ∈ bbFinset ((b.insert sq p).piece_bbs k)) ↔
        (∃ k, i ∈ bbFinset (b.piece_bbs k)) ∨ i = sq := by
      constructor
      · rintro ⟨k, hkmem⟩
        rw [hdp k] at hkmem
        by_cases h1 : k = p.kind
        · rw [if_pos h1, Finset.mem_insert] at hkmem
          rcases hkmem with rfl | hkmem
          · exact Or.inr rfl
          · exact Or.inl ⟨k, hkmem⟩
        · rw [if_neg h1] at hkmem
          exact Or.inl ⟨k, hkmem⟩
      · rintro (⟨k, hkmem⟩ | rfl)
        · refine ⟨k, ?_⟩
          rw [hdp k]
          split
          · exact Finset.mem_insert_of_mem hkmem
          · exact hkmem
        · refine ⟨p.kind, ?_⟩
          rw [hdp p.kind, if_pos rfl]
          exact Finset.mem_insert_self _ _
    have hR : (∃ c, i ∈ bbFinset ((b.insert sq p).color_bbs c)) ↔
        (∃ c, i ∈ bbFinset (b.color_bbs c)) ∨ i = sq := by
      constructor
      · rintro ⟨c, hcmem⟩
        rw [hdc c] at hcmem
        by_cases h1 : c = p.color
        · rw [if_pos h1, Finset.mem_insert] at hcmem
          rcases hcmem with rfl | hcmem
          · exact Or.inr rfl
          · exact Or.inl ⟨c, hcmem⟩
        · rw [if_neg h1] at hcmem
          exact Or.inl ⟨c, hcmem⟩
      · rintro (⟨c, hcmem⟩ | rfl)
        · refine ⟨c, ?_⟩
          rw [hdc c]
          split
          · exact Finset.mem_insert_of_mem hcmem
          · exact hcmem
        · refine ⟨p.color, ?_⟩
          rw [hdc p.color, if_pos rfl]
          exact Finset.mem_insert_self _ _
    rw [hL, hR, wf_pointwise_aligned hwf i]

theorem remove_wf {b : ChessBoard} (hwf : WellFormedBoard b) {sq : Nat} (hsq : sq < 64)
    {k : PieceType} {c : Color} (h : sq ∈ bbFinset (b.query k c)) :
    WellFormedBoard (b.remove sq) := by
  have hp : b.pieceAt sq = some (⟨k, c⟩ : Piece) := pieceAt_of_query hwf hsq h
  have hpm : sq ∈ bbFinset (b.piece_bbs k) := query_subset_piece b k c h
  have hcm : sq ∈ bbFinset (b.color_bbs c) := query_subset_color b k c h
  obtain ⟨hdp, hdc⟩ := remove_desc hp hsq hpm hcm
  have hsub_p : ∀ k2 i, i ∈ bbFinset ((b.remove sq).piece_bbs k2) →
      i ∈ bbFinset (b.piece_bbs k2) := by
    intro k2 i hi
    rw [hdp k2] at hi
    revert hi
    split
    · exact fun hi => (Finset.mem_sdiff.mp hi).1
    · exact id
  have hsub_c : ∀ c2 i, i ∈ bbFinset ((b.remove sq).color_bbs c2) →
      i ∈ bbFinset (b.color_bbs c2) := by
    intro c2 i hi
    rw [hdc c2] at hi
    revert hi
    split
    · exact fun hi => (Finset.mem_sdiff.mp hi).1
    · exact id
  have hre : (b.remove sq).piece_bbs =
      Function.update b.piece_bbs k (b.piece_bbs k ^^^ BitBoard.fromSquare sq) := by
    unfold ChessBoard.remove
    rw [hp]
  have hrc : (b.remove sq).color_bbs =
      Function.update b.color_bbs c (b.color_bbs c ^^^ BitBoard.fromSquare sq) := by
    unfold ChessBoard.remove
    rw [hp]
  apply wf_of_pointwise
  · intro k2
    rw [hre, Function.update_apply]
    split
    · exact Nat.xor_lt_two_pow (hwf.piece_bounded _) (fromSquare_lt _)
    · exact hwf.piece_bounded k2
  · intro c2
    rw [hrc, Function.update_apply]
    split
    · exact Nat.xor_lt_two_pow (hwf.color_bounded _) (fromSquare_lt _)
    · exact hwf.color_bounded c2
  · intro k1 k2 hk i hi1 hi2
    exact wf_pointwise_disjoint hwf hk (hsub_p k1 i hi1) (hsub_p k2 i hi2)
  · intro i hi1 hi2
    exact wf_pointwise_color_disjoint hwf (by simp) (hsub_c .white i hi1) (hsub_c .black i hi2)
  · intro i
    by_cases hiq : i = sq
    · subst hiq
      constructor
      · rintro ⟨k2, hk2⟩
        rw [hdp k2] at hk2
        by_cases h1 : k2 = k
        · rw [if_pos h1, Finset.mem_sdiff] at hk2
          exact (hk2.2 (Finset.mem_singleton_self _)).elim
        · rw [if_neg h1] at hk2
          exact absurd hpm (wf_pointwise_disjoint hwf h1 hk2)
      · rintro ⟨c2, hc2⟩
        rw [hdc c2] at hc2
        by_cases h1 : c2 = c
        · rw [if_pos h1, Finset.mem_sdiff] at hc2
          exact (hc2.2 (Finset.mem_singleton_self _)).elim
        · rw [if_neg h1] at hc2
          exact absurd hcm (wf_pointwise_color_disjoint hwf h1 hc2)
    · have hLp : ∀ k2, i ∈ bbFinset ((b.remove sq).piece_bbs k2) ↔
          i ∈ bbFinset (b.piece_bbs k2) := by
        intro k2
        rw [hdp k2]
        split
        · rw [Finset.mem_sdiff, Finset.mem_singleton]
          exact ⟨fun hh => hh.1, fun hh => ⟨hh, hiq⟩⟩
        · exact Iff.rfl
      have hLc : ∀ c2, i ∈ bbFinset ((b.remove sq).color_bbs c2) ↔
          i ∈ bbFinset (b.color_bbs c2) := by
        intro c2
        rw [hdc c2]
        split
        · rw [Finset.mem_sdiff, Finset.mem_singleton]
          exact ⟨fun hh => hh.1, fun hh => ⟨hh, hiq⟩⟩
        · exact Iff.rfl
      simp only [hLp, hLc]
      exact wf_pointwise_aligned hwf i

theorem movePiece_wf {b : ChessBoard} (hwf : WellFormedBoard b) {s e : Nat}
    (hs : s < 64) (he : e < 64) (hne : s ≠ e) (p : Piece)
    (hsm : s ∈ bbFinset (b.query p.kind p.color)) (hemp : e ∉ bbFinset b.occupancy) :
    WellFormedBoard (b.movePiece s e p) := by
  have hpm : s ∈ bbFinset (b.piece_bbs p.kind) := query_subset_piece b p.kind p.color hsm
  have hcm : s ∈ bbFinset (b.color_bbs p.color) := query_subset_color b p.kind p.color hsm
  have hpe : e ∉ bbFinset (b.piece_bbs p.kind) := not_occ_not_piece hwf hemp p.kind
  have hce : e ∉ bbFinset (b.color_bbs p.color) := not_occ_not_color hemp p.color
  have hnpe : ∀ k, e ∉ bbFinset (b.piece_bbs k) := not_occ_not_piece hwf hemp
  have hnce : ∀ c, e ∉ bbFinset (b.color_bbs c) := not_occ_not_color hemp
  obtain ⟨hdp, hdc⟩ := movePiece_desc hs he hne p hpm hpe hcm hce
  apply wf_of_pointwise
  · intro k2
    show Function.update b.piece_bbs p.kind
      (b.piece_bbs p.kind ^^^ (BitBoard.fromSquare s ||| BitBoard.fromSquare e)) k2 < 2 ^ 64
    rw [Function.update_apply]
    split
    · exact Nat.xor_lt_two_pow (hwf.piece_bounded _)
        (Nat.or_lt_two_pow (fromSquare_lt _) (fromSquare_lt _))
    · exact hwf.piece_bounded k2
  · intro c2
    show Function.update b.color_bbs p.color
      (b.color_bbs p.color ^^^ (BitBoard.fromSquare s ||| BitBoard.fromSquare e)) c2 < 2 ^ 64
    rw [Function.update_apply]
    split
    · exact Nat.xor_lt_two_pow (hwf.color_bounded _)
        (Nat.or_lt_two_pow (fromSquare_lt _) (fromSquare_lt _))
    · exact hwf.color_bounded c2
  · intro k1 k2 hk i hi1 hi2
    rw [hdp k1] at hi1
    rw [hdp k2] at hi2
    by_cases h1 : k1 = p.kind <;> by_cases h2 : k2 = p.kind
    · exact hk (h1.trans h2.symm)
    · rw [if_pos h1, Finset.mem_insert] at hi1
      rw [if_neg h2] at hi2
      rcases hi1 with rfl | hi1
      · exact hnpe k2 hi2
      · exact wf_pointwise_disjoint hwf hk (Finset.mem_sdiff.mp hi1).1 hi2
    · rw [if_neg h1] at hi1
      rw [if_pos h2, Finset.mem_insert] at hi2
      rcases hi2 with rfl | hi2
      · exact hnpe k1 hi1
      · exact wf_pointwise_disjoint hwf hk hi1 (Finset.mem_sdiff.mp hi2).1
    · rw [if_neg h1] at hi1
      rw [if_neg h2] at hi2
      exact wf_pointwise_disjoint hwf hk hi1 hi2
  · intro i hi1 hi2
    rw [hdc .white] at hi1
    rw [hdc .black] at hi2
    by_cases h1 : Color.white = p.color <;> by_cases h2 : Color.black = p.color
    · exact absurd (h1.trans h2.symm) (by simp)
    · rw [if_pos h1, Finset.mem_insert] at hi1
      rw [if_neg h2] at hi2
      rcases hi1 with rfl | hi1
      · exact hnce .black hi2
      · exact wf_pointwise_color_disjoint hwf (by simp) (Finset.mem_sdiff.mp hi1).1 hi2
    · rw [if_neg h1] at hi1
      rw [if_pos h2, Finset.mem_insert] at hi2
      rcases hi2 with rfl | hi2
      · exact hnce .white hi1
      · exact wf_pointwise_color_disjoint hwf (by simp) hi1 (Finset.mem_sdiff.mp hi2).1
    · rw [if_neg h1] at hi1
      rw [if_neg h2] at hi2
      exact wf_pointwise_color_disjoint hwf (by simp) hi1 hi2
  · intro i
    have hL : (∃ k2, i ∈ bbFinset ((b.movePiece s e p).piece_bbs k2)) ↔
        ((∃ k2, i ∈ bbFinset (b.piece_bbs k2)) ∧ i ≠ s) ∨ i = e := by
      constructor
      · rintro ⟨k2, hk2⟩
        rw [hdp k2] at hk2
        by_cases h1 : k2 = p.kind
        · rw [if_pos h1, Finset.mem_insert] at hk2
          rcases hk2 with rfl | hk2
          · exact Or.inr rfl
          · rw [Finset.mem_sdiff, Finset.mem_singleton] at hk2
            exact Or.inl ⟨⟨k2, hk2.1⟩, hk2.2⟩
        · rw [if_neg h1] at hk2
          refine Or.inl ⟨⟨k2, hk2⟩, ?_⟩
          rintro rfl
          exact wf_pointwise_disjoint hwf h1 hk2 hpm
      · rintro (⟨⟨k2, hk2⟩, hns⟩ | rfl)
        · refine ⟨k2, ?_⟩
          rw [hdp k2]
          split
          · exact Finset.mem_insert_of_mem (Finset.mem_sdiff.mpr ⟨hk2, by
              rw [Finset.mem_singleton]; exact hns⟩)
          · exact hk2
        · refine ⟨p.kind, ?_⟩
          rw [hdp p.kind, if_pos rfl]
          exact Finset.mem_insert_self _ _
    have hR : (∃ c2, i ∈ bbFinset ((b.movePiece s e p).color_bbs c2)) ↔
        ((∃ c2, i ∈ bbFinset (b.color_bbs c2)) ∧ i ≠ s) ∨ i = e := by
      constructor
      · rintro ⟨c2, hc2⟩
        rw [hdc c2] at hc2
        by_cases h1 : c2 = p.color
        · rw [if_pos h1, Finset.mem_insert] at hc2
          rcases hc2 with rfl | hc2
          · exact Or.inr rfl
          · rw [Finset.mem_sdiff, Finset.mem_singleton] at hc2
            exact Or.inl ⟨⟨c2, hc2.1⟩, hc2.2⟩
        · rw [if_neg h1] at hc2
          refine Or.inl ⟨⟨c2, hc2⟩, ?_⟩
          rintro rfl
          exact wf_pointwise_color_disjoint hwf h1 hc2 hcm
      · rintro (⟨⟨c2, hc2⟩, hns⟩ | rfl)
        · refine ⟨c2, ?_⟩
          rw [hdc c2]
          split
          · exact Finset.mem_insert_of_mem (Finset.mem_sdiff.mpr ⟨hc2, by
              rw [Finset.mem_singleton]; exact hns⟩)
          · exact hc2
        · refine ⟨p.color, ?_⟩
          rw [hdc p.color, if_pos rfl]
          exact Finset.mem_insert_self _ _
    rw [hL, hR, wf_pointwise_aligned hwf i]

theorem mem_query_iff {b : ChessBoard} {i : Nat} {k : PieceType} {c : Color} :
    i ∈ bbFinset (b.query k c) ↔
      i ∈ bbFinset (b.piece_bbs k) ∧ i ∈ bbFinset (b.color_bbs c) := by
  unfold ChessBoard.query
  rw [bbFinset_land, Finset.mem_inter]

theorem wf_clock {b : ChessBoard} (hwf : WellFormedBoard b) (n : Nat) :
    WellFormedBoard { b with half_move_clock := n } := by
  have hbb : SameBBs b { b with half_move_clock := n } := ⟨Eq.refl _, Eq.refl _⟩
  exact hbb.wf hwf

theorem remove_props {b : ChessBoard} (hwf : WellFormedBoard b) {sq : Nat} (hsq : sq < 64)
    {k0 : PieceType} {c0 : Color} (h : sq ∈ bbFinset (b.query k0 c0)) :
    WellFormedBoard (b.remove sq) ∧
    (∀ i k c, i ≠ sq →
      (i ∈ bbFinset ((b.remove sq).query k c) ↔ i ∈ bbFinset (b.query k c))) ∧
    (∀ i c, i ≠ sq →
      (i ∈ bbFinset ((b.remove sq).color_bbs c) ↔ i ∈ bbFinset (b.color_bbs c))) ∧
    sq ∉ bbFinset (b.remove sq).occupancy := by
  have hp : b.pieceAt sq = some (⟨k0, c0⟩ : Piece) := pieceAt_of_query hwf hsq h
  have hpm : sq ∈ bbFinset (b.piece_bbs k0) := query_subset_piece b k0 c0 h
  have hcm : sq ∈ bbFinset (b.color_bbs c0) := query_subset_color b k0 c0 h
  obtain ⟨hdp, hdc⟩ := remove_desc hp hsq hpm hcm
  have hcolor : ∀ i c, i ≠ sq →
      (i ∈ bbFinset ((b.remove sq).color_bbs c) ↔ i ∈ bbFinset (b.color_bbs c)) := by
    intro i c hne
    rw [hdc c]
    split
    · rw [Finset.mem_sdiff, Finset.mem_singleton]
      exact ⟨fun hh => hh.1, fun hh => ⟨hh, hne⟩⟩
    · exact Iff.rfl
  refine ⟨remove_wf hwf hsq h, ?_, hcolor, ?_⟩
  · intro i k c hne
    rw [mem_query_iff, mem_query_iff, hcolor i c hne, hdp k]
    split
    · rw [Finset.mem_sdiff, Finset.mem_singleton]
      exact and_congr_left fun _ => ⟨fun hh => hh.1, fun hh => ⟨hh, hne⟩⟩
    · exact Iff.rfl
  · rw [mem_occupancy_iff]
    rintro ⟨c, hc⟩
    rw [hdc c] at hc
    revert hc
    split
    · rw [Finset.mem_sdiff, Finset.mem_singleton]
      exact fun hh => hh.2 rfl
    · next hcc => exact fun hh => wf_pointwise_color_disjoint hwf hcc hh hcm
  
theorem movePiece_props {b : ChessBoard} (hwf : WellFormedBoard b) {s e : Nat}
    (hs : s < 64) (he : e < 64) (hne : s ≠ e) (p : Piece)
    (hsm : s ∈ bbFinset (b.query p.kind p.color)) (hemp : e ∉ bbFinset b.occupancy) :
    WellFormedBoard (b.movePiece s e p) ∧
    (∀ i k c, i ≠ s → i ≠ e →
      (i ∈ bbFinset ((b.movePiece s e p).query k c) ↔ i ∈ bbFinset (b.query k c))) ∧
    (∀ i, i ≠ s → i ≠ e →
      (i ∈ bbFinset ((b.movePiece s e p).occupancy) ↔ i ∈ bbFinset b.occupancy)) := by
  have hpm : s ∈ bbFinset (b.piece_bbs p.kind) := query_subset_piece b p.kind p.color hsm
  have hcm : s ∈ bbFinset (b.color_bbs p.color) := query_subset_color b p.kind p.color hsm
  have hpe : e ∉ bbFinset (b.piece_bbs p.kind) := not_occ_not_piece hwf hemp p.kind
  have hce : e ∉ bbFinset (b.color_bbs p.color) := not_occ_not_color hemp p.color
  obtain ⟨hdp, hdc⟩ := movePiece_desc hs he hne p hpm hpe hcm hce
  have hcolor : ∀ i c, i ≠ s → i ≠ e →
      (i ∈ bbFinset ((b.movePiece s e p).color_bbs c) ↔ i ∈ bbFinset (b.color_bbs c)) := by
    intro i c hns hnee
    rw [hdc c]
    split
    · rw [Finset.mem_insert, Finset.mem_sdiff, Finset.mem_singleton]
      constructor
      · rintro (rfl | hh)
        · exact absurd rfl hnee
        · exact hh.1
      · exact fun hh => Or.inr ⟨hh, hns⟩
    · exact Iff.rfl
  refine ⟨movePiece_wf hwf hs he hne p hsm hemp, ?_, ?_⟩
  · intro i k c hns hnee
    rw [mem_query_iff, mem_query_iff, hcolor i c hns hnee, hdp k]
    split
    · rw [Finset.mem_insert, Finset.mem_sdiff, Finset.mem_singleton]
      refine and_congr_left fun _ => ⟨?_, fun hh => Or.inr ⟨hh, hns⟩⟩
      rintro (rfl | hh)
      · exact absurd rfl hnee
      · exact hh.1
    · exact Iff.rfl
  · intro i hns hnee
    rw [mem_occupancy_iff, mem_occupancy_iff]
    constructor
    · rintro ⟨c, hc⟩
      exact ⟨c, (hcolor i c hns hnee).mp hc⟩
    · rintro ⟨c, hc⟩
      exact ⟨c, (hcolor i c hns hnee).mpr hc⟩

theorem movePiece_wf_trans {b X : ChessBoard} (hsame : SameBBs b X)
    (hwf : WellFormedBoard b) {s e : Nat} (hs : s < 64) (he : e < 64) (hne : s ≠ e)
    (p : Piece) (hsm : s ∈ bbFinset (b.query p.kind p.color))
    (hemp : e ∉ bbFinset b.occupancy) :
    WellFormedBoard (X.movePiece s e p) := by
  refine movePiece_wf (hsame.wf hwf) hs he hne p ?_ ?_
  · rw [hsame.query]
    exact hsm
  · rw [hsame.occ]
    exact hemp

theorem wf_assemble {Y : ChessBoard} (hY : WellFormedBoard Y) (flag : Bool) :
    WellFormedBoard ((if flag = true then { Y with half_move_clock := 0 }
      else { Y with half_move_clock := (Y.half_move_clock + 1) % 256 }).calculateExtraData) := by
  refine (sameBBs_calculateExtraData _).wf ?_
  split
  · exact wf_clock hY _
  · exact wf_clock hY _

set_option maxHeartbeats 1000000 in
theorem makeMove_wf_quiet {b : ChessBoard} (hwf : WellFormedBoard b)
    {start finish : Nat} {moving : PieceType}
    (hs : start < 64) (he : finish < 64) (hne : start ≠ finish)
    (hsm : start ∈ bbFinset (b.query moving b.turn))
    (hemp : finish ∉ bbFinset b.occupancy) :
    WellFormedBoard (b.makeMove (.quiet start finish moving)) := by
  have hpre : SameBBs b b.clearEp.toggleTurn :=
    (sameBBs_clearEp b).trans (sameBBs_toggleTurn b.clearEp)
  unfold ChessBoard.makeMove
  dsimp only
  refine wf_assemble ?_ _
  split
  · exact movePiece_wf_trans (hpre.trans (sameBBs_unsetColorRights _ b.turn)) hwf hs he hne
      ⟨moving, b.turn⟩ hsm hemp
  split
  · exact movePiece_wf_trans (hpre.trans (sameBBs_unsetMovedRookRights _ b.turn start)) hwf
      hs he hne ⟨moving, b.turn⟩ hsm hemp
  split
  · exact movePiece_wf_trans hpre hwf hs he hne ⟨moving, b.turn⟩ hsm hemp
  · exact movePiece_wf_trans hpre hwf hs he hne ⟨moving, b.turn⟩ hsm hemp

theorem makeMove_wf_dpp {b : ChessBoard} (hwf : WellFormedBoard b)
    {start finish : Nat} (hs : start < 64) (he : finish < 64) (hne : start ≠ finish)
    (hsm : start ∈ bbFinset (b.query .pawn b.turn))
    (hemp : finish ∉ bbFinset b.occupancy) :
    WellFormedBoard (b.makeMove (.doublePawnPush start finish)) := by
  have hpre : SameBBs b b.clearEp.toggleTurn :=
    (sameBBs_clearEp b).trans (sameBBs_toggleTurn b.clearEp)
  unfold ChessBoard.makeMove
  dsimp only
  refine wf_assemble ?_ _
  exact movePiece_wf_trans (hpre.trans (sameBBs_setEp _ _)) hwf hs he hne
    ⟨.pawn, b.turn⟩ hsm hemp

theorem remove_keeps_out {b : ChessBoard} (hwf : WellFormedBoard b) {sq : Nat} (hsq : sq < 64)
    {k0 : PieceType} {c0 : Color} (h : sq ∈ bbFinset (b.query k0 c0)) {i : Nat} (hne : i ≠ sq)
    (hout : i ∉ bbFinset b.occupancy) : i ∉ bbFinset (b.remove sq).occupancy := by
  obtain ⟨-, -, hc, -⟩ := remove_props hwf hsq h
  intro hmem
  rw [mem_occupancy_iff] at hmem
  obtain ⟨c, hcm⟩ := hmem
  exact hout (mem_occupancy_iff.mpr ⟨c, (hc i c hne).mp hcm⟩)

theorem makeMove_wf_promote {b : ChessBoard} (hwf : WellFormedBoard b)
    {start finish : Nat} {target : PieceType}
    (hs : start < 64) (he : finish < 64) (hne : start ≠ finish)
    (hsm : start ∈ bbFinset (b.query .pawn b.turn))
    (hemp : finish ∉ bbFinset b.occupancy) :
    WellFormedBoard (b.makeMove (.promote start finish target)) := by
  have hpre : SameBBs b b.clearEp.toggleTurn :=
    (sameBBs_clearEp b).trans (sameBBs_toggleTurn b.clearEp)
  unfold ChessBoard.makeMove
  dsimp only
  refine wf_assemble ?_ _
  have hwf1 : WellFormedBoard b.clearEp.toggleTurn := hpre.wf hwf
  have hsm1 : start ∈ bbFinset (b.clearEp.toggleTurn.query .pawn b.turn) := by
    rw [hpre.query]
    exact hsm
  have hemp1 : finish ∉ bbFinset b.clearEp.toggleTurn.occupancy := by
    rw [hpre.occ]
    exact hemp
  have hemp2 : finish ∉ bbFinset (b.clearEp.toggleTurn.remove start).occupancy :=
    remove_keeps_out hwf1 hs hsm1 (fun hh => hne hh.symm) hemp1
  exact insert_wf (remove_props hwf1 hs hsm1).1 he ⟨target, b.turn⟩ hemp2

theorem capture_core {b X0 : ChessBoard} (hsame0 : SameBBs b X0) (hwf : WellFormedBoard b)
    {start finish : Nat} {moving : PieceType} (hs : start < 64) (he : finish < 64)
    (hne : start ≠ finish) (hsm : start ∈ bbFinset (b.query moving b.turn))
    (hcapt : finish ∈ bbFinset (b.color_bbs b.turn.negate)) :
    WellFormedBoard (((X0.unsetCapturedRookRights b.turn b.turn.negate finish).remove
      finish).movePiece start finish ⟨moving, b.turn⟩) := by
  have hsame1 : SameBBs b (X0.unsetCapturedRookRights b.turn b.turn.negate finish) :=
    hsame0.trans (sameBBs_unsetCapturedRookRights X0 b.turn b.turn.negate finish)
  obtain ⟨k0, hk0⟩ := mem_color_exists_kind hwf b.turn.negate hcapt
  have hwf1 : WellFormedBoard _ := hsame1.wf hwf
  have hk1 : finish ∈ bbFinset
      ((X0.unsetCapturedRookRights b.turn b.turn.negate finish).query k0 b.turn.negate) := by
    rw [hsame1.query]
    exact hk0
  obtain ⟨hw2, hq2, hc2, ho2⟩ := remove_props hwf1 he hk1
  have hsm2 : start ∈ bbFinset
      (((X0.unsetCapturedRookRights b.turn b.turn.negate finish).remove finish).query
        moving b.turn) := by
    rw [hq2 start moving b.turn hne, hsame1.query]
    exact hsm
  exact movePiece_wf hw2 hs he hne ⟨moving, b.turn⟩ hsm2 ho2

theorem makeMove_wf_capture {b : ChessBoard} (hwf : WellFormedBoard b)
    {start finish : Nat} {moving : PieceType}
    (hs : start < 64) (he : finish < 64) (hne : start ≠ finish)
    (hsm : start ∈ bbFinset (b.query moving b.turn))
    (hcapt : finish ∈ bbFinset (b.color_bbs b.turn.negate)) :
    WellFormedBoard (b.makeMove (.capture start finish moving)) := by
  have hpre : SameBBs b b.clearEp.toggleTurn :=
    (sameBBs_clearEp b).trans (sameBBs_toggleTurn b.clearEp)
  unfold ChessBoard.makeMove
  dsimp only
  refine wf_assemble ?_ _
  split
  · exact capture_core (hpre.trans (sameBBs_unsetColorRights _ b.turn)) hwf hs he hne hsm hcapt
  split
  · exact capture_core (hpre.trans (sameBBs_unsetMovedRookRights _ b.turn start)) hwf
      hs he hne hsm hcapt
  · exact capture_core hpre hwf hs he hne hsm hcapt

theorem makeMove_wf_promoteCapture {b : ChessBoard} (hwf : WellFormedBoard b)
    {start finish : Nat} {target : PieceType}
    (hs : start < 64) (he : finish < 64) (hne : start ≠ finish)
    (hsm : start ∈ bbFinset (b.query .pawn b.turn))
    (hcapt : finish ∈ bbFinset (b.color_bbs b.turn.negate)) :
    WellFormedBoard (b.makeMove (.promoteCapture start finish target)) := by
  have hpre : SameBBs b b.clearEp.toggleTurn :=
    (sameBBs_clearEp b).trans (sameBBs_toggleTurn b.clearEp)
  unfold ChessBoard.makeMove
  dsimp only
  refine wf_assemble ?_ _
  have hsame1 : SameBBs b
      (b.clearEp.toggleTurn.unsetCapturedRookRights b.turn b.turn.negate finish) :=
    hpre.trans (sameBBs_unsetCapturedRookRights _ b.turn b.turn.negate finish)
  obtain ⟨k0, hk0⟩ := mem_color_exists_kind hwf b.turn.negate hcapt
  have hwf1 : WellFormedBoard _ := hsame1.wf hwf
  have hk1 : finish ∈ bbFinset
      ((b.clearEp.toggleTurn.unsetCapturedRookRights b.turn b.turn.negate finish).query
        k0 b.turn.negate) := by
    rw [hsame1.query]
    exact hk0
  obtain ⟨hw2, hq2, hc2, ho2⟩ := remove_props hwf1 he hk1
  have hsm2 : start ∈ bbFinset
      (((b.clearEp.toggleTurn.unsetCapturedRookRights b.turn b.turn.negate finish).remove
        finish).query .pawn b.turn) := by
    rw [hq2 start .pawn b.turn hne, hsame1.query]
    exact hsm
  obtain ⟨hw3, hq3, hc3, ho3⟩ := remove_props hw2 hs hsm2
  have hemp3 : finish ∉ bbFinset
      ((((b.clearEp.toggleTurn.unsetCapturedRookRights b.turn b.turn.negate finish).remove
        finish).remove start).occupancy) :=
    remove_keeps_out hw2 hs hsm2 (fun hh => hne hh.symm) ho2
  exact insert_wf hw3 he ⟨target, b.turn⟩ hemp3

theorem castleRookSquares_facts (us : Color) (side : CastleSide) :
    (ChessBoard.castleRookSquares us side).1 < 64 ∧
    (ChessBoard.castleRookSquares us side).2 < 64 ∧
    (ChessBoard.castleRookSquares us side).1 ≠ (ChessBoard.castleRookSquares us side).2 := by
  cases us <;> cases side <;> exact ⟨by decide, by decide, by decide⟩

theorem makeMove_wf_enPassant {b : ChessBoard} (hwf : WellFormedBoard b)
    {start finish : Nat} (hs : start < 64) (he : finish < 64)
    (hcs : ChessBoard.epVictimSquare b.turn finish < 64) (hne : start ≠ finish)
    (hcs_s : ChessBoard.epVictimSquare b.turn finish ≠ start)
    (hcs_f : ChessBoard.epVictimSquare b.turn finish ≠ finish)
    (hsm : start ∈ bbFinset (b.query .pawn b.turn))
    (hcapt : ChessBoard.epVictimSquare b.turn finish ∈ bbFinset (b.color_bbs b.turn.negate))
    (hemp : finish ∉ bbFinset b.occupancy) :
    WellFormedBoard (b.makeMove (.enPassant start finish)) := by
  have hpre : SameBBs b b.clearEp.toggleTurn :=
    (sameBBs_clearEp b).trans (sameBBs_toggleTurn b.clearEp)
  unfold ChessBoard.makeMove
  dsimp only
  refine wf_assemble ?_ _
  obtain ⟨k0, hk0⟩ := mem_color_exists_kind hwf b.turn.negate hcapt
  have hwf1 : WellFormedBoard b.clearEp.toggleTurn := hpre.wf hwf
  have hk1 : ChessBoard.epVictimSquare b.turn finish ∈ bbFinset
      (b.clearEp.toggleTurn.query k0 b.turn.negate) := by
    rw [hpre.query]
    exact hk0
  obtain ⟨hw2, hq2, hc2, ho2⟩ := remove_props hwf1 hcs hk1
  have hsm2 : start ∈ bbFinset
      ((b.clearEp.toggleTurn.remove (ChessBoard.epVictimSquare b.turn finish)).query
        .pawn b.turn) := by
    rw [hq2 start .pawn b.turn (fun hh => hcs_s hh.symm), hpre.query]
    exact hsm
  have hemp1 : finish ∉ bbFinset b.clearEp.toggleTurn.occupancy := by
    rw [hpre.occ]
    exact hemp
  have hemp2 : finish ∉ bbFinset
      ((b.clearEp.toggleTurn.remove (ChessBoard.epVictimSquare b.turn finish)).occupancy) :=
    remove_keeps_out hwf1 hcs hk1 (fun hh => hcs_f hh.symm) hemp1
  exact movePiece_wf hw2 hs he hne ⟨.pawn, b.turn⟩ hsm2 hemp2

theorem makeMove_wf_castle {b : ChessBoard} (hwf : WellFormedBoard b)
    {start finish : Nat} {side : CastleSide}
    (hs : start < 64) (he : finish < 64) (hne : start ≠ finish)
    (hr1 : start ≠ (ChessBoard.castleRookSquares b.turn side).1)
    (hr2 : start ≠ (ChessBoard.castleRookSquares b.turn side).2)
    (hf1 : finish ≠ (ChessBoard.castleRookSquares b.turn side).1)
    (hf2 : finish ≠ (ChessBoard.castleRookSquares b.turn side).2)
    (hkm : start ∈ bbFinset (b.query .king b.turn))
    (hrm : (ChessBoard.castleRookSquares b.turn side).1 ∈ bbFinset (b.query .rook b.turn))
    (hemp : finish ∉ bbFinset b.occupancy)
    (hremp : (ChessBoard.castleRookSquares b.turn side).2 ∉ bbFinset b.occupancy) :
    WellFormedBoard (b.makeMove (.castle start finish side)) := by
  have hpre : SameBBs b b.clearEp.toggleTurn :=
    (sameBBs_clearEp b).trans (sameBBs_toggleTurn b.clearEp)
  obtain ⟨hrs, hre, hrsne⟩ := castleRookSquares_facts b.turn side
  unfold ChessBoard.makeMove
  dsimp only
  refine wf_assemble ?_ _
  refine (sameBBs_unsetColorRights _ b.turn).wf ?_
  have hwf1 : WellFormedBoard b.clearEp.toggleTurn := hpre.wf hwf
  have hrm1 : (ChessBoard.castleRookSquares b.turn side).1 ∈ bbFinset
      (b.clearEp.toggleTurn.query .rook b.turn) := by
    rw [hpre.query]
    exact hrm
  have hremp1 : (ChessBoard.castleRookSquares b.turn side).2 ∉ bbFinset
      b.clearEp.toggleTurn.occupancy := by
    rw [hpre.occ]
    exact hremp
  obtain ⟨hw2, hq2, ho2⟩ := movePiece_props hwf1 hrs hre hrsne ⟨.rook, b.turn⟩ hrm1 hremp1
  have hkm2 : start ∈ bbFinset
      ((b.clearEp.toggleTurn.movePiece (ChessBoard.castleRookSquares b.turn side).1
        (ChessBoard.castleRookSquares b.turn side).2 ⟨.rook, b.turn⟩).query .king b.turn) := by
    rw [hq2 start .king b.turn hr1 hr2, hpre.query]
    exact hkm
  have hemp2 : finish ∉ bbFinset
      ((b.clearEp.toggleTurn.movePiece (ChessBoard.castleRookSquares b.turn side).1
        (ChessBoard.castleRookSquares b.turn side).2 ⟨.rook, b.turn⟩).occupancy) := by
    intro hmem
    refine hemp ?_
    rw [← hpre.occ]
    exact (ho2 finish hf1 hf2).mp hmem
  exact movePiece_wf hw2 hs he hne ⟨.king, b.turn⟩ hkm2 hemp2

/-- C8: `ChessBoard::make_move` preserves the board-representation invariant
(pairwise-disjoint piece bitboards, disjoint color bitboards, piece union
equal to color union) for every applicable move of every one of the seven
move kinds. -/
theorem makeMove_preserves_bitboard_invariant (b : ChessBoard) (mv : Move)
    (hwf : WellFormedBoard b) (happ : MoveApplicable b mv) :
    WellFormedBoard (b.makeMove mv) := by
  cases mv with
  | quiet start finish moving =>
    obtain ⟨hs, he, hne, hsm, hemp⟩ := happ
    exact makeMove_wf_quiet hwf hs he hne hsm hemp
  | capture start finish moving =>
    obtain ⟨hs, he, hne, hsm, hcapt⟩ := happ
    exact makeMove_wf_capture hwf hs he hne hsm hcapt
  | castle start finish side =>
    obtain ⟨hs, he, hne, hr1, hr2, hf1, hf2, hkm, hrm, hemp, hremp⟩ := happ
    exact makeMove_wf_castle hwf hs he hne hr1 hr2 hf1 hf2 hkm hrm hemp hremp
  | doublePawnPush start finish =>
    obtain ⟨hs, he, hne, hsm, hemp⟩ := happ
    exact makeMove_wf_dpp hwf hs he hne hsm hemp
  | enPassant start finish =>
    obtain ⟨hs, he, hcs, hne, hcs_s, hcs_f, hsm, hcapt, hemp⟩ := happ
    exact makeMove_wf_enPassant hwf hs he hcs hne hcs_s hcs_f hsm hcapt hemp
  | promote start finish target =>
    obtain ⟨hs, he, hne, hsm, hemp⟩ := happ
    exact makeMove_wf_promote hwf hs he hne hsm hemp
  | promoteCapture start finish target =>
    obtain ⟨hs, he, hne, hsm, hcapt⟩ := happ
    exact makeMove_wf_promoteCapture hwf hs he hne hsm hcapt

/-- C8 witness: the invariant-preservation theorem applied to the en-passant
capture e5xd6 in the position after 1. e4 c5 2. e5 d5. -/
theorem makeMove_preserves_bitboard_invariant_witness :
    WellFormedBoard (c8Board.makeMove (.enPassant 36 43)) :=
  makeMove_preserves_bitboard_invariant c8Board (.enPassant 36 43)
    ⟨by decide, by decide, by decide, by decide, by decide⟩
    ⟨by decide, by decide, by decide, by decide, by decide, by decide, by decide,
      by decide, by decide⟩


theorem land_two_pow_bne (cr j : Nat) : (cr &&& 2 ^ j != 0) = cr.testBit j := by
  rw [Nat.and_two_pow]
  cases h : cr.testBit j <;> simp

theorem isSet_testBit (cr : Nat) (s : CastleSide) (c : Color) :
    CastlingRights.isSet cr s c = cr.testBit (match s, c with
      | .kingside, .white => 0 | .queenside, .white => 1
      | .kingside, .black => 2 | .queenside, .black => 3) := by
  cases s <;> cases c
  exacts [land_two_pow_bne cr 0, land_two_pow_bne cr 2,
    land_two_pow_bne cr 1, land_two_pow_bne cr 3]

theorem castleHash_unsetRight (cr : Nat) (s : CastleSide) (c : Color)
    (h : CastlingRights.isSet cr s c = true) :
    castleHash (CastlingRights.unsetRight cr s c) =
      castleHash cr ^^^ castleZobrist s c := by
  unfold castleHash
  cases s <;> cases c <;>
    rw [isSet_testBit] at h <;>
    simp only [isSet_testBit, CastlingRights.unsetRight, CastlingRights.bit,
      Nat.testBit_land]
  · simp only [show (255 ^^^ 1 : Nat).testBit 0 = false from by decide,
      show (255 ^^^ 1 : Nat).testBit 1 = true from by decide,
      show (255 ^^^ 1 : Nat).testBit 2 = true from by decide,
      show (255 ^^^ 1 : Nat).testBit 3 = true from by decide,
      Bool.and_false, Bool.and_true]
    have h0 : cr.testBit 0 = true := h
    rw [h0]
    cases hb1 : cr.testBit 1 <;> cases hb2 : cr.testBit 2 <;>
      cases hb3 : cr.testBit 3 <;> decide
  · simp only [show (255 ^^^ 4 : Nat).testBit 0 = true from by decide,
      show (255 ^^^ 4 : Nat).testBit 1 = true from by decide,
      show (255 ^^^ 4 : Nat).testBit 2 = false from by decide,
      show (255 ^^^ 4 : Nat).testBit 3 = true from by decide,
      Bool.and_false, Bool.and_true]
    have h0 : cr.testBit 2 = true := h
    rw [h0]
    cases hb1 : cr.testBit 0 <;> cases hb2 : cr.testBit 1 <;>
      cases hb3 : cr.testBit 3 <;> decide
  · simp only [show (255 ^^^ 2 : Nat).testBit 0 = true from by decide,
      show (255 ^^^ 2 : Nat).testBit 1 = false from by decide,
      show (255 ^^^ 2 : Nat).testBit 2 = true from by decide,
      show (255 ^^^ 2 : Nat).testBit 3 = true from by decide,
      Bool.and_false, Bool.and_true]
    have h0 : cr.testBit 1 = true := h
    rw [h0]
    cases hb1 : cr.testBit 0 <;> cases hb2 : cr.testBit 2 <;>
      cases hb3 : cr.testBit 3 <;> decide
  · simp only [show (255 ^^^ 8 : Nat).testBit 0 = true from by decide,
      show (255 ^^^ 8 : Nat).testBit 1 = true from by decide,
      show (255 ^^^ 8 : Nat).testBit 2 = true from by decide,
      show (255 ^^^ 8 : Nat).testBit 3 = false from by decide,
      Bool.and_false, Bool.and_true]
    have h0 : cr.testBit 3 = true := h
    rw [h0]
    cases hb1 : cr.testBit 0 <;> cases hb2 : cr.testBit 1 <;>
      cases hb3 : cr.testBit 2 <;> decide

theorem foldl_xor_init (l : List Nat) (f : Nat → Nat) (x y : Nat) :
    l.foldl (fun h i => h ^^^ f i) (x ^^^ y) = x ^^^ l.foldl (fun h i => h ^^^ f i) y := by
  induction l generalizing y with
  | nil => rfl
  | cons a t ih =>
    show t.foldl _ ((x ^^^ y) ^^^ f a) = x ^^^ t.foldl _ (y ^^^ f a)
    rw [Nat.xor_assoc, ih (y ^^^ f a)]

theorem foldl_xor_shift (l : List Nat) (f : Nat → Nat) (x : Nat) :
    l.foldl (fun h i => h ^^^ f i) x = x ^^^ l.foldl (fun h i => h ^^^ f i) 0 := by
  have := foldl_xor_init l f x 0
  rw [Nat.xor_zero] at this
  exact this

theorem foldl_xor_congr (l : List Nat) (f g : Nat → Nat)
    (h : ∀ i ∈ l, f i = g i) :
    l.foldl (fun h i => h ^^^ f i) 0 = l.foldl (fun h i => h ^^^ g i) 0 := by
  induction l with
  | nil => rfl
  | cons a t ih =>
    show t.foldl _ (0 ^^^ f a) = t.foldl _ (0 ^^^ g a)
    rw [foldl_xor_shift t f, foldl_xor_shift t g,
      h a (List.mem_cons_self a t),
      ih (fun i hi => h i (List.mem_cons_of_mem a hi))]

theorem foldl_xor_diff (l : List Nat) (f g : Nat → Nat) (sq : Nat)
    (hagree : ∀ i ∈ l, i ≠ sq → f i = g i) (hnd : l.Nodup) (hmem : sq ∈ l) :
    l.foldl (fun h i => h ^^^ f i) 0 =
      l.foldl (fun h i => h ^^^ g i) 0 ^^^ (f sq ^^^ g sq) := by
  induction l with
  | nil => exact absurd hmem (List.not_mem_nil sq)
  | cons a t ih =>
    show t.foldl _ (0 ^^^ f a) = t.foldl _ (0 ^^^ g a) ^^^ (f sq ^^^ g sq)
    rw [foldl_xor_shift t f, foldl_xor_shift t g]
    by_cases ha : a = sq
    · subst ha
      have hnotin : a ∉ t := (List.nodup_cons.mp hnd).1
      have ht : t.foldl (fun h i => h ^^^ f i) 0 = t.foldl (fun h i => h ^^^ g i) 0 :=
        foldl_xor_congr t f g (fun i hi => hagree i (List.mem_cons_of_mem a hi)
          (fun hh => hnotin (hh ▸ hi)))
      rw [ht]
      apply Nat.eq_of_testBit_eq
      intro i
      simp [Nat.testBit_xor, Bool.xor_assoc, Bool.xor_comm, Bool.xor_left_comm]
    · have hsq_t : sq ∈ t := by
        rcases List.mem_cons.mp hmem with hh | hh
        · exact absurd hh.symm ha
        · exact hh
      rw [hagree a (List.mem_cons_self a t) ha,
        ih (fun i hi hne => hagree i (List.mem_cons_of_mem a hi) hne)
          (List.nodup_cons.mp hnd).2 hsq_t]
      apply Nat.eq_of_testBit_eq
      intro i
      simp [Nat.testBit_xor, Bool.xor_assoc, Bool.xor_comm, Bool.xor_left_comm]

theorem pieceAt_none {b : ChessBoard} (hwf : WellFormedBoard b) {i : Nat} (hi : i < 64)
    (h : i ∉ bbFinset b.occupancy) : b.pieceAt i = none := by
  have hw : i ∉ bbFinset (b.color_bbs .white) := not_occ_not_color h .white
  have hb : i ∉ bbFinset (b.color_bbs .black) := not_occ_not_color h .black
  unfold ChessBoard.pieceAt
  dsimp only
  rw [overlap_single_false (hwf.color_bounded .white) hi hw,
    overlap_single_false (hwf.color_bounded .black) hi hb]
  rfl

theorem pieceAt_some_exists {b : ChessBoard} (hwf : WellFormedBoard b) {i : Nat} (hi : i < 64)
    (h : i ∈ bbFinset b.occupancy) :
    ∃ k c, i ∈ bbFinset (b.query k c) ∧ b.pieceAt i = some ⟨k, c⟩ := by
  obtain ⟨c, hc⟩ := mem_occupancy_iff.mp h
  obtain ⟨k, hk⟩ := mem_color_exists_kind hwf c hc
  exact ⟨k, c, hk, pieceAt_of_query hwf hi hk⟩

theorem pieceAt_congr {a b : ChessBoard} (h : SameBBs a b) (sq : Nat) :
    b.pieceAt sq = a.pieceAt sq := by
  unfold ChessBoard.pieceAt ChessBoard.pieceAt.pieceAtAux
  rw [h.1, h.2]

theorem pieceAt_insert {b : ChessBoard} (hwf : WellFormedBoard b) {sq : Nat} (hsq : sq < 64)
    (p : Piece) (hemp : sq ∉ bbFinset b.occupancy) {i : Nat} (hi : i < 64) :
    (b.insert sq p).pieceAt i = if i = sq then some p else b.pieceAt i := by
  obtain ⟨hdp, hdc⟩ := insert_desc b hsq p
  have hwf2 := insert_wf hwf hsq p hemp
  by_cases hieq : i = sq
  · subst hieq
    rw [if_pos rfl]
    have hq : i ∈ bbFinset ((b.insert i p).query p.kind p.color) := by
      rw [mem_query_iff]
      constructor
      · rw [hdp p.kind, if_pos rfl]
        exact Finset.mem_insert_self _ _
      · rw [hdc p.color, if_pos rfl]
        exact Finset.mem_insert_self _ _
    exact pieceAt_of_query hwf2 hi hq
  · rw [if_neg hieq]
    by_cases hocc : i ∈ bbFinset b.occupancy
    · obtain ⟨k, c, hk, hp⟩ := pieceAt_some_exists hwf hi hocc
      rw [mem_query_iff] at hk
      have hq2 : i ∈ bbFinset ((b.insert sq p).query k c) := by
        rw [mem_query_iff]
        constructor
        · rw [hdp k]
          split
          · exact Finset.mem_insert_of_mem hk.1
          · exact hk.1
        · rw [hdc c]
          split
          · exact Finset.mem_insert_of_mem hk.2
          · exact hk.2
      rw [pieceAt_of_query hwf2 hi hq2, hp]
    · have h2 : i ∉ bbFinset (b.insert sq p).occupancy := by
        intro hmem
        rw [mem_occupancy_iff] at hmem
        obtain ⟨c, hc⟩ := hmem
        rw [hdc c] at hc
        revert hc
        split
        · rw [Finset.mem_insert]
          rintro (rfl | hc)
          · exact hieq rfl
          · exact hocc (mem_occupancy_iff.mpr ⟨_, hc⟩)
        · intro hc
          exact hocc (mem_occupancy_iff.mpr ⟨_, hc⟩)
      rw [pieceAt_none hwf2 hi h2, pieceAt_none hwf hi hocc]

theorem pieceAt_remove {b : ChessBoard} (hwf : WellFormedBoard b) {sq : Nat} (hsq : sq < 64)
    {k0 : PieceType} {c0 : Color} (h : sq ∈ bbFinset (b.query k0 c0)) {i : Nat} (hi : i < 64) :
    (b.remove sq).pieceAt i = if i = sq then none else b.pieceAt i := by
  obtain ⟨hw2, hq2, hc2, ho2⟩ := remove_props hwf hsq h
  by_cases hieq : i = sq
  · subst hieq
    rw [if_pos rfl]
    exact pieceAt_none hw2 hi ho2
  · rw [if_neg hieq]
    by_cases hocc : i ∈ bbFinset b.occupancy
    · obtain ⟨k, c, hk, hp⟩ := pieceAt_some_exists hwf hi hocc
      rw [pieceAt_of_query hw2 hi ((hq2 i k c hieq).mpr hk), hp]
    · have h2 : i ∉ bbFinset (b.remove sq).occupancy := by
        intro hmem
        rw [mem_occupancy_iff] at hmem
        obtain ⟨c, hc⟩ := hmem
        exact hocc (mem_occupancy_iff.mpr ⟨c, (hc2 i c hieq).mp hc⟩)
      rw [pieceAt_none hw2 hi h2, pieceAt_none hwf hi hocc]

theorem pieceAt_movePiece {b : ChessBoard} (hwf : WellFormedBoard b) {s e : Nat}
    (hs : s < 64) (he : e < 64) (hne : s ≠ e) (p : Piece)
    (hsm : s ∈ bbFinset (b.query p.kind p.color)) (hemp : e ∉ bbFinset b.occupancy)
    {i : Nat} (hi : i < 64) :
    (b.movePiece s e p).pieceAt i =
      if i = e then some p else if i = s then none else b.pieceAt i := by
  obtain ⟨hw2, hq2, ho2⟩ := movePiece_props hwf hs he hne p hsm hemp
  obtain ⟨hdp, hdc⟩ := movePiece_desc hs he hne p
    (query_subset_piece b p.kind p.color hsm) (not_occ_not_piece hwf hemp p.kind)
    (query_subset_color b p.kind p.color hsm) (not_occ_not_color hemp p.color)
  by_cases hie : i = e
  · subst hie
    rw [if_pos rfl]
    have hq : i ∈ bbFinset ((b.movePiece s i p).query p.kind p.color) := by
      rw [mem_query_iff]
      constructor
      · rw [hdp p.kind, if_pos rfl]
        exact Finset.mem_insert_self _ _
      · rw [hdc p.color, if_pos rfl]
        exact Finset.mem_insert_self _ _
    exact pieceAt_of_query hw2 hi hq
  · rw [if_neg hie]
    by_cases his : i = s
    · subst his
      rw [if_pos rfl]
      have hcms : i ∈ bbFinset (b.color_bbs p.color) := query_subset_color b p.kind p.color hsm
      have h2 : i ∉ bbFinset (b.movePiece i e p).occupancy := by
        intro hmem
        rw [mem_occupancy_iff] at hmem
        obtain ⟨c, hc⟩ := hmem
        rw [hdc c] at hc
        revert hc
        split
        · rw [Finset.mem_insert, Finset.mem_sdiff, Finset.mem_singleton]
          rintro (rfl | ⟨h1, h2⟩)
          · exact hie rfl
          · exact h2 rfl
        · next hcc =>
          intro hc
          exact wf_pointwise_color_disjoint hwf hcc hc hcms
      exact pieceAt_none hw2 hi h2
    · rw [if_neg his]
      by_cases hocc : i ∈ bbFinset b.occupancy
      · obtain ⟨k, c, hk, hp⟩ := pieceAt_some_exists hwf hi hocc
        rw [pieceAt_of_query hw2 hi ((hq2 i k c his hie).mpr hk), hp]
      · have h2 : i ∉ bbFinset (b.movePiece s e p).occupancy := by
          intro hmem
          exact hocc ((ho2 i his hie).mp hmem)
        rw [pieceAt_none hw2 hi h2, pieceAt_none hwf hi hocc]

theorem pieceHash_congr {a b : ChessBoard} (h : SameBBs a b) : pieceHash b = pieceHash a := by
  unfold pieceHash
  apply foldl_xor_congr
  intro i _
  unfold pieceKeyAt
  rw [pieceAt_congr h i]

theorem pieceHash_insert {b : ChessBoard} (hwf : WellFormedBoard b) {sq : Nat} (hsq : sq < 64)
    (p : Piece) (hemp : sq ∉ bbFinset b.occupancy) :
    pieceHash (b.insert sq p) = pieceHash b ^^^ pieceZobrist p.color p.kind sq := by
  unfold pieceHash
  have hagree : ∀ i ∈ List.range 64, i ≠ sq →
      pieceKeyAt (b.insert sq p) i = pieceKeyAt b i := by
    intro i hil hne
    unfold pieceKeyAt
    rw [pieceAt_insert hwf hsq p hemp (List.mem_range.mp hil), if_neg hne]
  rw [foldl_xor_diff (List.range 64) _ _ sq hagree (List.nodup_range 64) (List.mem_range.mpr hsq)]
  have hf : pieceKeyAt (b.insert sq p) sq = pieceZobrist p.color p.kind sq := by
    unfold pieceKeyAt
    rw [pieceAt_insert hwf hsq p hemp hsq, if_pos rfl]
  have hg : pieceKeyAt b sq = 0 := by
    unfold pieceKeyAt
    rw [pieceAt_none hwf hsq hemp]
  rw [hf, hg, Nat.xor_zero]

theorem pieceHash_remove {b : ChessBoard} (hwf : WellFormedBoard b) {sq : Nat} (hsq : sq < 64)
    {k0 : PieceType} {c0 : Color} (h : sq ∈ bbFinset (b.query k0 c0)) :
    pieceHash (b.remove sq) = pieceHash b ^^^ pieceZobrist c0 k0 sq := by
  unfold pieceHash
  have hagree : ∀ i ∈ List.range 64, i ≠ sq →
      pieceKeyAt (b.remove sq) i = pieceKeyAt b i := by
    intro i hil hne
    unfold pieceKeyAt
    rw [pieceAt_remove hwf hsq h (List.mem_range.mp hil), if_neg hne]
  rw [foldl_xor_diff (List.range 64) _ _ sq hagree (List.nodup_range 64) (List.mem_range.mpr hsq)]
  have hf : pieceKeyAt (b.remove sq) sq = 0 := by
    unfold pieceKeyAt
    rw [pieceAt_remove hwf hsq h hsq, if_pos rfl]
  have hg : pieceKeyAt b sq = pieceZobrist c0 k0 sq := by
    unfold pieceKeyAt
    rw [pieceAt_of_query hwf hsq h]
  rw [hf, hg, Nat.zero_xor]

theorem pieceHash_movePiece {b : ChessBoard} (hwf : WellFormedBoard b) {s e : Nat}
    (hs : s < 64) (he : e < 64) (hne : s ≠ e) (p : Piece)
    (hsm : s ∈ bbFinset (b.query p.kind p.color)) (hemp : e ∉ bbFinset b.occupancy) :
    pieceHash (b.movePiece s e p) =
      (pieceHash b ^^^ pieceZobrist p.color p.kind s) ^^^ pieceZobrist p.color p.kind e := by
  unfold pieceHash
  have hmid1 : ∀ i ∈ List.range 64, i ≠ e →
      pieceKeyAt (b.movePiece s e p) i =
        (fun j => if j = s then 0 else pieceKeyAt b j) i := by
    intro i hil hnee
    show pieceKeyAt (b.movePiece s e p) i = (if i = s then 0 else pieceKeyAt b i)
    unfold pieceKeyAt
    rw [pieceAt_movePiece hwf hs he hne p hsm hemp (List.mem_range.mp hil), if_neg hnee]
    by_cases his : i = s
    · rw [if_pos his, if_pos his]
    · rw [if_neg his, if_neg his]
  have hmid2 : ∀ i ∈ List.range 64, i ≠ s →
      (fun j => if j = s then 0 else pieceKeyAt b j) i = pieceKeyAt b i := by
    intro i _ hns
    show (if i = s then 0 else pieceKeyAt b i) = pieceKeyAt b i
    exact if_neg hns
  rw [foldl_xor_diff (List.range 64) _ _ e hmid1 (List.nodup_range 64) (List.mem_range.mpr he),
    foldl_xor_diff (List.range 64) _ _ s hmid2 (List.nodup_range 64) (List.mem_range.mpr hs)]
  have h1 : pieceKeyAt (b.movePiece s e p) e = pieceZobrist p.color p.kind e := by
    unfold pieceKeyAt
    rw [pieceAt_movePiece hwf hs he hne p hsm hemp he, if_pos rfl]
  have h4 : pieceKeyAt b s = pieceZobrist p.color p.kind s := by
    unfold pieceKeyAt
    rw [pieceAt_of_query hwf hs hsm]
  have h5 : pieceKeyAt b e = 0 := by
    unfold pieceKeyAt
    rw [pieceAt_none hwf he hemp]
  rw [h1, if_pos rfl, if_neg (fun hh : e = s => hne hh.symm), h4, h5, Nat.xor_zero,
    Nat.zero_xor]

theorem turnHash_negate (t : Color) : turnHash t.negate = turnHash t ^^^ turnZobrist := by
  cases t
  · rfl
  · show 0 = turnZobrist ^^^ turnZobrist
    rw [Nat.xor_self]

theorem hc_insert {b : ChessBoard} (hwf : WellFormedBoard b) {sq : Nat} (hsq : sq < 64)
    (p : Piece) (hemp : sq ∉ bbFinset b.occupancy) (hc : b.hash = scratchHash b) :
    (b.insert sq p).hash = scratchHash (b.insert sq p) := by
  have hh : (b.insert sq p).hash = b.hash ^^^ pieceZobrist p.color p.kind sq := rfl
  have hcr : (b.insert sq p).castling_rights = b.castling_rights := rfl
  have hep : (b.insert sq p).en_passant = b.en_passant := rfl
  have ht : (b.insert sq p).turn = b.turn := rfl
  unfold scratchHash
  rw [hh, hcr, hep, ht, pieceHash_insert hwf hsq p hemp, hc]
  unfold scratchHash
  apply Nat.eq_of_testBit_eq
  intro i
  simp [Nat.testBit_xor, Bool.xor_assoc, Bool.xor_comm, Bool.xor_left_comm]

theorem hc_remove {b : ChessBoard} (hwf : WellFormedBoard b) {sq : Nat} (hsq : sq < 64)
    {k0 : PieceType} {c0 : Color} (h : sq ∈ bbFinset (b.query k0 c0))
    (hc : b.hash = scratchHash b) :
    (b.remove sq).hash = scratchHash (b.remove sq) := by
  have hp : b.pieceAt sq = some (⟨k0, c0⟩ : Piece) := pieceAt_of_query hwf hsq h
  have hh : (b.remove sq).hash = b.hash ^^^ pieceZobrist c0 k0 sq := by
    unfold ChessBoard.remove
    rw [hp]
    rfl
  have hcr : (b.remove sq).castling_rights = b.castling_rights := by
    unfold ChessBoard.remove
    rw [hp]
  have hep : (b.remove sq).en_passant = b.en_passant := by
    unfold ChessBoard.remove
    rw [hp]
  have ht : (b.remove sq).turn = b.turn := by
    unfold ChessBoard.remove
    rw [hp]
  unfold scratchHash
  rw [hh, hcr, hep, ht, pieceHash_remove hwf hsq h, hc]
  unfold scratchHash
  apply Nat.eq_of_testBit_eq
  intro i
  simp [Nat.testBit_xor, Bool.xor_assoc, Bool.xor_comm, Bool.xor_left_comm]

theorem hc_movePiece {b : ChessBoard} (hwf : WellFormedBoard b) {s e : Nat}
    (hs : s < 64) (he : e < 64) (hne : s ≠ e) (p : Piece)
    (hsm : s ∈ bbFinset (b.query p.kind p.color)) (hemp : e ∉ bbFinset b.occupancy)
    (hc : b.hash = scratchHash b) :
    (b.movePiece s e p).hash = scratchHash (b.movePiece s e p) := by
  have hh : (b.movePiece s e p).hash =
      (b.hash ^^^ pieceZobrist p.color p.kind s) ^^^ pieceZobrist p.color p.kind e := rfl
  have hcr : (b.movePiece s e p).castling_rights = b.castling_rights := rfl
  have hep : (b.movePiece s e p).en_passant = b.en_passant := rfl
  have ht : (b.movePiece s e p).turn = b.turn := rfl
  unfold scratchHash
  rw [hh, hcr, hep, ht, pieceHash_movePiece hwf hs he hne p hsm hemp, hc]
  unfold scratchHash
  apply Nat.eq_of_testBit_eq
  intro i
  simp [Nat.testBit_xor, Bool.xor_assoc, Bool.xor_comm, Bool.xor_left_comm]

theorem hc_toggleTurn {b : ChessBoard} (hc : b.hash = scratchHash b) :
    b.toggleTurn.hash = scratchHash b.toggleTurn := by
  have hh : b.toggleTurn.hash = b.hash ^^^ turnZobrist := rfl
  have hcr : b.toggleTurn.castling_rights = b.castling_rights := rfl
  have hep : b.toggleTurn.en_passant = b.en_passant := rfl
  have ht : b.toggleTurn.turn = b.turn.negate := rfl
  unfold scratchHash
  rw [hh, hcr, hep, ht, pieceHash_congr (sameBBs_toggleTurn b), turnHash_negate, hc]
  unfold scratchHash
  apply Nat.eq_of_testBit_eq
  intro i
  simp [Nat.testBit_xor, Bool.xor_assoc, Bool.xor_comm, Bool.xor_left_comm]

theorem hc_clearEp {b : ChessBoard} (hc : b.hash = scratchHash b) :
    b.clearEp.hash = scratchHash b.clearEp := by
  cases hep : b.en_passant with
  | none =>
    unfold ChessBoard.clearEp
    rw [hep]
    exact hc
  | some sq =>
    have hh : b.clearEp.hash = b.hash ^^^ epZobrist (Square.file sq) := by
      unfold ChessBoard.clearEp
      rw [hep]
      rfl
    have hcr : b.clearEp.castling_rights = b.castling_rights := by
      unfold ChessBoard.clearEp
      rw [hep]
    have hepn : b.clearEp.en_passant = none := by
      unfold ChessBoard.clearEp
      rw [hep]
    have ht : b.clearEp.turn = b.turn := by
      unfold ChessBoard.clearEp
      rw [hep]
    unfold scratchHash
    rw [hh, hcr, hepn, ht, pieceHash_congr (sameBBs_clearEp b), hc]
    unfold scratchHash
    rw [hep]
    apply Nat.eq_of_testBit_eq
    intro i
    simp [Nat.testBit_xor, epHash, Bool.xor_assoc, Bool.xor_comm, Bool.xor_left_comm]

theorem hc_setEp {b : ChessBoard} (sq : Nat) (hepn : b.en_passant = none)
    (hc : b.hash = scratchHash b) :
    (b.setEp sq).hash = scratchHash (b.setEp sq) := by
  have hh : (b.setEp sq).hash = b.hash ^^^ epZobrist (Square.file sq) := rfl
  have hcr : (b.setEp sq).castling_rights = b.castling_rights := rfl
  have heps : (b.setEp sq).en_passant = some sq := rfl
  have ht : (b.setEp sq).turn = b.turn := rfl
  unfold scratchHash
  rw [hh, hcr, heps, ht, pieceHash_congr (sameBBs_setEp b sq), hc]
  unfold scratchHash
  rw [hepn]
  apply Nat.eq_of_testBit_eq
  intro i
  simp [Nat.testBit_xor, epHash, Bool.xor_assoc, Bool.xor_comm, Bool.xor_left_comm]

theorem hc_unsetCastleRight {b : ChessBoard} (side : CastleSide) (c : Color)
    (hc : b.hash = scratchHash b) :
    (b.unsetCastleRight side c).hash = scratchHash (b.unsetCastleRight side c) := by
  by_cases hset : CastlingRights.isSet b.castling_rights side c
  · have hh : (b.unsetCastleRight side c).hash = b.hash ^^^ castleZobrist side c := by
      unfold ChessBoard.unsetCastleRight
      rw [if_pos hset]
      rfl
    have hcr : (b.unsetCastleRight side c).castling_rights =
        CastlingRights.unsetRight b.castling_rights side c := by
      unfold ChessBoard.unsetCastleRight
      rw [if_pos hset]
    have hep : (b.unsetCastleRight side c).en_passant = b.en_passant := by
      unfold ChessBoard.unsetCastleRight
      rw [if_pos hset]
    have ht : (b.unsetCastleRight side c).turn = b.turn := by
      unfold ChessBoard.unsetCastleRight
      rw [if_pos hset]
    unfold scratchHash
    rw [hh, hcr, hep, ht, pieceHash_congr (sameBBs_unsetCastleRight b side c),
      castleHash_unsetRight b.castling_rights side c hset, hc]
    unfold scratchHash
    apply Nat.eq_of_testBit_eq
    intro i
    simp [Nat.testBit_xor, Bool.xor_assoc, Bool.xor_comm, Bool.xor_left_comm]
  · unfold ChessBoard.unsetCastleRight
    rw [if_neg hset]
    exact hc

theorem hc_unsetColorRights {b : ChessBoard} (c : Color) (hc : b.hash = scratchHash b) :
    (b.unsetColorRights c).hash = scratchHash (b.unsetColorRights c) :=
  hc_unsetCastleRight .queenside c (hc_unsetCastleRight .kingside c hc)

theorem hc_unsetMovedRookRights {b : ChessBoard} (us : Color) (start : Nat)
    (hc : b.hash = scratchHash b) :
    (b.unsetMovedRookRights us start).hash = scratchHash (b.unsetMovedRookRights us start) := by
  unfold ChessBoard.unsetMovedRookRights
  split
  · exact hc_unsetCastleRight _ _ hc
  · exact hc_unsetCastleRight _ _ hc
  · exact hc_unsetCastleRight _ _ hc
  · exact hc_unsetCastleRight _ _ hc
  · exact hc

theorem hc_unsetCapturedRookRights {b : ChessBoard} (us them : Color) (finish : Nat)
    (hc : b.hash = scratchHash b) :
    (b.unsetCapturedRookRights us them finish).hash =
      scratchHash (b.unsetCapturedRookRights us them finish) := by
  unfold ChessBoard.unsetCapturedRookRights
  split
  · exact hc_unsetCastleRight _ _ hc
  · exact hc_unsetCastleRight _ _ hc
  · exact hc_unsetCastleRight _ _ hc
  · exact hc_unsetCastleRight _ _ hc
  · exact hc

theorem hc_assemble {Y : ChessBoard} (hY : Y.hash = scratchHash Y) (flag : Bool) :
    ((if flag = true then { Y with half_move_clock := 0 }
      else { Y with half_move_clock := (Y.half_move_clock + 1) % 256 }).calculateExtraData).hash =
    scratchHash ((if flag = true then { Y with half_move_clock := 0 }
      else { Y with half_move_clock := (Y.half_move_clock + 1) % 256 }).calculateExtraData) := by
  split
  · exact hY
  · exact hY

theorem hc_movePiece_trans {b X : ChessBoard} (hsame : SameBBs b X)
    (hwf : WellFormedBoard b) {s e : Nat} (hs : s < 64) (he : e < 64) (hne : s ≠ e)
    (p : Piece) (hsm : s ∈ bbFinset (b.query p.kind p.color))
    (hemp : e ∉ bbFinset b.occupancy) (hcX : X.hash = scratchHash X) :
    (X.movePiece s e p).hash = scratchHash (X.movePiece s e p) := by
  refine hc_movePiece (hsame.wf hwf) hs he hne p ?_ ?_ hcX
  · rw [hsame.query]
    exact hsm
  · rw [hsame.occ]
    exact hemp

theorem ep_cleared (b : ChessBoard) : b.clearEp.toggleTurn.en_passant = none := by
  show b.clearEp.en_passant = none
  unfold ChessBoard.clearEp
  split
  · rfl
  · next heq => exact heq

theorem makeMove_hc_quiet {b : ChessBoard} (hwf : WellFormedBoard b)
    {start finish : Nat} {moving : PieceType}
    (hs : start < 64) (he : finish < 64) (hne : start ≠ finish)
    (hsm : start ∈ bbFinset (b.query moving b.turn))
    (hemp : finish ∉ bbFinset b.occupancy) (hc : b.hash = scratchHash b) :
    (b.makeMove (.quiet start finish moving)).hash =
      scratchHash (b.makeMove (.quiet start finish moving)) := by
  have hpre : SameBBs b b.clearEp.toggleTurn :=
    (sameBBs_clearEp b).trans (sameBBs_toggleTurn b.clearEp)
  have hc1 : b.clearEp.toggleTurn.hash = scratchHash b.clearEp.toggleTurn :=
    hc_toggleTurn (hc_clearEp hc)
  unfold ChessBoard.makeMove
  dsimp only
  refine hc_assemble ?_ _
  split
  · exact hc_movePiece_trans (hpre.trans (sameBBs_unsetColorRights _ b.turn)) hwf hs he hne
      ⟨moving, b.turn⟩ hsm hemp (hc_unsetColorRights b.turn hc1)
  split
  · exact hc_movePiece_trans (hpre.trans (sameBBs_unsetMovedRookRights _ b.turn start)) hwf
      hs he hne ⟨moving, b.turn⟩ hsm hemp (hc_unsetMovedRookRights b.turn start hc1)
  split
  · exact hc_movePiece_trans hpre hwf hs he hne ⟨moving, b.turn⟩ hsm hemp hc1
  · exact hc_movePiece_trans hpre hwf hs he hne ⟨moving, b.turn⟩ hsm hemp hc1

theorem makeMove_hc_dpp {b : ChessBoard} (hwf : WellFormedBoard b)
    {start finish : Nat} (hs : start < 64) (he : finish < 64) (hne : start ≠ finish)
    (hsm : start ∈ bbFinset (b.query .pawn b.turn))
    (hemp : finish ∉ bbFinset b.occupancy) (hc : b.hash = scratchHash b) :
    (b.makeMove (.doublePawnPush start finish)).hash =
      scratchHash (b.makeMove (.doublePawnPush start finish)) := by
  have hpre : SameBBs b b.clearEp.toggleTurn :=
    (sameBBs_clearEp b).trans (sameBBs_toggleTurn b.clearEp)
  have hc1 : b.clearEp.toggleTurn.hash = scratchHash b.clearEp.toggleTurn :=
    hc_toggleTurn (hc_clearEp hc)
  unfold ChessBoard.makeMove
  dsimp only
  refine hc_assemble ?_ _
  exact hc_movePiece_trans (hpre.trans (sameBBs_setEp _ _)) hwf hs he hne
    ⟨.pawn, b.turn⟩ hsm hemp (hc_setEp _ (ep_cleared b) hc1)

theorem capture_core_hc {b X0 : ChessBoard} (hsame0 : SameBBs b X0) (hwf : WellFormedBoard b)
    {start finish : Nat} {moving : PieceType} (hs : start < 64) (he : finish < 64)
    (hne : start ≠ finish) (hsm : start ∈ bbFinset (b.query moving b.turn))
    (hcapt : finish ∈ bbFinset (b.color_bbs b.turn.negate))
    (hcX0 : X0.hash = scratchHash X0) :
    (((X0.unsetCapturedRookRights b.turn b.turn.negate finish).remove
      finish).movePiece start finish ⟨moving, b.turn⟩).hash =
    scratchHash (((X0.unsetCapturedRookRights b.turn b.turn.negate finish).remove
      finish).movePiece start finish ⟨moving, b.turn⟩) := by
  have hsame1 : SameBBs b (X0.unsetCapturedRookRights b.turn b.turn.negate finish) :=
    hsame0.trans (sameBBs_unsetCapturedRookRights X0 b.turn b.turn.negate finish)
  obtain ⟨k0, hk0⟩ := mem_color_exists_kind hwf b.turn.negate hcapt
  have hwf1 : WellFormedBoard _ := hsame1.wf hwf
  have hk1 : finish ∈ bbFinset
      ((X0.unsetCapturedRookRights b.turn b.turn.negate finish).query k0 b.turn.negate) := by
    rw [hsame1.query]
    exact hk0
  have hc1 : (X0.unsetCapturedRookRights b.turn b.turn.negate finish).hash =
      scratchHash (X0.unsetCapturedRookRights b.turn b.turn.negate finish) :=
    hc_unsetCapturedRookRights b.turn b.turn.negate finish hcX0
  have hc2 := hc_remove hwf1 he hk1 hc1
  obtain ⟨hw2, hq2, hc2q, ho2⟩ := remove_props hwf1 he hk1
  have hsm2 : start ∈ bbFinset
      (((X0.unsetCapturedRookRights b.turn b.turn.negate finish).remove finish).query
        moving b.turn) := by
    rw [hq2 start moving b.turn hne, hsame1.query]
    exact hsm
  exact hc_movePiece hw2 hs he hne ⟨moving, b.turn⟩ hsm2 ho2 hc2

theorem makeMove_hc_capture {b : ChessBoard} (hwf : WellFormedBoard b)
    {start finish : Nat} {moving : PieceType}
    (hs : start < 64) (he : finish < 64) (hne : start ≠ finish)
    (hsm : start ∈ bbFinset (b.query moving b.turn))
    (hcapt : finish ∈ bbFinset (b.color_bbs b.turn.negate))
    (hc : b.hash = scratchHash b) :
    (b.makeMove (.capture start finish moving)).hash =
      scratchHash (b.makeMove (.capture start finish moving)) := by
  have hpre : SameBBs b b.clearEp.toggleTurn :=
    (sameBBs_clearEp b).trans (sameBBs_toggleTurn b.clearEp)
  have hc1 : b.clearEp.toggleTurn.hash = scratchHash b.clearEp.toggleTurn :=
    hc_toggleTurn (hc_clearEp hc)
  unfold ChessBoard.makeMove
  dsimp only
  refine hc_assemble ?_ _
  split
  · exact capture_core_hc (hpre.trans (sameBBs_unsetColorRights _ b.turn)) hwf hs he hne
      hsm hcapt (hc_unsetColorRights b.turn hc1)
  split
  · exact capture_core_hc (hpre.trans (sameBBs_unsetMovedRookRights _ b.turn start)) hwf
      hs he hne hsm hcapt (hc_unsetMovedRookRights b.turn start hc1)
  · exact capture_core_hc hpre hwf hs he hne hsm hcapt hc1

theorem makeMove_hc_promote {b : ChessBoard} (hwf : WellFormedBoard b)
    {start finish : Nat} {target : PieceType}
    (hs : start < 64) (he : finish < 64) (hne : start ≠ finish)
    (hsm : start ∈ bbFinset (b.query .pawn b.turn))
    (hemp : finish ∉ bbFinset b.occupancy) (hc : b.hash = scratchHash b) :
    (b.makeMove (.promote start finish target)).hash =
      scratchHash (b.makeMove (.promote start finish target)) := by
  have hpre : SameBBs b b.clearEp.toggleTurn :=
    (sameBBs_clearEp b).trans (sameBBs_toggleTurn b.clearEp)
  have hc1 : b.clearEp.toggleTurn.hash = scratchHash b.clearEp.toggleTurn :=
    hc_toggleTurn (hc_clearEp hc)
  unfold ChessBoard.makeMove
  dsimp only
  refine hc_assemble ?_ _
  have hwf1 : WellFormedBoard b.clearEp.toggleTurn := hpre.wf hwf
  have hsm1 : start ∈ bbFinset (b.clearEp.toggleTurn.query .pawn b.turn) := by
    rw [hpre.query]
    exact hsm
  have hemp1 : finish ∉ bbFinset b.clearEp.toggleTurn.occupancy := by
    rw [hpre.occ]
    exact hemp
  have hemp2 : finish ∉ bbFinset (b.clearEp.toggleTurn.remove start).occupancy :=
    remove_keeps_out hwf1 hs hsm1 (fun hh => hne hh.symm) hemp1
  exact hc_insert (remove_props hwf1 hs hsm1).1 he ⟨target, b.turn⟩ hemp2
    (hc_remove hwf1 hs hsm1 hc1)

theorem makeMove_hc_promoteCapture {b : ChessBoard} (hwf : WellFormedBoard b)
    {start finish : Nat} {target : PieceType}
    (hs : start < 64) (he : finish < 64) (hne : start ≠ finish)
    (hsm : start ∈ bbFinset (b.query .pawn b.turn))
    (hcapt : finish ∈ bbFinset (b.color_bbs b.turn.negate))
    (hc : b.hash = scratchHash b) :
    (b.makeMove (.promoteCapture start finish target)).hash =
      scratchHash (b.makeMove (.promoteCapture start finish target)) := by
  have hpre : SameBBs b b.clearEp.toggleTurn :=
    (sameBBs_clearEp b).trans (sameBBs_toggleTurn b.clearEp)
  have hc1 : b.clearEp.toggleTurn.hash = scratchHash b.clearEp.toggleTurn :=
    hc_toggleTurn (hc_clearEp hc)
  unfold ChessBoard.makeMove
  dsimp only
  refine hc_assemble ?_ _
  have hsame1 : SameBBs b
      (b.clearEp.toggleTurn.unsetCapturedRookRights b.turn b.turn.negate finish) :=
    hpre.trans (sameBBs_unsetCapturedRookRights _ b.turn b.turn.negate finish)
  obtain ⟨k0, hk0⟩ := mem_color_exists_kind hwf b.turn.negate hcapt
  have hwf1 : WellFormedBoard _ := hsame1.wf hwf
  have hk1 : finish ∈ bbFinset
      ((b.clearEp.toggleTurn.unsetCapturedRookRights b.turn b.turn.negate finish).query
        k0 b.turn.negate) := by
    rw [hsame1.query]
    exact hk0
  have hcA : (b.clearEp.toggleTurn.unsetCapturedRookRights b.turn b.turn.negate finish).hash =
      scratchHash (b.clearEp.toggleTurn.unsetCapturedRookRights b.turn b.turn.negate finish) :=
    hc_unsetCapturedRookRights b.turn b.turn.negate finish hc1
  obtain ⟨hw2, hq2, hc2q, ho2⟩ := remove_props hwf1 he hk1
  have hsm2 : start ∈ bbFinset
      (((b.clearEp.toggleTurn.unsetCapturedRookRights b.turn b.turn.negate finish).remove
        finish).query .pawn b.turn) := by
    rw [hq2 start .pawn b.turn hne, hsame1.query]
    exact hsm
  obtain ⟨hw3, hq3, hc3q, ho3⟩ := remove_props hw2 hs hsm2
  have hemp3 : finish ∉ bbFinset
      ((((b.clearEp.toggleTurn.unsetCapturedRookRights b.turn b.turn.negate finish).remove
        finish).remove start).occupancy) :=
    remove_keeps_out hw2 hs hsm2 (fun hh => hne hh.symm) ho2
  exact hc_insert hw3 he ⟨target, b.turn⟩ hemp3
    (hc_remove hw2 hs hsm2 (hc_remove hwf1 he hk1 hcA))

theorem makeMove_hc_enPassant {b : ChessBoard} (hwf : WellFormedBoard b)
    {start finish : Nat} (hs : start < 64) (he : finish < 64)
    (hcs : ChessBoard.epVictimSquare b.turn finish < 64) (hne : start ≠ finish)
    (hcs_s : ChessBoard.epVictimSquare b.turn finish ≠ start)
    (hcs_f : ChessBoard.epVictimSquare b.turn finish ≠ finish)
    (hsm : start ∈ bbFinset (b.query .pawn b.turn))
    (hcapt : ChessBoard.epVictimSquare b.turn finish ∈ bbFinset (b.color_bbs b.turn.negate))
    (hemp : finish ∉ bbFinset b.occupancy) (hc : b.hash = scratchHash b) :
    (b.makeMove (.enPassant start finish)).hash =
      scratchHash (b.makeMove (.enPassant start finish)) := by
  have hpre : SameBBs b b.clearEp.toggleTurn :=
    (sameBBs_clearEp b).trans (sameBBs_toggleTurn b.clearEp)
  have hc1 : b.clearEp.toggleTurn.hash = scratchHash b.clearEp.toggleTurn :=
    hc_toggleTurn (hc_clearEp hc)
  unfold ChessBoard.makeMove
  dsimp only
  refine hc_assemble ?_ _
  obtain ⟨k0, hk0⟩ := mem_color_exists_kind hwf b.turn.negate hcapt
  have hwf1 : WellFormedBoard b.clearEp.toggleTurn := hpre.wf hwf
  have hk1 : ChessBoard.epVictimSquare b.turn finish ∈ bbFinset
      (b.clearEp.toggleTurn.query k0 b.turn.negate) := by
    rw [hpre.query]
    exact hk0
  obtain ⟨hw2, hq2, hc2q, ho2⟩ := remove_props hwf1 hcs hk1
  have hsm2 : start ∈ bbFinset
      ((b.clearEp.toggleTurn.remove (ChessBoard.epVictimSquare b.turn finish)).query
        .pawn b.turn) := by
    rw [hq2 start .pawn b.turn (fun hh => hcs_s hh.symm), hpre.query]
    exact hsm
  have hemp1 : finish ∉ bbFinset b.clearEp.toggleTurn.occupancy := by
    rw [hpre.occ]
    exact hemp
  have hemp2 : finish ∉ bbFinset
      ((b.clearEp.toggleTurn.remove (ChessBoard.epVictimSquare b.turn finish)).occupancy) :=
    remove_keeps_out hwf1 hcs hk1 (fun hh => hcs_f hh.symm) hemp1
  exact hc_movePiece hw2 hs he hne ⟨.pawn, b.turn⟩ hsm2 hemp2
    (hc_remove hwf1 hcs hk1 hc1)

theorem makeMove_hc_castle {b : ChessBoard} (hwf : WellFormedBoard b)
    {start finish : Nat} {side : CastleSide}
    (hs : start < 64) (he : finish < 64) (hne : start ≠ finish)
    (hr1 : start ≠ (ChessBoard.castleRookSquares b.turn side).1)
    (hr2 : start ≠ (ChessBoard.castleRookSquares b.turn side).2)
    (hf1 : finish ≠ (ChessBoard.castleRookSquares b.turn side).1)
    (hf2 : finish ≠ (ChessBoard.castleRookSquares b.turn side).2)
    (hkm : start ∈ bbFinset (b.query .king b.turn))
    (hrm : (ChessBoard.castleRookSquares b.turn side).1 ∈ bbFinset (b.query .rook b.turn))
    (hemp : finish ∉ bbFinset b.occupancy)
    (hremp : (ChessBoard.castleRookSquares b.turn side).2 ∉ bbFinset b.occupancy)
    (hc : b.hash = scratchHash b) :
    (b.makeMove (.castle start finish side)).hash =
      scratchHash (b.makeMove (.castle start finish side)) := by
  have hpre : SameBBs b b.clearEp.toggleTurn :=
    (sameBBs_clearEp b).trans (sameBBs_toggleTurn b.clearEp)
  have hc1 : b.clearEp.toggleTurn.hash = scratchHash b.clearEp.toggleTurn :=
    hc_toggleTurn (hc_clearEp hc)
  obtain ⟨hrs, hre, hrsne⟩ := castleRookSquares_facts b.turn side
  unfold ChessBoard.makeMove
  dsimp only
  refine hc_assemble ?_ _
  refine hc_unsetColorRights b.turn ?_
  have hwf1 : WellFormedBoard b.clearEp.toggleTurn := hpre.wf hwf
  have hrm1 : (ChessBoard.castleRookSquares b.turn side).1 ∈ bbFinset
      (b.clearEp.toggleTurn.query .rook b.turn) := by
    rw [hpre.query]
    exact hrm
  have hremp1 : (ChessBoard.castleRookSquares b.turn side).2 ∉ bbFinset
      b.clearEp.toggleTurn.occupancy := by
    rw [hpre.occ]
    exact hremp
  obtain ⟨hw2, hq2, ho2⟩ := movePiece_props hwf1 hrs hre hrsne ⟨.rook, b.turn⟩ hrm1 hremp1
  have hkm2 : start ∈ bbFinset
      ((b.clearEp.toggleTurn.movePiece (ChessBoard.castleRookSquares b.turn side).1
        (ChessBoard.castleRookSquares b.turn side).2 ⟨.rook, b.turn⟩).query .king b.turn) := by
    rw [hq2 start .king b.turn hr1 hr2, hpre.query]
    exact hkm
  have hemp2 : finish ∉ bbFinset
      ((b.clearEp.toggleTurn.movePiece (ChessBoard.castleRookSquares b.turn side).1
        (ChessBoard.castleRookSquares b.turn side).2 ⟨.rook, b.turn⟩).occupancy) := by
    intro hmem
    refine hemp ?_
    rw [← hpre.occ]
    exact (ho2 finish hf1 hf2).mp hmem
  exact hc_movePiece hw2 hs he hne ⟨.king, b.turn⟩ hkm2 hemp2
    (hc_movePiece hwf1 hrs hre hrsne ⟨.rook, b.turn⟩ hrm1 hremp1 hc1)

/-- C6: `ChessBoard::make_move` keeps the Zobrist hash equal to the
from-scratch hash of the resulting position, for every applicable move of
every kind. -/
theorem makeMove_hash_matches_scratch (b : ChessBoard) (mv : Move)
    (hwf : WellFormedBoard b) (happ : MoveApplicable b mv)
    (hcons : b.hash = scratchHash b) :
    (b.makeMove mv).hash = scratchHash (b.makeMove mv) := by
  cases mv with
  | quiet start finish moving =>
    obtain ⟨hs, he, hne, hsm, hemp⟩ := happ
    exact makeMove_hc_quiet hwf hs he hne hsm hemp hcons
  | capture start finish moving =>
    obtain ⟨hs, he, hne, hsm, hcapt⟩ := happ
    exact makeMove_hc_capture hwf hs he hne hsm hcapt hcons
  | castle start finish side =>
    obtain ⟨hs, he, hne, hr1, hr2, hf1, hf2, hkm, hrm, hemp, hremp⟩ := happ
    exact makeMove_hc_castle hwf hs he hne hr1 hr2 hf1 hf2 hkm hrm hemp hremp hcons
  | doublePawnPush start finish =>
    obtain ⟨hs, he, hne, hsm, hemp⟩ := happ
    exact makeMove_hc_dpp hwf hs he hne hsm hemp hcons
  | enPassant start finish =>
    obtain ⟨hs, he, hcs, hne, hcs_s, hcs_f, hsm, hcapt, hemp⟩ := happ
    exact makeMove_hc_enPassant hwf hs he hcs hne hcs_s hcs_f hsm hcapt hemp hcons
  | promote start finish target =>
    obtain ⟨hs, he, hne, hsm, hemp⟩ := happ
    exact makeMove_hc_promote hwf hs he hne hsm hemp hcons
  | promoteCapture start finish target =>
    obtain ⟨hs, he, hne, hsm, hcapt⟩ := happ
    exact makeMove_hc_promoteCapture hwf hs he hne hsm hcapt hcons

/-- C6 witness: the double pawn push e2e4 from the start position; the
incremental hash equals the from-scratch hash, and rebuilding the resulting
position piece by piece through `BoardBuilder` (turn, castling rights and
en-passant square included) reaches `from_builder` with exactly that hash. -/
theorem makeMove_hash_matches_scratch_witness :
    (ChessBoard.new.makeMove (.doublePawnPush 12 28)).hash =
      scratchHash (ChessBoard.new.makeMove (.doublePawnPush 12 28)) ∧
    (ChessBoard.fromBuilder c6Builder).toOption.map ChessBoard.hash =
      some (ChessBoard.new.makeMove (.doublePawnPush 12 28)).hash :=
  ⟨makeMove_hash_matches_scratch ChessBoard.new (.doublePawnPush 12 28)
      ⟨by decide, by decide, by decide, by decide, by decide⟩
      ⟨by decide, by decide, by decide, by decide, by decide⟩ (by decide),
    by decide⟩

end RChess
